import Mathlib

/-!
# Apple //e core (`src/systems/apple2e.h`): memory map, soft switches, keyboard latch,
tick orchestrator and renderer

A shallow embedding of the bank-switched memory map, the `$C000-$C0FF` soft-switch
dispatcher, the CPU bus router `_apple2e_mem_rw`, the keyboard entry point, the tick
orchestrator, the snapshot loader and the video renderer of the Apple //e emulator,
followed by theorems about them.

Conventions of the embedding:

* `uint8_t`/`uint16_t`/`uint32_t` values are `Nat`; the C `int key_code` is an `Int`,
  and the store into the `uint8_t` latch is an explicit reduction modulo 256.
* A C pointer into one of the byte arrays is a pair (region, offset), `mem_ptr`.
* The byte arrays (`ram`, `aux_ram`, the ROM images, the framebuffer) are functions
  `Nat → Nat` from index to byte.
* `bool rw` is `true` for a CPU read and `false` for a CPU write, as in the source.
* A counted `for` loop is `loop body n st`; a loop that only fills the framebuffer or
  a local array has that array (and the values carried from pass to pass) as state.
* The array accesses of the renderer are listed by the `.._accesses` functions, one
  per source function, pass by pass of the same loops.
-/

namespace Apple2e

/-! ## Constants -/

def APPLE2E_SNAPSHOT_VERSION : Nat := 1
def APPLE2E_FREQUENCY : Nat := 1021800
def APPLE2E_MAX_AUDIO_SAMPLES : Nat := 2048
def APPLE2E_DEFAULT_AUDIO_SAMPLES : Nat := 2048
def APPLE2E_SCREEN_WIDTH : Nat := 560
def APPLE2E_SCREEN_HEIGHT : Nat := 192
def APPLE2E_FRAMEBUFFER_SIZE : Nat := (APPLE2E_SCREEN_WIDTH / 2) * APPLE2E_SCREEN_HEIGHT

/-! ## Pointers and the page table (`chips/mem.h`) -/

/-- The byte arrays a page-table pointer can point into. `junk` stands for the
write sink of a read-only page (and the source of an unmapped one). -/
inductive mem_region where
  | ram
  | aux_ram
  | rom
  | junk
  deriving DecidableEq, Repr

/-- A `uint8_t*` into one of the regions: region and byte offset. -/
structure mem_ptr where
  region : mem_region
  off : Nat
  deriving DecidableEq, Repr

/-- Pointer arithmetic `ptr + n`. -/
def mem_ptr.add (p : mem_ptr) (n : Nat) : mem_ptr := { region := p.region, off := p.off + n }

/-- One entry of a bank table: `mem_bank_t` of the source. -/
structure mem_bank_t where
  read_ptr : mem_ptr
  write_ptr : mem_ptr
  deriving DecidableEq, Repr

/-- One page-table entry: the read pointer and the write pointer of a 256-byte page. -/
structure mem_page_t where
  read_ptr : mem_ptr
  write_ptr : mem_ptr
  deriving DecidableEq, Repr

/-- Modelled from the spec: `mem_t` of `chips/mem.h`, which is not part of the sources
at hand. "For each 256-byte page the table holds a read pointer and a write pointer";
the table is indexed by the page number `addr / 256`. Only layer 0 is ever used by
the machine, so the layer argument of the mapping functions is dropped. -/
structure mem_t where
  page_table : Nat → mem_page_t

/-- The write sink of read-only and unmapped pages. -/
def mem_junk : mem_ptr := { region := mem_region.junk, off := 0 }

/-- Modelled from the spec: `mem_init` of `chips/mem.h`; every page starts unmapped. -/
def mem_init : mem_t := { page_table := fun _ => { read_ptr := mem_junk, write_ptr := mem_junk } }

/-- Modelled from the spec: `mem_map_rw(mem, 0, addr, size, read_ptr, write_ptr)` of
`chips/mem.h`: every page that starts inside `[addr, addr + size)` gets the read and
the write pointer advanced by the page's distance from `addr`. All calls in the
source use page-aligned `addr` and `size`. -/
def mem_map_rw (m : mem_t) (addr size : Nat) (read_ptr write_ptr : mem_ptr) : mem_t :=
  { page_table := fun p =>
      if addr ≤ p * 256 ∧ p * 256 < addr + size then
        { read_ptr := read_ptr.add (p * 256 - addr), write_ptr := write_ptr.add (p * 256 - addr) }
      else m.page_table p }

/-- Modelled from the spec: `mem_map_ram` of `chips/mem.h`: reads and writes go to
the same bytes. -/
def mem_map_ram (m : mem_t) (addr size : Nat) (ptr : mem_ptr) : mem_t :=
  mem_map_rw m addr size ptr ptr

/-- Modelled from the spec: `mem_map_rom` of `chips/mem.h`: reads come from `ptr`,
"write to a read-only region has no effect" (the write pointer is the junk sink). -/
def mem_map_rom (m : mem_t) (addr size : Nat) (ptr : mem_ptr) : mem_t :=
  { page_table := fun p =>
      if addr ≤ p * 256 ∧ p * 256 < addr + size then
        { read_ptr := ptr.add (p * 256 - addr), write_ptr := mem_junk }
      else m.page_table p }

/-! ## Collaborator state -/

/-- Modelled from the spec: the beeper collaborator (`chips/beeper.h`): the output
level flipped by `beeper_toggle`, and `st` for the rest of its internal state. -/
structure beeper_t where
  state : Bool
  st : Nat
  deriving DecidableEq, Repr

/-- Modelled from the spec: the Disk II controller, opaque to the core except for
its `valid` flag; `st` encodes its internal state. -/
structure disk2_fdc_t where
  valid : Bool
  st : Nat
  deriving DecidableEq, Repr

/-- Modelled from the spec: the ProDOS hard-disk controller, opaque to the core
except for its `valid` flag; `st` encodes its internal state. -/
structure prodos_hdc_t where
  valid : Bool
  st : Nat
  deriving DecidableEq, Repr

/-- Modelled from the spec: the process-wide 65C02 collaborator, an "opaque
collaborator exposing tick, reset, data-bus getter/setter, address-is-in-$Cxxx flag,
slot-data flag": the data-bus latch, the two flags, and `st` for the rest. -/
structure wdc65C02cpu_t where
  data : Nat
  cxxx : Bool
  dataSlots : Bool
  st : Nat
  deriving DecidableEq, Repr

/-! ## Machine state -/

/-- The emulator state `apple2e_t`. The field `cpu` is the process-wide 65C02
collaborator, carried next to the machine because every bus access goes through
its data latch. -/
structure apple2e_t where
  beeper : beeper_t
  mem : mem_t
  valid : Bool
  audio_num_samples : Nat
  audio_sample_pos : Nat
  audio_sample_buffer : Nat → Nat
  ram : Nat → Nat
  aux_ram : Nat → Nat
  rom : Nat → Nat
  character_rom : Nat → Nat
  fdc_rom : Nat → Nat
  hdc_rom : Nat → Nat
  text : Bool
  mixed : Bool
  page2 : Bool
  hires : Bool
  dhires : Bool
  flash : Bool
  _80col : Bool
  altcharset : Bool
  _80store : Bool
  ramrd : Bool
  ramwrt : Bool
  altzp : Bool
  intcxrom : Bool
  slotc3rom : Bool
  lcram : Bool
  lcbnk2 : Bool
  prewrite : Bool
  write_enabled : Bool
  ioudis : Bool
  vbl : Bool
  flash_timer_ticks : Nat
  text_page1_dirty : Bool
  text_page2_dirty : Bool
  hires_page1_dirty : Bool
  hires_page2_dirty : Bool
  fb : Nat → Nat
  fdc : disk2_fdc_t
  hdc : prodos_hdc_t
  last_key_code : Nat
  open_apple_pressed : Bool
  solid_apple_pressed : Bool
  system_ticks : Nat
  vbl_ticks : Nat
  cpu : wdc65C02cpu_t

/-- Modelled from the spec: `mem_rd` of `chips/mem.h`: the byte under the read
pointer of the page of `addr`, at the in-page offset `addr & 0xFF`. -/
def mem_rd (sys : apple2e_t) (addr : Nat) : Nat :=
  let p := (sys.mem.page_table (addr / 256)).read_ptr
  match p.region with
  | mem_region.ram => sys.ram (p.off + addr % 256)
  | mem_region.aux_ram => sys.aux_ram (p.off + addr % 256)
  | mem_region.rom => sys.rom (p.off + addr % 256)
  | mem_region.junk => 0xFF

/-- Modelled from the spec: `mem_wr` of `chips/mem.h`: store under the write pointer
of the page of `addr`; a store through a read-only page has no effect. ROM images
are never the target of a write pointer. -/
def mem_wr (sys : apple2e_t) (addr : Nat) (data : Nat) : apple2e_t :=
  let p := (sys.mem.page_table (addr / 256)).write_ptr
  match p.region with
  | mem_region.ram =>
      { sys with ram := fun i => if i = p.off + addr % 256 then data else sys.ram i }
  | mem_region.aux_ram =>
      { sys with aux_ram := fun i => if i = p.off + addr % 256 then data else sys.aux_ram i }
  | mem_region.rom => sys
  | mem_region.junk => sys

/-! ## Bank tables -/

def p_ram (off : Nat) : mem_ptr := { region := mem_region.ram, off := off }
def p_aux (off : Nat) : mem_ptr := { region := mem_region.aux_ram, off := off }
def p_rom (off : Nat) : mem_ptr := { region := mem_region.rom, off := off }

/-- The four-entry bank table at base offset `base`, as filled in by
`_apple2e_init_memorymap`: `{ram, ram}, {aux, ram}, {ram, aux}, {aux, aux}`. -/
def mem_bank_4 (base : Nat) (bank : Nat) : mem_bank_t :=
  if bank = 0 then { read_ptr := p_ram base, write_ptr := p_ram base }
  else if bank = 1 then { read_ptr := p_aux base, write_ptr := p_ram base }
  else if bank = 2 then { read_ptr := p_ram base, write_ptr := p_aux base }
  else { read_ptr := p_aux base, write_ptr := p_aux base }

/-- `mem_bank_0000[2]`: `{ram, ram}, {aux_ram, aux_ram}`. -/
def mem_bank_0000 (bank : Nat) : mem_bank_t :=
  if bank = 0 then { read_ptr := p_ram 0, write_ptr := p_ram 0 }
  else { read_ptr := p_aux 0, write_ptr := p_aux 0 }

def mem_bank_0200 : Nat → mem_bank_t := mem_bank_4 0x200
def mem_bank_0400 : Nat → mem_bank_t := mem_bank_4 0x400
def mem_bank_0800 : Nat → mem_bank_t := mem_bank_4 0x800
def mem_bank_2000 : Nat → mem_bank_t := mem_bank_4 0x2000
def mem_bank_4000 : Nat → mem_bank_t := mem_bank_4 0x4000

/-- The index `(sys->ramrd ? 1 : 0) | (sys->ramwrt ? 2 : 0)`. -/
def ramwr_of (sys : apple2e_t) : Nat :=
  (if sys.ramrd then 1 else 0) ||| (if sys.ramwrt then 2 else 0)

def _apple2e_text_bank_update (sys : apple2e_t) : apple2e_t :=
  let ramwr := ramwr_of sys
  let bank := if sys._80store then (if sys.page2 then 3 else 0) else ramwr
  { sys with mem := (mem_map_rw sys.mem 0x0400 0x400
      (mem_bank_0400 bank).read_ptr (mem_bank_0400 bank).write_ptr) }

def _apple2e_hires_bank_update (sys : apple2e_t) : apple2e_t :=
  let ramwr := ramwr_of sys
  let bank := if sys._80store && sys.hires then (if sys.page2 then 3 else 0) else ramwr
  { sys with mem := (mem_map_rw sys.mem 0x2000 0x2000
      (mem_bank_2000 bank).read_ptr (mem_bank_2000 bank).write_ptr) }

def _apple2e_aux_bank_update (sys : apple2e_t) : apple2e_t :=
  let ramwr := ramwr_of sys
  let s1 : apple2e_t := { sys with mem := (mem_map_rw sys.mem 0x0200 0x200
      (mem_bank_0200 ramwr).read_ptr (mem_bank_0200 ramwr).write_ptr) }
  let s2 := if !s1._80store then _apple2e_text_bank_update s1 else s1
  let s3 : apple2e_t := { s2 with mem := (mem_map_rw s2.mem 0x0800 0x1800
      (mem_bank_0800 ramwr).read_ptr (mem_bank_0800 ramwr).write_ptr) }
  let s4 := if !(s3._80store && s3.hires) then _apple2e_hires_bank_update s3 else s3
  { s4 with mem := (mem_map_rw s4.mem 0x4000 0x8000
      (mem_bank_4000 ramwr).read_ptr (mem_bank_4000 ramwr).write_ptr) }

def _apple2e_lc_bank_update (sys : apple2e_t) : apple2e_t :=
  let ram_ptr : mem_ptr := if sys.altzp then p_aux 0 else p_ram 0
  let bank_offset : Nat := 0xC000 + (if sys.lcbnk2 then 0x1000 else 0x0000)
  if sys.lcram then
    if sys.write_enabled then
      { sys with mem :=
          (mem_map_ram (mem_map_ram sys.mem 0xD000 0x1000 (ram_ptr.add bank_offset))
            0xE000 0x2000 (ram_ptr.add 0xE000)) }
    else
      { sys with mem :=
          (mem_map_rom (mem_map_rom sys.mem 0xD000 0x1000 (ram_ptr.add bank_offset))
            0xE000 0x2000 (ram_ptr.add 0xE000)) }
  else
    if sys.write_enabled then
      { sys with mem :=
          (mem_map_rw (mem_map_rw sys.mem 0xD000 0x1000 (p_rom 0x1000) (ram_ptr.add bank_offset))
            0xE000 0x2000 (p_rom 0x2000) (ram_ptr.add 0xE000)) }
    else
      { sys with mem := mem_map_rom sys.mem 0xD000 0x3000 (p_rom 0x1000) }

def _apple2e_altzp_update (sys : apple2e_t) : apple2e_t :=
  let idx : Nat := if sys.altzp then 1 else 0
  _apple2e_lc_bank_update
    { sys with mem := (mem_map_rw sys.mem 0x0000 0x200
        (mem_bank_0000 idx).read_ptr (mem_bank_0000 idx).write_ptr) }

def _apple2e_lc_control (sys : apple2e_t) (offset : Nat) (rw : Bool) : apple2e_t :=
  let s1 : apple2e_t :=
    if offset &&& 1 = 0 then { sys with prewrite := false, write_enabled := false } else sys
  let s2 : apple2e_t :=
    if !rw then { s1 with prewrite := false }
    else if offset &&& 1 = 1 then
      (if !s1.prewrite then { s1 with prewrite := true } else { s1 with write_enabled := true })
    else s1
  let s3 : apple2e_t :=
    if offset &&& 3 = 0 ∨ offset &&& 3 = 3 then { s2 with lcram := true }
    else if offset &&& 3 = 1 ∨ offset &&& 3 = 2 then { s2 with lcram := false }
    else s2
  let s4 : apple2e_t := { s3 with lcbnk2 := (offset &&& 8 = 0) }
  _apple2e_lc_bank_update s4

/-! ## Collaborator interfaces -/

/-- Modelled from the spec: the operations of the out-of-scope collaborators that the
routines below call. The hard-disk controller's register write "also receives a
reference to the MMU because ProDOS command blocks reference guest memory for
DMA-like transfers": it sees guest memory through `mem_rd` (the function argument)
and answers with its new state and the list of `(address, byte)` stores it performs
through `mem_wr`, in order. -/
structure collab_t where
  beeper_init : beeper_t → beeper_t
  beeper_reset : beeper_t → beeper_t
  disk2_fdc_init : disk2_fdc_t → disk2_fdc_t
  disk2_fdc_reset : disk2_fdc_t → disk2_fdc_t
  disk2_fdd_insert_disk : disk2_fdc_t → Nat → disk2_fdc_t
  prodos_hdc_init : prodos_hdc_t → prodos_hdc_t
  prodos_hdc_reset : prodos_hdc_t → prodos_hdc_t
  prodos_hdd_insert_disk_internal : prodos_hdc_t → Nat → prodos_hdc_t
  prodos_hdc_read_byte : prodos_hdc_t → Nat → Nat × prodos_hdc_t
  prodos_hdc_write_byte : prodos_hdc_t → Nat → Nat → (Nat → Nat) → prodos_hdc_t × List (Nat × Nat)
  wdc65C02cpu_init : wdc65C02cpu_t → wdc65C02cpu_t
  wdc65C02cpu_reset : wdc65C02cpu_t → wdc65C02cpu_t
  /-- The call `wdc65C02cpu_tick(&addr, &rw)`: the CPU after one cycle, and the address and
  access kind of the bus transaction of that cycle. -/
  wdc65C02cpu_tick : wdc65C02cpu_t → wdc65C02cpu_t × Nat × Bool
  /-- The call `beeper_tick`: the beeper after one tick, and whether a new sample is ready. -/
  beeper_tick : beeper_t → beeper_t × Bool
  /-- The byte `(uint8_t)(beeper.sample * 255.0f)` of the current sample. -/
  beeper_sample_byte : beeper_t → Nat
  disk2_fdc_tick : disk2_fdc_t → disk2_fdc_t
  /-- The call `disk2_fdc_snapshot_onload(&im.fdc, &sys->fdc)`: the snapshot's controller with
  the pointers of the live one restored. -/
  disk2_fdc_snapshot_onload : disk2_fdc_t → disk2_fdc_t → disk2_fdc_t

/-- `wdc65C02cpu_set_data(data)`. -/
def wdc65C02cpu_set_data (sys : apple2e_t) (data : Nat) : apple2e_t :=
  { sys with cpu := { sys.cpu with data := data } }

/-- `wdc65C02cpu_get_data()`. -/
def wdc65C02cpu_get_data (sys : apple2e_t) : Nat := sys.cpu.data

/-- `wdc65C02cpu_set_cxxx(b)`. -/
def wdc65C02cpu_set_cxxx (sys : apple2e_t) (b : Bool) : apple2e_t :=
  { sys with cpu := { sys.cpu with cxxx := b } }

/-- `wdc65C02cpu_set_dataSlots(b)`. -/
def wdc65C02cpu_set_dataSlots (sys : apple2e_t) (b : Bool) : apple2e_t :=
  { sys with cpu := { sys.cpu with dataSlots := b } }

/-- `beeper_toggle(&sys->beeper)`. -/
def beeper_toggle (sys : apple2e_t) : apple2e_t :=
  { sys with beeper := { sys.beeper with state := !sys.beeper.state } }

/-- The stores a collaborator performs through `mem_wr`, applied in order. -/
def mem_wr_list (sys : apple2e_t) : List (Nat × Nat) → apple2e_t
  | [] => sys
  | w :: ws => mem_wr_list (mem_wr sys w.1 w.2) ws

/-! ## Soft switches `$C000-$C0FF` -/

def _apple2e_mem_c000_c00f_w (sys : apple2e_t) (addr : Nat) : apple2e_t :=
  let n := addr &&& 0xF
  if n = 0x00 then  -- 80STOREOFF
    if sys._80store then
      _apple2e_hires_bank_update (_apple2e_text_bank_update { sys with _80store := false })
    else sys
  else if n = 0x01 then  -- 80STOREON
    if !sys._80store then
      _apple2e_hires_bank_update (_apple2e_text_bank_update { sys with _80store := true })
    else sys
  else if n = 0x02 then  -- RAMRDOFF
    if sys.ramrd then _apple2e_aux_bank_update { sys with ramrd := false } else sys
  else if n = 0x03 then  -- RAMRDON
    if !sys.ramrd then _apple2e_aux_bank_update { sys with ramrd := true } else sys
  else if n = 0x04 then  -- RAMWRTOFF
    if sys.ramwrt then _apple2e_aux_bank_update { sys with ramwrt := false } else sys
  else if n = 0x05 then  -- RAMWRTON
    if !sys.ramwrt then _apple2e_aux_bank_update { sys with ramwrt := true } else sys
  else if n = 0x06 then { sys with intcxrom := false }  -- INTCXROMOFF
  else if n = 0x07 then { sys with intcxrom := true }  -- INTCXROMON
  else if n = 0x08 then  -- ALTZPOFF
    if sys.altzp then _apple2e_altzp_update { sys with altzp := false } else sys
  else if n = 0x09 then  -- ALTZPON
    if !sys.altzp then _apple2e_altzp_update { sys with altzp := true } else sys
  else if n = 0x0A then { sys with slotc3rom := false }  -- SETINTC3ROM
  else if n = 0x0B then { sys with slotc3rom := true }  -- SETSLOTC3ROM
  else if n = 0x0C then { sys with _80col := false }  -- 80COLOFF
  else if n = 0x0D then { sys with _80col := true }  -- 80COLON
  else if n = 0x0E then { sys with altcharset := false }  -- ALTCHARSETOFF
  else if n = 0x0F then { sys with altcharset := true }  -- ALTCHARSETON
  else sys

/-- The status byte `flag ? 0x80 : 0x00`. -/
def status_byte (flag : Bool) : Nat := if flag then 0x80 else 0x00

def _apple2e_mem_c010_c01f_r (sys : apple2e_t) (addr : Nat) : apple2e_t :=
  let n := addr &&& 0x1F
  let data : Nat :=
    if n = 0x11 then status_byte sys.lcbnk2
    else if n = 0x12 then status_byte sys.lcram
    else if n = 0x13 then status_byte sys.ramrd
    else if n = 0x14 then status_byte sys.ramwrt
    else if n = 0x15 then status_byte sys.intcxrom
    else if n = 0x16 then status_byte sys.altzp
    else if n = 0x17 then status_byte sys.slotc3rom
    else if n = 0x18 then status_byte sys._80store
    else if n = 0x19 then status_byte sys.vbl
    else if n = 0x1A then status_byte sys.text
    else if n = 0x1B then status_byte sys.mixed
    else if n = 0x1C then status_byte sys.page2
    else if n = 0x1D then status_byte sys.hires
    else if n = 0x1E then status_byte sys.altcharset
    else if n = 0x1F then status_byte sys._80col
    else 0
  wdc65C02cpu_set_data sys data

/-- The `default:` arm of the switch in `_apple2e_mem_c000_c0ff_rw`. The source
defines `APPLE2E_REAL_FLOPPY` (as `0`), so of the two `#ifdef APPLE2E_REAL_FLOPPY`
alternatives for slot 6 the first one is compiled: the slot-data flag is raised and
the floppy controller is not consulted. -/
def _apple2e_mem_c000_c0ff_rw_default (X : collab_t) (sys : apple2e_t) (addr : Nat) (rw : Bool) :
    apple2e_t :=
  if 0xC000 ≤ addr ∧ addr ≤ 0xC00F then
    -- Keyboard latch
    let s1 := wdc65C02cpu_set_dataSlots sys false
    if rw then wdc65C02cpu_set_data s1 s1.last_key_code
    else _apple2e_mem_c000_c00f_w s1 addr
  else if 0xC010 < addr ∧ addr ≤ 0xC01F then
    let s1 := wdc65C02cpu_set_dataSlots sys false
    if rw then _apple2e_mem_c010_c01f_r s1 addr else s1
  else if 0xC030 ≤ addr ∧ addr ≤ 0xC03F then
    -- Speaker
    beeper_toggle (wdc65C02cpu_set_dataSlots sys true)
  else if 0xC080 ≤ addr ∧ addr ≤ 0xC08F then
    -- 16K Language Card
    let s1 := wdc65C02cpu_set_dataSlots sys false
    let s2 := _apple2e_lc_control s1 (addr &&& 0xF) rw
    if rw then wdc65C02cpu_set_data s2 0xFF else s2
  else if 0xC0A0 ≤ addr ∧ addr ≤ 0xC0AF then  -- Slot 2
    wdc65C02cpu_set_dataSlots sys true
  else if 0xC0C0 ≤ addr ∧ addr ≤ 0xC0CF then  -- Slot 4
    wdc65C02cpu_set_dataSlots sys true
  else if 0xC0E0 ≤ addr ∧ addr ≤ 0xC0EF then  -- Slot 6
    wdc65C02cpu_set_dataSlots sys true
  else if 0xC0F0 ≤ addr ∧ addr ≤ 0xC0FF then
    -- ProDOS HDC
    let s1 := wdc65C02cpu_set_dataSlots sys false
    if rw then
      if s1.hdc.valid then
        let r := X.prodos_hdc_read_byte s1.hdc (addr &&& 0xF)
        wdc65C02cpu_set_data { s1 with hdc := r.2 } r.1
      else wdc65C02cpu_set_data s1 0x00
    else
      let r := X.prodos_hdc_write_byte s1.hdc (addr &&& 0xF) (wdc65C02cpu_get_data s1) (mem_rd s1)
      mem_wr_list { s1 with hdc := r.1 } r.2
  else
    wdc65C02cpu_set_dataSlots sys false

def _apple2e_mem_c000_c0ff_rw (X : collab_t) (sys : apple2e_t) (addr : Nat) (rw : Bool) :
    apple2e_t :=
  let n := addr &&& 0xFF
  if n = 0x10 then { sys with last_key_code := sys.last_key_code &&& 0x7F }
  else if n = 0x50 then { sys with text := false }  -- TEXTOFF
  else if n = 0x51 then { sys with text := true }  -- TEXTON
  else if n = 0x52 then { sys with mixed := false }  -- MIXEDOFF
  else if n = 0x53 then { sys with mixed := true }  -- MIXEDON
  else if n = 0x54 then  -- PAGE2OFF
    if sys.page2 then
      let s1 : apple2e_t := { sys with page2 := false }
      if s1._80store then
        let s2 := _apple2e_text_bank_update s1
        if s2.hires then _apple2e_hires_bank_update s2 else s2
      else s1
    else sys
  else if n = 0x55 then  -- PAGE2ON
    if !sys.page2 then
      let s1 : apple2e_t := { sys with page2 := true }
      if s1._80store then
        let s2 := _apple2e_text_bank_update s1
        if s2.hires then _apple2e_hires_bank_update s2 else s2
      else s1
    else sys
  else if n = 0x56 then  -- HIRESOFF
    if sys.hires then
      let s1 : apple2e_t := { sys with hires := false }
      if s1._80store then _apple2e_hires_bank_update s1 else s1
    else sys
  else if n = 0x57 then  -- HIRESON
    if !sys.hires then
      let s1 : apple2e_t := { sys with hires := true }
      if s1._80store then _apple2e_hires_bank_update s1 else s1
    else sys
  else if n = 0x5E then  -- DHIRESON
    if sys.ioudis then { sys with dhires := true } else sys
  else if n = 0x5F then  -- DHIRESOFF
    if sys.ioudis then { sys with dhires := false } else sys
  else if n = 0x61 ∨ n = 0x69 then  -- Open Apple
    if rw then wdc65C02cpu_set_data sys (if sys.open_apple_pressed then 0x80 else 0) else sys
  else if n = 0x62 ∨ n = 0x6A then  -- Solid Apple
    if rw then wdc65C02cpu_set_data sys (if sys.solid_apple_pressed then 0x80 else 0) else sys
  else if n = 0x7E then
    if rw then wdc65C02cpu_set_data sys (if sys.ioudis then 0x00 else 0x80)  -- read IOUDIS
    else { sys with ioudis := true }  -- IOUDISON
  else if n = 0x7F then
    if rw then wdc65C02cpu_set_data sys (if sys.dhires then 0x00 else 0x80)  -- read DHIRES
    else { sys with ioudis := false }  -- IOUDISOFF
  else _apple2e_mem_c000_c0ff_rw_default X sys addr rw

/-! ## The CPU bus router -/

/-- The routine `_apple2e_mem_rw(sys, addr, rw)`; `rw = true` is a read. As the source
defines `APPLE2E_REAL_FLOPPY`, the `$C600-$C6FF` arm only raises the slot-data flag. -/
def _apple2e_mem_rw (X : collab_t) (sys : apple2e_t) (addr : Nat) (rw : Bool) : apple2e_t :=
  if 0xC000 ≤ addr ∧ addr ≤ 0xCFFF then
    let s0 := wdc65C02cpu_set_cxxx sys true
    if 0xC000 ≤ addr ∧ addr ≤ 0xC0FF then
      -- Apple //e I/O Page
      _apple2e_mem_c000_c0ff_rw X s0 addr rw
    else if (0xC200 ≤ addr ∧ addr ≤ 0xC2FF) ∧ !s0.intcxrom then
      wdc65C02cpu_set_dataSlots s0 true
    else if (0xC300 ≤ addr ∧ addr ≤ 0xC3FF) ∧ !s0.intcxrom then
      let s1 := if rw then
          wdc65C02cpu_set_data s0 (if s0.slotc3rom then 0x00 else mem_rd s0 addr)
        else s0
      wdc65C02cpu_set_dataSlots s1 false
    else if (0xC400 ≤ addr ∧ addr ≤ 0xC4FF) ∧ !s0.intcxrom then
      wdc65C02cpu_set_dataSlots s0 true
    else if (0xC600 ≤ addr ∧ addr ≤ 0xC6FF) ∧ !s0.intcxrom then
      -- Disk II boot rom
      wdc65C02cpu_set_dataSlots s0 true
    else if (0xC700 ≤ addr ∧ addr ≤ 0xC7FF) ∧ !s0.intcxrom then
      -- Hard disk boot rom
      let s1 := if rw then
          wdc65C02cpu_set_data s0 (if s0.hdc.valid then s0.hdc_rom (addr &&& 0xFF) else 0x00)
        else s0
      wdc65C02cpu_set_dataSlots s1 false
    else if 0xC100 ≤ addr ∧ addr ≤ 0xCFFF then
      let s1 := if rw then wdc65C02cpu_set_data s0 (mem_rd s0 addr) else s0
      wdc65C02cpu_set_dataSlots s1 false
    else s0
  else
    let s0 := wdc65C02cpu_set_cxxx sys false
    -- Regular memory access
    if rw then
      -- Memory read
      wdc65C02cpu_set_data s0 (mem_rd s0 addr)
    else
      -- Memory write
      let s1 := mem_wr s0 addr (wdc65C02cpu_get_data s0)
      if 0x400 ≤ addr ∧ addr ≤ 0x7FF then { s1 with text_page1_dirty := true }
      else if 0x800 ≤ addr ∧ addr ≤ 0xBFF then { s1 with text_page2_dirty := true }
      else if 0x2000 ≤ addr ∧ addr ≤ 0x3FFF then { s1 with hires_page1_dirty := true }
      else if 0x4000 ≤ addr ∧ addr ≤ 0x5FFF then { s1 with hires_page2_dirty := true }
      else s1

/-- A CPU read cycle of address `a`: the bus transaction `(a, rw = 1)` routed through
`_apple2e_mem_rw`; the byte read is the data latch of the result. -/
def cpu_read (X : collab_t) (sys : apple2e_t) (a : Nat) : apple2e_t :=
  _apple2e_mem_rw X sys a true

/-- A CPU write cycle of byte `v` to address `a`: the CPU drives `v` onto its data
latch and the transaction `(a, rw = 0)` is routed through `_apple2e_mem_rw`. -/
def cpu_write (X : collab_t) (sys : apple2e_t) (a v : Nat) : apple2e_t :=
  _apple2e_mem_rw X (wdc65C02cpu_set_data sys v) a false

/-! ## Initialisation, reset, keyboard -/

/-- A `chips_range_t`: whether the pointer is non-null, the bytes, and the size. -/
structure chips_range_t where
  present : Bool
  data : Nat → Nat
  size : Nat

/-- The configuration `apple2e_desc_t`; of the debug hook only whether the callback
and the `stopped` pointer are set, of the audio block only the sample count. -/
structure apple2e_desc_t where
  fdc_enabled : Bool
  hdc_enabled : Bool
  hdc_internal_flash : Bool
  debug_callback_set : Bool
  debug_stopped_set : Bool
  audio_num_samples : Nat
  rom : chips_range_t
  character_rom : chips_range_t
  keyboard_rom : chips_range_t
  fdc_rom : chips_range_t
  hdc_rom : chips_range_t

/-- Number of entries of `apple2_nib_images` (`src/images/apple2_images.h`). -/
def apple2_nib_images_size : Nat := 3
/-- Number of entries of `apple2_po_images`. -/
def apple2_po_images_size : Nat := 1
/-- Number of entries of `apple2_msc_images`. -/
def apple2_msc_images_size : Nat := 0

/-- The state after `memset(sys, 0, sizeof(apple2e_t))`, next to the CPU `cpu`. -/
def apple2e_zero (cpu : wdc65C02cpu_t) : apple2e_t :=
  { beeper := { state := false, st := 0 }
    mem := { page_table := fun _ => { read_ptr := mem_junk, write_ptr := mem_junk } }
    valid := false
    audio_num_samples := 0
    audio_sample_pos := 0
    audio_sample_buffer := fun _ => 0
    ram := fun _ => 0
    aux_ram := fun _ => 0
    rom := fun _ => 0
    character_rom := fun _ => 0
    fdc_rom := fun _ => 0
    hdc_rom := fun _ => 0
    text := false
    mixed := false
    page2 := false
    hires := false
    dhires := false
    flash := false
    _80col := false
    altcharset := false
    _80store := false
    ramrd := false
    ramwrt := false
    altzp := false
    intcxrom := false
    slotc3rom := false
    lcram := false
    lcbnk2 := false
    prewrite := false
    write_enabled := false
    ioudis := false
    vbl := false
    flash_timer_ticks := 0
    text_page1_dirty := false
    text_page2_dirty := false
    hires_page1_dirty := false
    hires_page2_dirty := false
    fb := fun _ => 0
    fdc := { valid := false, st := 0 }
    hdc := { valid := false, st := 0 }
    last_key_code := 0
    open_apple_pressed := false
    solid_apple_pressed := false
    system_ticks := 0
    vbl_ticks := 0
    cpu := cpu }

/-- The RAM fill of `_apple2e_init_memorymap`: `0x00` at even, `0xFF` at odd indices. -/
def ram_reset_pattern (i : Nat) : Nat :=
  if i < 0x10000 then (if i % 2 = 0 then 0 else 0xFF) else 0

def _apple2e_init_memorymap (sys : apple2e_t) : apple2e_t :=
  let m0 := mem_init
  let m1 := mem_map_ram m0 0x0000 0xC000 (p_ram 0)
  let m2 := mem_map_rom m1 0xC000 0x1000 (p_rom 0)
  let m3 := mem_map_rw m2 0xD000 0x1000 (p_rom 0x1000) (p_ram 0xD000)
  let m4 := mem_map_rw m3 0xE000 0x2000 (p_rom 0x2000) (p_ram 0xE000)
  { sys with
    mem := m4
    ram := ram_reset_pattern
    aux_ram := ram_reset_pattern
    lcbnk2 := true
    lcram := false
    prewrite := false
    write_enabled := true }

/-- The routine `apple2e_init(sys, desc)` for the process-wide CPU state `cpu`; `none`
when one of its `CHIPS_ASSERT`s fails. The result is the state on return (the
host-side wait for the mass-storage device is not part of the machine). -/
def apple2e_init (X : collab_t) (cpu : wdc65C02cpu_t) (desc : apple2e_desc_t) : Option apple2e_t :=
  if desc.debug_callback_set ∧ ¬ desc.debug_stopped_set then none
  else
    let num_samples :=
      if desc.audio_num_samples ≠ 0 then desc.audio_num_samples else APPLE2E_DEFAULT_AUDIO_SAMPLES
    if ¬ (num_samples ≤ APPLE2E_MAX_AUDIO_SAMPLES) then none
    else if ¬ (desc.rom.present ∧ desc.rom.size = 0x4000) then none
    else if ¬ (desc.character_rom.present ∧ desc.character_rom.size = 0x1000) then none
    else if ¬ (desc.keyboard_rom.present ∧ desc.keyboard_rom.size = 0x800) then none
    else if ¬ (desc.fdc_rom.present ∧ desc.fdc_rom.size = 0x100) then none
    else if ¬ (desc.hdc_rom.present ∧ desc.hdc_rom.size = 0x100) then none
    else
      let s0 := apple2e_zero cpu
      let s1 : apple2e_t :=
        { s0 with
          valid := true
          audio_num_samples := num_samples
          rom := desc.rom.data
          character_rom := desc.character_rom.data
          fdc_rom := desc.fdc_rom.data
          hdc_rom := desc.hdc_rom.data }
      let s2 : apple2e_t := { s1 with cpu := X.wdc65C02cpu_init s1.cpu }
      let s3 : apple2e_t := { s2 with beeper := X.beeper_init s2.beeper }
      let s4 := _apple2e_init_memorymap s3
      let s5 : apple2e_t :=
        { s4 with
          flash_timer_ticks := APPLE2E_FREQUENCY / 2
          ioudis := true
          last_key_code := 0x0D ||| 0x80 }
      let s6 : apple2e_t :=
        if desc.fdc_enabled then
          let f := X.disk2_fdc_init s5.fdc
          { s5 with fdc := if apple2_nib_images_size > 0 then X.disk2_fdd_insert_disk f 0 else f }
        else s5
      let s7 : apple2e_t :=
        if desc.hdc_enabled then
          let h := X.prodos_hdc_init s6.hdc
          if desc.hdc_internal_flash then
            { s6 with hdc :=
                if apple2_po_images_size > 0 then X.prodos_hdd_insert_disk_internal h 0 else h }
          else { s6 with hdc := h }
        else s6
      some s7

/-- The routine `apple2e_reset(sys)`. -/
def apple2e_reset (X : collab_t) (sys : apple2e_t) : apple2e_t :=
  let s1 : apple2e_t := { sys with beeper := X.beeper_reset sys.beeper }
  let s2 : apple2e_t := if s1.fdc.valid then { s1 with fdc := X.disk2_fdc_reset s1.fdc } else s1
  let s3 : apple2e_t := if s2.hdc.valid then { s2 with hdc := X.prodos_hdc_reset s2.hdc } else s2
  { s3 with cpu := X.wdc65C02cpu_reset s3.cpu }

/-- The routine `apple2e_key_down(sys, key_code)` with `int key_code`. The store
`sys->last_key_code = key_code | 0x80` converts the `int` to `uint8_t`, i.e. keeps
it modulo 256. -/
def apple2e_key_down (X : collab_t) (sys : apple2e_t) (key_code : Int) : apple2e_t :=
  let key_code : Int :=
    if key_code = 0x14F then 0x15  -- Arrow right
    else if key_code = 0x150 then 0x08  -- Arrow left
    else if key_code = 0x151 then 0x0A  -- Arrow down
    else if key_code = 0x152 then 0x0B  -- Arrow up
    else key_code
  if 0x13A ≤ key_code ∧ key_code ≤ 0x142 then  -- F1 .. F9
    if sys.fdc.valid then
      let index : Nat := ((key_code - 0x13A) % 256).toNat
      if apple2_nib_images_size > index then
        { sys with fdc := X.disk2_fdd_insert_disk sys.fdc index }
      else sys
    else sys
  else if key_code = 0x145 then apple2e_reset X sys  -- F12
  else if key_code = 0x1E3 then { sys with open_apple_pressed := true }  -- GUI LEFT
  else if key_code = 0x1E7 then { sys with solid_apple_pressed := true }  -- GUI RIGHT
  else if key_code < 128 then
    { sys with last_key_code := ((Int.lor key_code 0x80) % 256).toNat }
  else sys

/-- The routine `apple2e_key_up(sys, key_code)`. -/
def apple2e_key_up (sys : apple2e_t) (key_code : Int) : apple2e_t :=
  if key_code = 0x1E3 then { sys with open_apple_pressed := false }  -- GUI LEFT
  else if key_code = 0x1E7 then { sys with solid_apple_pressed := false }  -- GUI RIGHT
  else sys

/-! ## Reachable states -/

/-- The states reachable from `apple2e_init` by CPU bus accesses: between two
accesses the CPU collaborator may have changed its own state (in particular the
data latch it drives on a write cycle) to any value `c`; the access itself is
`_apple2e_mem_rw` at a 16-bit address. -/
inductive Reachable (X : collab_t) : apple2e_t → Prop where
  | init (cpu : wdc65C02cpu_t) (desc : apple2e_desc_t) (s : apple2e_t) :
      apple2e_init X cpu desc = some s → Reachable X s
  | access (s : apple2e_t) (c : wdc65C02cpu_t) (a : Nat) (rw : Bool) :
      Reachable X s → a < 0x10000 → Reachable X (_apple2e_mem_rw X { s with cpu := c } a rw)

/-! ## The mapping the flags prescribe -/

/-- The RAM plane a flag selects: auxiliary when set, main when clear. -/
def plane_of (b : Bool) : mem_region := if b then mem_region.aux_ram else mem_region.ram

/-- The page-table entry that maps page `p` onto the same offsets of region `R` for
reads and of region `W` for writes. -/
def page_at (R W : mem_region) (p : Nat) : mem_page_t :=
  { read_ptr := { region := R, off := p * 256 }, write_ptr := { region := W, off := p * 256 } }

/-- Whether page `p` is under the 80STORE override of the current flags: text page 1
when `_80store`, hi-res page 1 when `_80store && hires`. -/
def ovr_page (s : apple2e_t) (p : Nat) : Bool :=
  (decide (4 ≤ p ∧ p < 8) && s._80store) ||
    (decide (0x20 ≤ p ∧ p < 0x40) && (s._80store && s.hires))

/-- The entry of a page below `$C000` that the current flags call for. -/
def main_page (s : apple2e_t) (p : Nat) : mem_page_t :=
  if p < 2 then page_at (plane_of s.altzp) (plane_of s.altzp) p
  else if ovr_page s p then page_at (plane_of s.page2) (plane_of s.page2) p
  else page_at (plane_of s.ramrd) (plane_of s.ramwrt) p

/-- The entry of a language-card page (`$D000-$FFFF`) that the current flags call for. -/
def lc_page (s : apple2e_t) (p : Nat) : mem_page_t :=
  let off : Nat := if p < 0xE0 ∧ s.lcbnk2 = false then p * 256 - 0x1000 else p * 256
  { read_ptr :=
      if s.lcram then { region := plane_of s.altzp, off := off }
      else { region := mem_region.rom, off := p * 256 - 0xC000 }
    write_ptr :=
      if s.write_enabled then { region := plane_of s.altzp, off := off } else mem_junk }

/-- The entry of a page of `$C000-$CFFF`: the system ROM image, read-only. -/
def cx_page (p : Nat) : mem_page_t :=
  { read_ptr := { region := mem_region.rom, off := p * 256 - 0xC000 }, write_ptr := mem_junk }

/-- The page table agrees with the soft-switch flags on every page. -/
def map_inv (s : apple2e_t) : Prop :=
  (∀ p, p < 0xC0 → s.mem.page_table p = main_page s p) ∧
  (∀ p, 0xC0 ≤ p → p < 0xD0 → s.mem.page_table p = cx_page p) ∧
  (∀ p, 0xD0 ≤ p → p < 0x100 → s.mem.page_table p = lc_page s p)

/-! ## The selector table as the specification words it -/

/-- The bank legend of the specification: bank 0 = read main / write main,
1 = read aux / write main, 2 = read main / write aux, 3 = read aux / write aux;
the result is the pair (read plane, write plane). -/
def spec_bank (b : Nat) : mem_region × mem_region :=
  if b = 0 then (mem_region.ram, mem_region.ram)
  else if b = 1 then (mem_region.aux_ram, mem_region.ram)
  else if b = 2 then (mem_region.ram, mem_region.aux_ram)
  else (mem_region.aux_ram, mem_region.aux_ram)

/-- The index `ramwr = ramrd | (ramwrt << 1)` of the specification. -/
def spec_ramwr (s : apple2e_t) : Nat :=
  (if s.ramrd then 1 else 0) ||| ((if s.ramwrt then 1 else 0) <<< 1)

/-- The selector table of the specification for an address below `$C000`: the
(read plane, write plane) pair the current flags prescribe. The two-bank table of
`$0000-$01FF` holds the main plane (`altzp` clear) and the auxiliary plane (`altzp`
set), each for both reading and writing. -/
def spec_planes (s : apple2e_t) (a : Nat) : mem_region × mem_region :=
  if a < 0x200 then
    (if s.altzp then (mem_region.aux_ram, mem_region.aux_ram)
     else (mem_region.ram, mem_region.ram))
  else if a < 0x400 then spec_bank (spec_ramwr s)
  else if a < 0x800 then
    spec_bank (if s._80store then (if s.page2 then 3 else 0) else spec_ramwr s)
  else if a < 0x2000 then spec_bank (spec_ramwr s)
  else if a < 0x4000 then
    spec_bank (if s._80store && s.hires then (if s.page2 then 3 else 0) else spec_ramwr s)
  else spec_bank (spec_ramwr s)

/-! ## A concrete machine -/

/-- A concrete set of collaborators: resets and initialisations mark the device
valid, inserting a disk records the image index, the hard-disk controller answers
every register read with its state byte and turns every register write into one
store of the written byte at `$0300 + reg`; the CPU counts its cycles in `st`, puts
the count on the address bus and writes on every third cycle; the beeper has a
sample ready every 46 ticks. -/
def ex_collab : collab_t :=
  { beeper_init := fun _ => { state := false, st := 0 }
    beeper_reset := fun _ => { state := false, st := 0 }
    disk2_fdc_init := fun f => { f with valid := true }
    disk2_fdc_reset := fun f => f
    disk2_fdd_insert_disk := fun f i => { f with st := i + 1 }
    prodos_hdc_init := fun h => { h with valid := true }
    prodos_hdc_reset := fun h => h
    prodos_hdd_insert_disk_internal := fun h i => { h with st := i + 1 }
    prodos_hdc_read_byte := fun h _ => (h.st % 256, h)
    prodos_hdc_write_byte := fun h reg d _ => ({ h with st := d }, [(0x0300 + reg, d)])
    wdc65C02cpu_init := fun _ => { data := 0, cxxx := false, dataSlots := false, st := 0 }
    wdc65C02cpu_reset := fun c => { c with st := 0 }
    wdc65C02cpu_tick := fun c => ({ c with st := c.st + 1 }, c.st % 0x10000, c.st % 3 != 0)
    beeper_tick := fun b => ({ b with st := (b.st + 1) % 46 }, b.st == 45)
    beeper_sample_byte := fun b => if b.state then 0xFF else 0x00
    disk2_fdc_tick := fun f => { f with st := f.st + 1 }
    disk2_fdc_snapshot_onload := fun im _ => im }

/-- A ROM image whose byte at index `i` is `(7 * i + 3) mod 256`. -/
def ex_rom_bytes (i : Nat) : Nat := (7 * i + 3) % 256

/-- A descriptor that passes every assertion of `apple2e_init`, with both disk
controllers enabled. -/
def ex_desc : apple2e_desc_t :=
  { fdc_enabled := true
    hdc_enabled := true
    hdc_internal_flash := true
    debug_callback_set := false
    debug_stopped_set := false
    audio_num_samples := 0
    rom := { present := true, data := ex_rom_bytes, size := 0x4000 }
    character_rom := { present := true, data := ex_rom_bytes, size := 0x1000 }
    keyboard_rom := { present := true, data := ex_rom_bytes, size := 0x800 }
    fdc_rom := { present := true, data := ex_rom_bytes, size := 0x100 }
    hdc_rom := { present := true, data := ex_rom_bytes, size := 0x100 } }

/-- The CPU collaborator before `apple2e_init`. -/
def ex_cpu : wdc65C02cpu_t := { data := 0, cxxx := false, dataSlots := false, st := 0 }

/-- The machine right after `apple2e_init` on `ex_desc`. -/
def ex_init : apple2e_t := (apple2e_init ex_collab ex_cpu ex_desc).getD (apple2e_zero ex_cpu)

/-- The machine after power-on and two CPU reads of `$C083`: language-card RAM
mapped for reading and writing, `lcbnk2` set. -/
def ex_lc : apple2e_t := cpu_read ex_collab (cpu_read ex_collab ex_init 0xC083) 0xC083

/-- The machine after power-on and a CPU write to `$C003` (RAMRD on). -/
def ex_ramrd : apple2e_t := cpu_write ex_collab ex_init 0xC003 0

/-- The machine after power-on and CPU writes to `$C001` (80STORE on), `$C057`
(HIRES on) and `$C055` (PAGE2 on). -/
def ex_80store : apple2e_t :=
  cpu_write ex_collab (cpu_write ex_collab (cpu_write ex_collab ex_init 0xC001 0) 0xC057 0) 0xC055 0

/-- A descriptor like `ex_desc` but without the floppy-disk controller. -/
def ex_desc_nofdc : apple2e_desc_t := { ex_desc with fdc_enabled := false }

/-- The machine right after `apple2e_init` on `ex_desc_nofdc`, followed by a CPU
write of `0x5A` to `$0300`: no floppy controller, and `0x5A` on the data latch. -/
def ex_nofdc : apple2e_t :=
  cpu_write ex_collab
    ((apple2e_init ex_collab ex_cpu ex_desc_nofdc).getD (apple2e_zero ex_cpu)) 0x0300 0x5A

/-! ## Pixel helpers of the renderer -/

/-- The helper `_apple2e_rotl4b(n, count)` on `uint32_t`: `(n >> (-count & 3)) & 0xF`,
with the unary minus taken modulo `2^32`. -/
def _apple2e_rotl4b (n count : Nat) : Nat :=
  (n >>> (((0x100000000 - count % 0x100000000) % 0x100000000) &&& 3)) &&& 0xF

/-- The helper `_apple2e_rotl4(n, count)` on `uint32_t`:
`_apple2e_rotl4b(n * 0x11, count)`, the product taken modulo `2^32`. -/
def _apple2e_rotl4 (n count : Nat) : Nat :=
  _apple2e_rotl4b ((n * 0x11) % 0x100000000) count

/-- One pass of the loop body of `_apple2e_double_7_bits` for loop index `i`, on the
`uint16_t` accumulator `result`. -/
def double_7_bits_step (bits : Nat) (i : Nat) (result : Nat) : Nat :=
  let r1 := (result <<< 1) % 0x10000
  let bit : Nat := if bits &&& (1 <<< i) ≠ 0 then 1 else 0
  let r2 := r1 ||| bit
  let r3 := (r2 <<< 1) % 0x10000
  r3 ||| bit

/-- The loop `for (int i = 6; i >= 0; i--)` of `_apple2e_double_7_bits`, with `n`
passes left to run (the next index is `n - 1`). -/
def double_7_bits_loop (bits : Nat) : Nat → Nat → Nat
  | 0, result => result
  | i + 1, result => double_7_bits_loop bits i (double_7_bits_step bits i result)

/-- The helper `_apple2e_double_7_bits(bits)`. -/
def _apple2e_double_7_bits (bits : Nat) : Nat := double_7_bits_loop bits 7 0

/-- The 4-bit left rotation of `n` by `r` as the specification words it:
`((n << r) | (n >> (4 - r))) & 0xF`. -/
def spec_rotl4 (n r : Nat) : Nat := ((n <<< r) ||| (n >>> (4 - r))) &&& 0xF

/-- The seven even bits `0, 2, .., 12` of `d`, packed into bits `0..6`. -/
def spec_even_bits (d : Nat) : Nat :=
  (List.range 7).foldl (fun acc i => acc ||| (((d >>> (2 * i)) &&& 1) <<< i)) 0

/-- The seven odd bits `1, 3, .., 13` of `d`, packed into bits `0..6`. -/
def spec_odd_bits (d : Nat) : Nat :=
  (List.range 7).foldl (fun acc i => acc ||| (((d >>> (2 * i + 1)) &&& 1) <<< i)) 0

/-! ## The tick orchestrator -/

/-- The VBL counter part of `apple2e_tick`: `vbl` is asserted when the counter reads
12480 on entry; the `uint16_t` counter then advances up to 17030 and wraps to 0,
clearing `vbl`. -/
def apple2e_tick_vbl (sys : apple2e_t) : apple2e_t :=
  let s1 : apple2e_t := if sys.vbl_ticks = 12480 then { sys with vbl := true } else sys
  if s1.vbl_ticks < 17030 then { s1 with vbl_ticks := s1.vbl_ticks + 1 }
  else { s1 with vbl_ticks := 0, vbl := false }

/-- The CPU part of `apple2e_tick`: `wdc65C02cpu_tick(&addr, &rw)` followed by
`_apple2e_mem_rw(sys, addr, rw)`; `addr` is a `uint16_t`. -/
def apple2e_tick_cpu (X : collab_t) (sys : apple2e_t) : apple2e_t :=
  let r := X.wdc65C02cpu_tick sys.cpu
  _apple2e_mem_rw X { sys with cpu := r.1 } (r.2.1 % 0x10000) r.2.2

/-- The beeper part of `apple2e_tick`: when `beeper_tick` reports a new sample, it
is appended to the sample buffer, and a full buffer is handed to the audio callback
(a host function without effect on the machine) and restarted. -/
def apple2e_tick_beeper (X : collab_t) (sys : apple2e_t) : apple2e_t :=
  let b := X.beeper_tick sys.beeper
  let s1 : apple2e_t := { sys with beeper := b.1 }
  if b.2 then
    let byte := X.beeper_sample_byte s1.beeper % 256
    let pos := s1.audio_sample_pos
    let s2 : apple2e_t :=
      { s1 with
        audio_sample_buffer := (fun i => if i = pos then byte else s1.audio_sample_buffer i)
        audio_sample_pos := pos + 1 }
    if s2.audio_sample_pos = s2.audio_num_samples then { s2 with audio_sample_pos := 0 } else s2
  else s1

/-- The floppy part of `apple2e_tick`: the controller advances every 128 ticks. -/
def apple2e_tick_fdc (X : collab_t) (sys : apple2e_t) : apple2e_t :=
  if sys.fdc.valid ∧ sys.system_ticks &&& 127 = 0 then
    { sys with fdc := X.disk2_fdc_tick sys.fdc }
  else sys

/-- The flash-timer part of `apple2e_tick`. -/
def apple2e_tick_flash (sys : apple2e_t) : apple2e_t :=
  if sys.flash_timer_ticks > 0 then
    let s1 : apple2e_t := { sys with flash_timer_ticks := sys.flash_timer_ticks - 1 }
    if s1.flash_timer_ticks = 0 then
      let s2 : apple2e_t :=
        { s1 with flash := !s1.flash, flash_timer_ticks := APPLE2E_FREQUENCY / 2 }
      if !s2.page2 then { s2 with text_page1_dirty := true }
      else { s2 with text_page2_dirty := true }
    else s1
  else sys

/-- The routine `apple2e_tick(sys)`: the five parts above in source order, then
`sys->system_ticks++` on `uint32_t`. -/
def apple2e_tick (X : collab_t) (sys : apple2e_t) : apple2e_t :=
  let s := apple2e_tick_flash (apple2e_tick_fdc X (apple2e_tick_beeper X
    (apple2e_tick_cpu X (apple2e_tick_vbl sys))))
  { s with system_ticks := (s.system_ticks + 1) % 0x100000000 }

/-- The machine after `n` calls of `apple2e_tick`. -/
def apple2e_ticks (X : collab_t) : Nat → apple2e_t → apple2e_t
  | 0, sys => sys
  | n + 1, sys => apple2e_tick X (apple2e_ticks X n sys)

/-- The states reached from `apple2e_init` by calls of `apple2e_tick`; `n` counts the
calls. -/
inductive TickReachable (X : collab_t) : Nat → apple2e_t → Prop where
  | init (cpu : wdc65C02cpu_t) (desc : apple2e_desc_t) (s : apple2e_t) :
      apple2e_init X cpu desc = some s → TickReachable X 0 s
  | tick (n : Nat) (s : apple2e_t) :
      TickReachable X n s → TickReachable X (n + 1) (apple2e_tick X s)

/-! ## Snapshots -/

/-- Modelled from the spec: `mem_snapshot_onload` of `chips/mem.h`, which "re-derives
absolute pointers from stored offsets": a pointer of this model already is a region
and an offset, so the page table is taken over as it is. -/
def mem_snapshot_onload (m : mem_t) : mem_t := m

/-- The routine `apple2e_load_snapshot(sys, version, src)`: the returned flag and the
live instance afterwards. The debug and audio callbacks are host pointers outside
this model; the process-wide CPU is not part of `apple2e_t` and stays as it is. -/
def apple2e_load_snapshot (X : collab_t) (sys : apple2e_t) (version : Nat) (src : apple2e_t) :
    Bool × apple2e_t :=
  if version ≠ APPLE2E_SNAPSHOT_VERSION then (false, sys)
  else
    let im : apple2e_t := src
    let im1 : apple2e_t := { im with fdc := X.disk2_fdc_snapshot_onload im.fdc sys.fdc }
    let im2 : apple2e_t := { im1 with mem := mem_snapshot_onload im1.mem }
    (true, { im2 with cpu := sys.cpu })

/-- The fields the VBL counter and the flash timer live in. -/
def timing (s : apple2e_t) : Bool × Nat × Bool × Nat :=
  (s.vbl, s.vbl_ticks, s.flash, s.flash_timer_ticks)

/-- The display-mode flags of the machine. -/
def display_flags (s : apple2e_t) : List Bool :=
  [s.text, s.mixed, s.page2, s.hires, s.dhires, s.flash, s._80col, s.altcharset]

/-- The state the reset defaults speak of: the language-card flags and `ioudis`, the
display flags, the keyboard latch and the two RAM planes. -/
def switch_state (s : apple2e_t) : List Bool × List Bool × Nat × (Nat → Nat) × (Nat → Nat) :=
  ([s.lcbnk2, s.lcram, s.prewrite, s.write_enabled, s.ioudis], display_flags s,
    s.last_key_code, s.ram, s.aux_ram)

/-- The machine after power-on and the key `A` (`0x41`) pressed. -/
def ex_key : apple2e_t := apple2e_key_down ex_collab ex_init 0x41

/-! ## The renderer -/

/-- The bytes of the table `_apple2e_artifact_color_lut[1 << 7]`. -/
def _apple2e_artifact_color_lut_bytes : List Nat :=
  [0x00, 0x00, 0x00, 0x00, 0x88, 0x00, 0x00, 0x00, 0x11, 0x11, 0x55, 0x11, 0x99, 0x99, 0xDD, 0xFF,
   0x22, 0x22, 0x66, 0x66, 0xAA, 0xAA, 0xEE, 0xEE, 0x33, 0x33, 0x33, 0x33, 0xBB, 0xBB, 0xFF, 0xFF,
   0x00, 0x00, 0x44, 0x44, 0xCC, 0xCC, 0xCC, 0xCC, 0x55, 0x55, 0x55, 0x55, 0x99, 0x99, 0xDD, 0xFF,
   0x00, 0x22, 0x66, 0x66, 0xEE, 0xAA, 0xEE, 0xEE, 0x77, 0x77, 0x77, 0x77, 0xFF, 0xFF, 0xFF, 0xFF,
   0x00, 0x00, 0x00, 0x00, 0x88, 0x88, 0x88, 0x88, 0x11, 0x11, 0x55, 0x11, 0x99, 0x99, 0xDD, 0xFF,
   0x00, 0x22, 0x66, 0x66, 0xAA, 0xAA, 0xAA, 0xAA, 0x33, 0x33, 0x33, 0x33, 0xBB, 0xBB, 0xFF, 0xFF,
   0x00, 0x00, 0x44, 0x44, 0xCC, 0xCC, 0xCC, 0xCC, 0x11, 0x11, 0x55, 0x55, 0x99, 0x99, 0xDD, 0xDD,
   0x00, 0x22, 0x66, 0x66, 0xEE, 0xAA, 0xEE, 0xEE, 0xFF, 0xFF, 0xFF, 0x77, 0xFF, 0xFF, 0xFF, 0xFF]

/-- The table lookup `_apple2e_artifact_color_lut[i]`. -/
def _apple2e_artifact_color_lut (i : Nat) : Nat := _apple2e_artifact_color_lut_bytes.getD i 0

/-- The store `a[i] = v` into a byte or word array. -/
def store (a : Nat → Nat) (i v : Nat) : Nat → Nat := fun j => if j = i then v else a j

/-- A counted `for` loop: `body 0`, `body 1`, .., `body (n - 1)` run in turn on the
loop state `st`. -/
def loop {σ : Type} (body : Nat → σ → σ) : Nat → σ → σ
  | 0, st => st
  | n + 1, st => body n (loop body n st)

/-- The call `memcpy(fb + dst, fb + src, n)` inside the framebuffer (the two ranges
never overlap in the source). -/
def memcpy (fb : Nat → Nat) (dst src n : Nat) : Nat → Nat :=
  fun j => if dst ≤ j ∧ j < dst + n then fb (src + (j - dst)) else fb j

/-- One pass `b` of the inner loop of `_apple2e_render_line_monochrome` for column
`col`; the loop state is the `uint32_t` window `w` and the framebuffer, `out` is the
framebuffer index the pointer `out` stands at. -/
def render_mono_pair (out col b : Nat) (st : Nat × (Nat → Nat)) : Nat × (Nat → Nat) :=
  let w := st.1
  let c1 : Nat := if w &&& 1 ≠ 0 then 15 else 0
  let w1 := w >>> 1
  let c2 : Nat := if w1 &&& 1 ≠ 0 then 15 else 0
  let w2 := w1 >>> 1
  (w2, store st.2 (out + (col * 7 + b)) (((c1 <<< 4) ||| (c2 &&& 0xF)) % 256))

/-- One pass of the column loop of `_apple2e_render_line_monochrome`, for the column
`start_col + i`. -/
def render_mono_col (out : Nat) (words : Nat → Nat) (start_col i : Nat)
    (st : Nat × (Nat → Nat)) : Nat × (Nat → Nat) :=
  let col := start_col + i
  let w := if col + 1 < 40 then (st.1 + (words (col + 1) <<< 14)) % 0x100000000 else st.1
  loop (render_mono_pair out col) 7 (w, st.2)

/-- The line kernel `_apple2e_render_line_monochrome(out, in, start_col, stop_col)`:
the framebuffer afterwards; `words` is the array `in`. -/
def _apple2e_render_line_monochrome (fb : Nat → Nat) (out : Nat) (words : Nat → Nat)
    (start_col stop_col : Nat) : Nat → Nat :=
  (loop (render_mono_col out words start_col) (stop_col - start_col) (words start_col, fb)).2

/-- One pass `b` of the inner loop of `_apple2e_render_line_color` for column `col`. -/
def render_color_pair (out col : Nat) (is_80col : Bool) (b : Nat) (st : Nat × (Nat → Nat)) :
    Nat × (Nat → Nat) :=
  let w := st.1
  let off : Nat := if is_80col then 1 else 0
  let c1 := _apple2e_rotl4b (_apple2e_artifact_color_lut (w &&& 0x7F)) (col * 14 + b * 2 + off) % 256
  let w1 := w >>> 1
  let c2 :=
    _apple2e_rotl4b (_apple2e_artifact_color_lut (w1 &&& 0x7F)) (col * 14 + b * 2 + 1 + off) % 256
  let w2 := w1 >>> 1
  (w2, store st.2 (out + (col * 7 + b)) (((c1 <<< 4) ||| (c2 &&& 0x0F)) % 256))

/-- One pass of the column loop of `_apple2e_render_line_color`, for the column
`start_col + i`. -/
def render_color_col (out : Nat) (words : Nat → Nat) (start_col : Nat) (is_80col : Bool)
    (i : Nat) (st : Nat × (Nat → Nat)) : Nat × (Nat → Nat) :=
  let col := start_col + i
  let w := if col + 1 < 40 then (st.1 + (words (col + 1) <<< 17) % 0x100000000) % 0x100000000 else st.1
  loop (render_color_pair out col is_80col) 7 (w, st.2)

/-- The line kernel `_apple2e_render_line_color(out, in, start_col, stop_col,
is_80col)`: the framebuffer afterwards; `words` is the array `in`. -/
def _apple2e_render_line_color (fb : Nat → Nat) (out : Nat) (words : Nat → Nat)
    (start_col stop_col : Nat) (is_80col : Bool) : Nat → Nat :=
  (loop (render_color_col out words start_col is_80col) (stop_col - start_col)
    ((words start_col <<< 3) % 0x100000000, fb)).2

/-- The helper `_apple2e_get_text_character(sys, code, row)` with `uint8_t code`. -/
def _apple2e_get_text_character (sys : apple2e_t) (code row : Nat) : Nat :=
  let invert_mask : Nat := 0x7F
  let r : Nat × Nat :=
    if !sys.altcharset then
      if code ≥ 0x40 ∧ code ≤ 0x7F then
        (code &&& 0x3F, if sys.flash then invert_mask ^^^ 0x7F else invert_mask)
      else (code, invert_mask)
    else
      if code ≥ 0x60 ∧ code ≤ 0x7F then
        ((code ||| 0x80) % 256, invert_mask ^^^ 0x7F)  -- map to lowercase normal, flip the color
      else (code, invert_mask)
  let bits := sys.character_rom (r.1 * 8 + row)
  let bits := bits &&& 0x7F
  bits ^^^ r.2

/-- The helper `_apple2e_get_fb_addr(sys, row)` with `uint16_t row`: the framebuffer
index of the first byte of the row. -/
def _apple2e_get_fb_addr (row : Nat) : Nat := (row % 0x10000) * (APPLE2E_SCREEN_WIDTH / 2)

/-- The start address of the displayed text page:
`sys->page2 && !sys->_80store ? 0x0800 : 0x0400`. -/
def text_start_address (sys : apple2e_t) : Nat :=
  if sys.page2 && !sys._80store then 0x0800 else 0x0400

/-- The start address of the displayed hi-res page:
`sys->page2 && !sys->_80store ? 0x4000 : 0x2000`. -/
def hires_start_address (sys : apple2e_t) : Nat :=
  if sys.page2 && !sys._80store then 0x4000 else 0x2000

/-- The `uint16_t address` of the text and lo-res renderers for `row`:
`start_address + ((((row / 8) & 0x07) << 7) | (((row / 8) & 0x18) * 5))`. -/
def text_row_address (start_address row : Nat) : Nat :=
  (start_address + ((((row / 8) &&& 0x07) <<< 7) ||| (((row / 8) &&& 0x18) * 5))) % 0x10000

/-- The `uint32_t address` of the hi-res renderers for `row`:
`start_address + (((row / 8) & 0x07) << 7) + (((row / 8) & 0x18) * 5) + ((row & 7) << 10)`. -/
def hires_row_address (start_address row : Nat) : Nat :=
  (start_address + (((row / 8) &&& 0x07) <<< 7) + (((row / 8) &&& 0x18) * 5) +
    ((row &&& 7) <<< 10)) % 0x100000000

/-- The early-return test of the text and the lo-res renderer:
`(!page2 && !text_page1_dirty) || (page2 && !text_page2_dirty)`. -/
def text_clean (sys : apple2e_t) : Bool :=
  (!sys.page2 && !sys.text_page1_dirty) || (sys.page2 && !sys.text_page2_dirty)

/-- The early-return test of the two hi-res renderers:
`(!page2 && !hires_page1_dirty) || (page2 && !hires_page2_dirty)`. -/
def hires_clean (sys : apple2e_t) : Bool :=
  (!sys.page2 && !sys.hires_page1_dirty) || (sys.page2 && !sys.hires_page2_dirty)

/-- The statements `*p = hi << 4; *p++ |= lo;` of `_apple2e_lores_update` on the
cursor `p` and the framebuffer, for `uint8_t` colours. -/
def lores_put (hi lo : Nat) (st : Nat × (Nat → Nat)) : Nat × (Nat → Nat) :=
  let fb1 := store st.2 st.1 ((hi <<< 4) % 256)
  (st.1 + 1, store fb1 st.1 ((fb1 st.1 ||| lo) % 256))

/-- One pass `col` of the column loop of `_apple2e_lores_update` for `row`. -/
def lores_col (sys : apple2e_t) (_double : Bool) (address row col : Nat)
    (st : Nat × (Nat → Nat)) : Nat × (Nat → Nat) :=
  let NIBBLE : Nat → Nat := fun byte => (byte >>> (row &&& 4)) &&& 0x0F
  if _double then
    let c := _apple2e_rotl4 (NIBBLE (sys.aux_ram (address + col))) 1 % 256
    let st1 := loop (fun _ st => lores_put c c st) 3 st
    let c2 := NIBBLE (sys.ram (address + col))
    let st2 := lores_put c c2 st1
    loop (fun _ st => lores_put c2 c2 st) 3 st2
  else
    let c := NIBBLE (sys.ram (address + col))
    loop (fun _ st => lores_put c c st) 7 st

/-- One pass of the row loop of `_apple2e_lores_update`, for the row
`start_row + 4 * i`: the row is drawn and then copied to the three rows below. -/
def lores_row (sys : apple2e_t) (_double : Bool) (start_address start_row i : Nat)
    (fb : Nat → Nat) : Nat → Nat :=
  let row := start_row + 4 * i
  let address := text_row_address start_address row
  let fb1 := (loop (lores_col sys _double address row) 40 (_apple2e_get_fb_addr row, fb)).2
  loop (fun k fb => memcpy fb (_apple2e_get_fb_addr (row + (k + 1))) (_apple2e_get_fb_addr row)
    (40 * 7)) 3 fb1

/-- The renderer `_apple2e_lores_update(sys, begin_row, end_row)`. -/
def _apple2e_lores_update (sys : apple2e_t) (begin_row end_row : Nat) : apple2e_t :=
  if text_clean sys then sys
  else
    let _double := sys.dhires && sys._80col
    let start_address := text_start_address sys
    let start_row := ((begin_row / 8) * 8) % 0x10000
    let stop_row := (((end_row / 8) + 1) * 8) % 0x10000
    let fb := loop (lores_row sys _double start_address start_row)
      ((stop_row - start_row + 3) / 4) sys.fb
    let s1 : apple2e_t := { sys with fb := fb }
    if !s1.page2 then { s1 with text_page1_dirty := false }
    else { s1 with text_page2_dirty := false }

/-- The word `words[col]` of `_apple2e_text_update` for `row`. -/
def text_word (sys : apple2e_t) (address row col : Nat) : Nat :=
  if sys._80col then
    (_apple2e_get_text_character sys (sys.aux_ram (address + col)) (row &&& 7) +
      (_apple2e_get_text_character sys (sys.ram (address + col)) (row &&& 7) <<< 7)) % 0x10000
  else
    _apple2e_double_7_bits (_apple2e_get_text_character sys (sys.ram (address + col)) (row &&& 7))

/-- One pass of the row loop of `_apple2e_text_update`, for the row `start_row + i`. -/
def text_row (sys : apple2e_t) (start_address start_row i : Nat) (fb : Nat → Nat) : Nat → Nat :=
  let row := start_row + i
  let address := text_row_address start_address row
  let words := loop (fun col words => store words col (text_word sys address row col)) 40
    (fun _ => 0)
  _apple2e_render_line_monochrome fb (_apple2e_get_fb_addr row) words 0 40

/-- The renderer `_apple2e_text_update(sys, begin_row, end_row)`. -/
def _apple2e_text_update (sys : apple2e_t) (begin_row end_row : Nat) : apple2e_t :=
  if text_clean sys then sys
  else
    let start_address := text_start_address sys
    let start_row := ((begin_row / 8) * 8) % 0x10000
    let stop_row := (((end_row / 8) + 1) * 8) % 0x10000
    let fb := loop (text_row sys start_address start_row) (stop_row - start_row) sys.fb
    let s1 : apple2e_t := { sys with fb := fb }
    if !s1.page2 then { s1 with text_page1_dirty := false }
    else { s1 with text_page2_dirty := false }

/-- One pass of the row loop of `_apple2e_dhgr_update`, for the row `begin_row + i`. -/
def dhgr_row (sys : apple2e_t) (start_address begin_row i : Nat) (fb : Nat → Nat) : Nat → Nat :=
  let row := begin_row + i
  let address := hires_row_address start_address row
  let words := loop (fun col words => store words col
      (((sys.aux_ram (address + col) &&& 0x7F) ||| ((sys.ram (address + col) &&& 0x7F) <<< 7))
        &&& 0x3FFF)) 40 (fun _ => 0)
  _apple2e_render_line_color fb (_apple2e_get_fb_addr row) words 0 40 true

/-- The renderer `_apple2e_dhgr_update(sys, begin_row, end_row)`. -/
def _apple2e_dhgr_update (sys : apple2e_t) (begin_row end_row : Nat) : apple2e_t :=
  if hires_clean sys then sys
  else
    let start_address := hires_start_address sys
    let fb := loop (dhgr_row sys start_address begin_row) (end_row + 1 - begin_row) sys.fb
    let s1 : apple2e_t := { sys with fb := fb }
    if !s1.page2 then { s1 with hires_page1_dirty := false }
    else { s1 with hires_page2_dirty := false }

/-- One pass `col` of the word loop of `_apple2e_hgr_update`; the loop state is
`last_output_bit` and the array `words`, `vram_row` is the row of main-RAM bytes. -/
def hgr_word_step (vram_row : Nat → Nat) (col : Nat) (st : Nat × (Nat → Nat)) :
    Nat × (Nat → Nat) :=
  let w := _apple2e_double_7_bits (vram_row col &&& 0x7F)
  let w := if vram_row col &&& 0x80 ≠ 0 then (((w <<< 1) ||| st.1) &&& 0x3FFF) else w
  (w >>> 13, store st.2 col w)

/-- The array `words` of `_apple2e_hgr_update` after its word loop over the 40
columns. -/
def hgr_words (vram_row : Nat → Nat) : Nat → Nat :=
  (loop (hgr_word_step vram_row) 40 (0, fun _ => 0)).2

/-- One pass of the row loop of `_apple2e_hgr_update`, for the row `begin_row + i`. -/
def hgr_row (sys : apple2e_t) (start_address begin_row i : Nat) (fb : Nat → Nat) : Nat → Nat :=
  let row := begin_row + i
  let address := hires_row_address start_address row
  let words := hgr_words (fun col => sys.ram (address + col))
  _apple2e_render_line_color fb (_apple2e_get_fb_addr row) words 0 40 false

/-- The renderer `_apple2e_hgr_update(sys, begin_row, end_row)`. -/
def _apple2e_hgr_update (sys : apple2e_t) (begin_row end_row : Nat) : apple2e_t :=
  if hires_clean sys then sys
  else
    let start_address := hires_start_address sys
    let fb := loop (hgr_row sys start_address begin_row) (end_row + 1 - begin_row) sys.fb
    let s1 : apple2e_t := { sys with fb := fb }
    if !s1.page2 then { s1 with hires_page1_dirty := false }
    else { s1 with hires_page2_dirty := false }

/-- The entry point `apple2e_screen_update(sys)`. -/
def apple2e_screen_update (sys : apple2e_t) : apple2e_t :=
  let text_start_row : Nat := if !sys.text then 192 - (if sys.mixed then 32 else 0) else 0
  let s1 : apple2e_t :=
    if !sys.text then
      if sys.hires then
        if sys.dhires && sys._80col then _apple2e_dhgr_update sys 0 (text_start_row - 1)
        else _apple2e_hgr_update sys 0 (text_start_row - 1)
      else _apple2e_lores_update sys 0 (text_start_row - 1)
    else sys
  if text_start_row < 192 then _apple2e_text_update s1 text_start_row 191 else s1

/-- Pixel `p` of a line of packed 4-bit pixels that starts at framebuffer index
`out`: the high nibble of byte `p / 2` for even `p`, the low nibble for odd `p`. -/
def line_pixel (fb : Nat → Nat) (out p : Nat) : Nat :=
  if p % 2 = 0 then fb (out + p / 2) >>> 4 else fb (out + p / 2) &&& 0xF

/-- Pixel `p` of framebuffer row `row`. -/
def fb_pixel (sys : apple2e_t) (row p : Nat) : Nat :=
  line_pixel sys.fb (row * (APPLE2E_SCREEN_WIDTH / 2)) p

/-- The byte `(c1 << 4) | (c2 & 0xF)` the monochrome kernel stores for the window `w`:
`c1` from bit 0 and `c2` from bit 1 of `w`. -/
def mono_byte (w : Nat) : Nat :=
  (((if w &&& 1 ≠ 0 then 15 else 0) <<< 4) ||| ((if (w >>> 1) &&& 1 ≠ 0 then 15 else 0) &&& 0xF)) % 256

/-- The byte `(c1 << 4) | (c2 & 0x0F)` the colour kernel stores in pass `b` of column
`col` for the window `w`; `off` is the value of `is_80col` as a number. -/
def color_byte (col b off w : Nat) : Nat :=
  (((_apple2e_rotl4b (_apple2e_artifact_color_lut (w &&& 0x7F)) (col * 14 + b * 2 + off) % 256)
      <<< 4) |||
    ((_apple2e_rotl4b (_apple2e_artifact_color_lut ((w >>> 1) &&& 0x7F))
      (col * 14 + b * 2 + 1 + off) % 256) &&& 0x0F)) % 256

/-- The bit stream of a line of 40 words of 14 bits: `S[14c + j]` is bit `j` of
`words[c]`, and `S[i] = 0` for `i < 0` or `i >= 560`. -/
def stream_bit (words : Nat → Nat) (i : Int) : Nat :=
  if 0 ≤ i ∧ i < 560 then (words (i.toNat / 14) >>> (i.toNat % 14)) &&& 1 else 0

/-- The 7-bit window around pixel `p`: the sum over `k` in `0..6` of
`S[p - 3 + k] * 2^k`. -/
def stream_window (words : Nat → Nat) (p : Nat) : Nat :=
  ((List.range 7).map (fun (k : Nat) => stream_bit words ((p : Int) - 3 + (k : Int)) * 2 ^ k)).sum

/-- The value of the window `w` of the colour kernel while it emits column `c`: the
top three bits of the word before, the word of the column from bit 3 on, and the
next word from bit 17 on. -/
def color_window (words : Nat → Nat) (c : Nat) : Nat :=
  words c * 8 + (if c = 0 then 0 else words (c - 1)) / 2048 +
    (if c + 1 < 40 then words (c + 1) else 0) * 131072

/-- The mode flags `apple2e_screen_update` and the renderers branch on. -/
def render_mode (s : apple2e_t) : List Bool :=
  [s.text, s.mixed, s.hires, s.dhires, s._80col, s.page2, s._80store]

/-- The graphics renderer `apple2e_screen_update` runs over rows `0..end_row` when
`text` is off: double hi-res, hi-res or lo-res. -/
def graphics_update (sys : apple2e_t) (end_row : Nat) : apple2e_t :=
  if sys.hires then
    if sys.dhires && sys._80col then _apple2e_dhgr_update sys 0 end_row
    else _apple2e_hgr_update sys 0 end_row
  else _apple2e_lores_update sys 0 end_row

/-- The byte `*p = hi << 4; *p |= lo` leaves under the cursor. -/
def nib_byte (hi lo : Nat) : Nat := (((hi <<< 4) % 256) ||| lo) % 256

/-- Byte `k` (`0..6`) of column `col` of a lo-res row, as the column pass of
`_apple2e_lores_update` leaves it: in double lo-res three bytes of the rotated aux
nibble, one byte with the aux nibble high and the main nibble low, three bytes of the
main nibble; otherwise seven bytes of the main nibble. -/
def lores_byte (sys : apple2e_t) (_double : Bool) (address row col k : Nat) : Nat :=
  if _double then
    if k < 3 then
      nib_byte (_apple2e_rotl4 ((sys.aux_ram (address + col) >>> (row &&& 4)) &&& 0x0F) 1 % 256)
        (_apple2e_rotl4 ((sys.aux_ram (address + col) >>> (row &&& 4)) &&& 0x0F) 1 % 256)
    else if k = 3 then
      nib_byte (_apple2e_rotl4 ((sys.aux_ram (address + col) >>> (row &&& 4)) &&& 0x0F) 1 % 256)
        ((sys.ram (address + col) >>> (row &&& 4)) &&& 0x0F)
    else
      nib_byte ((sys.ram (address + col) >>> (row &&& 4)) &&& 0x0F)
        ((sys.ram (address + col) >>> (row &&& 4)) &&& 0x0F)
  else
    nib_byte ((sys.ram (address + col) >>> (row &&& 4)) &&& 0x0F)
      ((sys.ram (address + col) >>> (row &&& 4)) &&& 0x0F)

/-- The power-on machine (lo-res graphics, page 1) after a CPU write of `0x5A` to
`$0400`, which marks text page 1 dirty. -/
def ex_lores : apple2e_t := cpu_write ex_collab ex_init 0x0400 0x5A

/-- Byte `x` (`0..279`) of framebuffer row `r` as the text renderer draws it: the
monochrome kernel's byte for the window made of the word of column `x / 7` and, below
column 39, the word of the next column. -/
def text_byte (sys : apple2e_t) (r x : Nat) : Nat :=
  mono_byte
    ((if x / 7 + 1 < 40
      then text_word sys (text_row_address (text_start_address sys) r) r (x / 7) +
        text_word sys (text_row_address (text_start_address sys) r) r (x / 7 + 1) * 2 ^ 14
      else text_word sys (text_row_address (text_start_address sys) r) r (x / 7))
      >>> (2 * (x % 7)))

/-- The power-on machine after a CPU write to `$C053` (MIXED on) and a CPU write of
`0xC1` to `$0650`, the first character of text row 20: lo-res graphics in mixed mode
with text page 1 dirty. -/
def ex_mixed_lores : apple2e_t :=
  cpu_write ex_collab (cpu_write ex_collab ex_init 0xC053 0) 0x0650 0xC1

/-- The machine `ex_80store` (80STORE, HIRES and PAGE2 on) after a CPU write to
`$C051` (TEXT on) and a CPU write of `0xC1` to `$0400`: text mode, page 1 displayed
and dirty, `page2` set. -/
def ex_text80 : apple2e_t :=
  cpu_write ex_collab (cpu_write ex_collab ex_80store 0xC051 0) 0x0400 0xC1

/-- The fields the text renderer reads: the two RAM planes, the character ROM and the
flags that select glyphs, columns and the displayed page. -/
def text_inputs (s : apple2e_t) : (Nat → Nat) × (Nat → Nat) × (Nat → Nat) × List Bool :=
  (s.ram, s.aux_ram, s.character_rom, [s._80col, s.altcharset, s.flash, s.page2, s._80store])

/-! ## Array accesses of the renderer -/

/-- One array access of the renderer: the array (the framebuffer `fb`, the RAM planes
`ram` and `aux_ram`, `character_rom`, the colour table, the local array `words`),
whether it is a read or a write, and the index. -/
inductive access where
  | fb_write (i : Nat)
  | fb_read (i : Nat)
  | ram_read (i : Nat)
  | aux_ram_read (i : Nat)
  | character_rom_read (i : Nat)
  | lut_read (i : Nat)
  | words_write (i : Nat)
  | words_read (i : Nat)

/-- The access is inside its array: `fb[APPLE2E_FRAMEBUFFER_SIZE]`, `ram[0x10000]`,
`aux_ram[0x10000]`, the character ROM of `0x1000` bytes that `apple2e_init` asserts,
`_apple2e_artifact_color_lut[1 << 7]` and `words[40]`. -/
def access.in_bounds : access → Prop
  | access.fb_write i => i < APPLE2E_FRAMEBUFFER_SIZE
  | access.fb_read i => i < APPLE2E_FRAMEBUFFER_SIZE
  | access.ram_read i => i < 0x10000
  | access.aux_ram_read i => i < 0x10000
  | access.character_rom_read i => i < 0x1000
  | access.lut_read i => i < 128
  | access.words_write i => i < 40
  | access.words_read i => i < 40

/-- The accesses of a counted `for` loop whose pass `k` makes the accesses `f k`. -/
def accesses_for (f : Nat → List access) : Nat → List access
  | 0 => []
  | n + 1 => accesses_for f n ++ f n

/-- The accesses of `_apple2e_render_line_monochrome(out, in, start_col, stop_col)`:
the read `in[start_col]`, and for every column the read `in[col + 1]` under its guard
`col + 1 < 40` and the seven stores `out[col * 7 + b]`. -/
def _apple2e_render_line_monochrome_accesses (out start_col stop_col : Nat) : List access :=
  access.words_read start_col ::
    accesses_for (fun i =>
      (if start_col + i + 1 < 40 then [access.words_read (start_col + i + 1)] else []) ++
        accesses_for (fun b => [access.fb_write (out + ((start_col + i) * 7 + b))]) 7)
      (stop_col - start_col)

/-- The accesses of pass `b` of the inner loop of `_apple2e_render_line_color` on the
loop state `st`: the two table lookups `lut[w & 0x7F]` (the second after `w >>= 1`) and
the store `out[col * 7 + b]`. -/
def render_color_pair_accesses (out col b : Nat) (st : Nat × (Nat → Nat)) : List access :=
  [access.lut_read (st.1 &&& 0x7F), access.lut_read ((st.1 >>> 1) &&& 0x7F),
    access.fb_write (out + (col * 7 + b))]

/-- The accesses of one pass of the column loop of `_apple2e_render_line_color` on the
loop state `st`. -/
def render_color_col_accesses (out : Nat) (words : Nat → Nat) (start_col : Nat)
    (is_80col : Bool) (i : Nat) (st : Nat × (Nat → Nat)) : List access :=
  let col := start_col + i
  let w := if col + 1 < 40 then (st.1 + (words (col + 1) <<< 17) % 0x100000000) % 0x100000000 else st.1
  (if col + 1 < 40 then [access.words_read (col + 1)] else []) ++
    accesses_for (fun b =>
      render_color_pair_accesses out col b (loop (render_color_pair out col is_80col) b (w, st.2))) 7

/-- The accesses of `_apple2e_render_line_color(out, in, start_col, stop_col,
is_80col)`. -/
def _apple2e_render_line_color_accesses (fb : Nat → Nat) (out : Nat) (words : Nat → Nat)
    (start_col stop_col : Nat) (is_80col : Bool) : List access :=
  access.words_read start_col ::
    accesses_for (fun i =>
      render_color_col_accesses out words start_col is_80col i
        (loop (render_color_col out words start_col is_80col) i
          ((words start_col <<< 3) % 0x100000000, fb)))
      (stop_col - start_col)

/-- The index `code * 8 + row` at which `_apple2e_get_text_character(sys, code, row)`
reads `sys->character_rom`, `code` being the `uint8_t` parameter after the function
has changed it in place. -/
def get_text_character_index (sys : apple2e_t) (code row : Nat) : Nat :=
  (if !sys.altcharset then
      if code ≥ 0x40 ∧ code ≤ 0x7F then code &&& 0x3F else code
    else
      if code ≥ 0x60 ∧ code ≤ 0x7F then (code ||| 0x80) % 256 else code) * 8 + row

/-- The accesses of the computation of `words[col]` in `_apple2e_text_update`: the
bytes `vaux_row[col]` and `vram_row[col]` (the first only in 80-column mode), one
character-ROM read for each, and the store into `words[col]`. -/
def text_word_accesses (sys : apple2e_t) (address row col : Nat) : List access :=
  if sys._80col then
    [access.aux_ram_read (address + col),
      access.character_rom_read
        (get_text_character_index sys (sys.aux_ram (address + col)) (row &&& 7)),
      access.ram_read (address + col),
      access.character_rom_read
        (get_text_character_index sys (sys.ram (address + col)) (row &&& 7)),
      access.words_write col]
  else
    [access.ram_read (address + col),
      access.character_rom_read
        (get_text_character_index sys (sys.ram (address + col)) (row &&& 7)),
      access.words_write col]

/-- The array `words` of `_apple2e_text_update` for one row. -/
def text_words (sys : apple2e_t) (address row : Nat) : Nat → Nat :=
  loop (fun col words => store words col (text_word sys address row col)) 40 (fun _ => 0)

/-- The accesses of one pass of the row loop of `_apple2e_text_update`, for the row
`start_row + i`. -/
def text_row_accesses (sys : apple2e_t) (start_address start_row i : Nat) : List access :=
  let row := start_row + i
  let address := text_row_address start_address row
  accesses_for (fun col => text_word_accesses sys address row col) 40 ++
    _apple2e_render_line_monochrome_accesses (_apple2e_get_fb_addr row) 0 40

/-- The accesses of `_apple2e_text_update(sys, begin_row, end_row)`. -/
def _apple2e_text_update_accesses (sys : apple2e_t) (begin_row end_row : Nat) : List access :=
  if text_clean sys then []
  else
    let start_address := text_start_address sys
    let start_row := ((begin_row / 8) * 8) % 0x10000
    let stop_row := (((end_row / 8) + 1) * 8) % 0x10000
    accesses_for (text_row_accesses sys start_address start_row) (stop_row - start_row)

/-- The accesses of `*p = hi << 4; *p++ |= lo;` with the cursor at framebuffer index
`p`. -/
def lores_put_accesses (p : Nat) : List access :=
  [access.fb_write p, access.fb_read p, access.fb_write p]

/-- The accesses of one pass `col` of the column loop of `_apple2e_lores_update`, the
cursor `p` standing at `st.1` on entry. -/
def lores_col_accesses (_double : Bool) (address col : Nat) (st : Nat × (Nat → Nat)) :
    List access :=
  if _double then
    access.aux_ram_read (address + col) ::
      (accesses_for (fun b => lores_put_accesses (st.1 + b)) 3 ++
        access.fb_write (st.1 + 3) :: access.ram_read (address + col) ::
          access.fb_read (st.1 + 3) :: access.fb_write (st.1 + 3) ::
            accesses_for (fun b => lores_put_accesses (st.1 + 4 + b)) 3)
  else
    access.ram_read (address + col) :: accesses_for (fun b => lores_put_accesses (st.1 + b)) 7

/-- The accesses of `memcpy(fb + dst, fb + src, n)`. -/
def memcpy_accesses (dst src n : Nat) : List access :=
  accesses_for (fun t => [access.fb_read (src + t), access.fb_write (dst + t)]) n

/-- The accesses of one pass of the row loop of `_apple2e_lores_update`, for the row
`start_row + 4 * i`, on the framebuffer `fb`. -/
def lores_row_accesses (sys : apple2e_t) (_double : Bool) (start_address start_row i : Nat)
    (fb : Nat → Nat) : List access :=
  let row := start_row + 4 * i
  let address := text_row_address start_address row
  accesses_for (fun col =>
      lores_col_accesses _double address col
        (loop (lores_col sys _double address row) col (_apple2e_get_fb_addr row, fb))) 40 ++
    accesses_for (fun k =>
      memcpy_accesses (_apple2e_get_fb_addr (row + (k + 1))) (_apple2e_get_fb_addr row) (40 * 7)) 3

/-- The accesses of `_apple2e_lores_update(sys, begin_row, end_row)`. -/
def _apple2e_lores_update_accesses (sys : apple2e_t) (begin_row end_row : Nat) : List access :=
  if text_clean sys then []
  else
    let _double := sys.dhires && sys._80col
    let start_address := text_start_address sys
    let start_row := ((begin_row / 8) * 8) % 0x10000
    let stop_row := (((end_row / 8) + 1) * 8) % 0x10000
    accesses_for (fun i =>
        lores_row_accesses sys _double start_address start_row i
          (loop (lores_row sys _double start_address start_row) i sys.fb))
      ((stop_row - start_row + 3) / 4)

/-- The array `words` of `_apple2e_dhgr_update` for one row. -/
def dhgr_words (sys : apple2e_t) (address : Nat) : Nat → Nat :=
  loop (fun col words => store words col
      (((sys.aux_ram (address + col) &&& 0x7F) ||| ((sys.ram (address + col) &&& 0x7F) <<< 7))
        &&& 0x3FFF)) 40 (fun _ => 0)

/-- The accesses of one pass of the row loop of `_apple2e_dhgr_update`, for the row
`begin_row + i`, on the framebuffer `fb`. -/
def dhgr_row_accesses (sys : apple2e_t) (start_address begin_row i : Nat) (fb : Nat → Nat) :
    List access :=
  let row := begin_row + i
  let address := hires_row_address start_address row
  accesses_for (fun col =>
      [access.aux_ram_read (address + col), access.ram_read (address + col),
        access.words_write col]) 40 ++
    _apple2e_render_line_color_accesses fb (_apple2e_get_fb_addr row) (dhgr_words sys address)
      0 40 true

/-- The accesses of `_apple2e_dhgr_update(sys, begin_row, end_row)`. -/
def _apple2e_dhgr_update_accesses (sys : apple2e_t) (begin_row end_row : Nat) : List access :=
  if hires_clean sys then []
  else
    let start_address := hires_start_address sys
    accesses_for (fun i =>
        dhgr_row_accesses sys start_address begin_row i
          (loop (dhgr_row sys start_address begin_row) i sys.fb))
      (end_row + 1 - begin_row)

/-- The accesses of one pass of the row loop of `_apple2e_hgr_update`, for the row
`begin_row + i`, on the framebuffer `fb`: `vram_row[col]` is read twice per column. -/
def hgr_row_accesses (sys : apple2e_t) (start_address begin_row i : Nat) (fb : Nat → Nat) :
    List access :=
  let row := begin_row + i
  let address := hires_row_address start_address row
  accesses_for (fun col =>
      [access.ram_read (address + col), access.ram_read (address + col),
        access.words_write col]) 40 ++
    _apple2e_render_line_color_accesses fb (_apple2e_get_fb_addr row)
      (hgr_words (fun col => sys.ram (address + col))) 0 40 false

/-- The accesses of `_apple2e_hgr_update(sys, begin_row, end_row)`. -/
def _apple2e_hgr_update_accesses (sys : apple2e_t) (begin_row end_row : Nat) : List access :=
  if hires_clean sys then []
  else
    let start_address := hires_start_address sys
    accesses_for (fun i =>
        hgr_row_accesses sys start_address begin_row i
          (loop (hgr_row sys start_address begin_row) i sys.fb))
      (end_row + 1 - begin_row)

/-- The accesses of `apple2e_screen_update(sys)`: those of the graphics renderer the
mode selects, followed by those of the text renderer on the state the graphics
renderer has left. -/
def apple2e_screen_update_accesses (sys : apple2e_t) : List access :=
  let text_start_row : Nat := if !sys.text then 192 - (if sys.mixed then 32 else 0) else 0
  let s1 : apple2e_t :=
    if !sys.text then
      if sys.hires then
        if sys.dhires && sys._80col then _apple2e_dhgr_update sys 0 (text_start_row - 1)
        else _apple2e_hgr_update sys 0 (text_start_row - 1)
      else _apple2e_lores_update sys 0 (text_start_row - 1)
    else sys
  (if !sys.text then
      if sys.hires then
        if sys.dhires && sys._80col then _apple2e_dhgr_update_accesses sys 0 (text_start_row - 1)
        else _apple2e_hgr_update_accesses sys 0 (text_start_row - 1)
      else _apple2e_lores_update_accesses sys 0 (text_start_row - 1)
    else []) ++
    (if text_start_row < 192 then _apple2e_text_update_accesses s1 text_start_row 191 else [])

/-- The byte arrays `ram` and `aux_ram` hold `uint8_t` values. -/
def ram_bytes (sys : apple2e_t) : Prop := ∀ i, sys.ram i < 256 ∧ sys.aux_ram i < 256

/-- Every access of the list is inside its array. -/
def all_in_bounds (l : List access) : Prop := ∀ a, a ∈ l → a.in_bounds

/-- Byte `x` (`0..279`) of framebuffer row `r` as the single hi-res renderer draws it:
the colour kernel's byte for the window of column `x / 7` of the row's words. -/
def hgr_byte (sys : apple2e_t) (r x : Nat) : Nat :=
  color_byte (x / 7) (x % 7) (if false then 1 else 0)
    (color_window
      (hgr_words (fun col => sys.ram (hires_row_address (hires_start_address sys) r + col)))
      (x / 7) >>> (2 * (x % 7)))

/-- Byte `x` (`0..279`) of framebuffer row `r` as the double hi-res renderer draws
it. -/
def dhgr_byte (sys : apple2e_t) (r x : Nat) : Nat :=
  color_byte (x / 7) (x % 7) (if true then 1 else 0)
    (color_window (dhgr_words sys (hires_row_address (hires_start_address sys) r)) (x / 7)
      >>> (2 * (x % 7)))

/-- The byte at index `i` of region `R`; the junk page reads as `0xFF`. -/
def region_byte (s : apple2e_t) (R : mem_region) (i : Nat) : Nat :=
  match R with
  | mem_region.ram => s.ram i
  | mem_region.aux_ram => s.aux_ram i
  | mem_region.rom => s.rom i
  | mem_region.junk => 0xFF

/-- The soft-switch flags the page table depends on. -/
def mmu_flags (s : apple2e_t) : List Bool :=
  [s.altzp, s.ramrd, s.ramwrt, s._80store, s.page2, s.hires, s.lcram, s.lcbnk2, s.write_enabled]

/-- The state `s` has the page table and the main-memory flags of `s0`. -/
def same_main (s0 s : apple2e_t) : Prop :=
  s.mem = s0.mem ∧ s.altzp = s0.altzp ∧ s.ramrd = s0.ramrd ∧ s.ramwrt = s0.ramwrt ∧
    s._80store = s0._80store ∧ s.page2 = s0.page2 ∧ s.hires = s0.hires

/-- The four page-dirty flags. -/
def dirty_flags (s : apple2e_t) : List Bool :=
  [s.text_page1_dirty, s.text_page2_dirty, s.hires_page1_dirty, s.hires_page2_dirty]

/-- The states `s` and `t` give the renderer the same inputs as far as they lie
inside the arrays: the same framebuffer, mode flags, dirty flags, `altcharset` and
`flash`, the same RAM bytes below `0x10000` and the same character-ROM bytes below
`0x1000`. What the arrays would hold beyond their ends is left open. -/
def render_inputs_agree (s t : apple2e_t) : Prop :=
  t.fb = s.fb ∧ render_mode t = render_mode s ∧ dirty_flags t = dirty_flags s ∧
  t.altcharset = s.altcharset ∧ t.flash = s.flash ∧
  (∀ i, i < 0x10000 → t.ram i = s.ram i ∧ t.aux_ram i = s.aux_ram i) ∧
  (∀ i, i < 0x1000 → t.character_rom i = s.character_rom i)

/-! ## Lemmas on the page table -/

theorem mem_bank_4_ramwr (base : Nat) (rd wr : Bool) :
    mem_bank_4 base ((if rd then 1 else 0) ||| (if wr then 2 else 0)) =
      { read_ptr := { region := plane_of rd, off := base },
        write_ptr := { region := plane_of wr, off := base } } := by
  cases rd <;> cases wr <;> rfl

theorem mem_bank_4_page2 (base : Nat) (b : Bool) :
    mem_bank_4 base (if b then 3 else 0) =
      { read_ptr := { region := plane_of b, off := base },
        write_ptr := { region := plane_of b, off := base } } := by
  cases b <;> rfl

theorem mem_map_rw_page (m : mem_t) (a sz : Nat) (R W : mem_region) (p : Nat) :
    (mem_map_rw m a sz { region := R, off := a } { region := W, off := a }).page_table p =
      if a ≤ p * 256 ∧ p * 256 < a + sz then page_at R W p else m.page_table p := by
  simp only [mem_map_rw, mem_ptr.add, page_at]
  split_ifs with h
  · have : a + (p * 256 - a) = p * 256 := by omega
    rw [this]
  · rfl

theorem text_bank_update_page (s : apple2e_t) (p : Nat) :
    (_apple2e_text_bank_update s).mem.page_table p =
      if 4 ≤ p ∧ p < 8 then
        (if s._80store then page_at (plane_of s.page2) (plane_of s.page2) p
         else page_at (plane_of s.ramrd) (plane_of s.ramwrt) p)
      else s.mem.page_table p := by
  simp only [_apple2e_text_bank_update, mem_bank_0400, ramwr_of]
  cases h80 : s._80store
  · simp only [Bool.false_eq_true, if_false, mem_bank_4_ramwr, mem_map_rw_page]
    by_cases hr : 4 ≤ p ∧ p < 8
    · rw [if_pos hr, if_pos (by omega)]
    · rw [if_neg hr, if_neg (by omega)]
  · simp only [if_true, mem_bank_4_page2, mem_map_rw_page]
    by_cases hr : 4 ≤ p ∧ p < 8
    · rw [if_pos hr, if_pos (by omega)]
    · rw [if_neg hr, if_neg (by omega)]

theorem hires_bank_update_page (s : apple2e_t) (p : Nat) :
    (_apple2e_hires_bank_update s).mem.page_table p =
      if 0x20 ≤ p ∧ p < 0x40 then
        (if s._80store && s.hires then page_at (plane_of s.page2) (plane_of s.page2) p
         else page_at (plane_of s.ramrd) (plane_of s.ramwrt) p)
      else s.mem.page_table p := by
  simp only [_apple2e_hires_bank_update, mem_bank_2000, ramwr_of]
  cases h80 : (s._80store && s.hires)
  · simp only [Bool.false_eq_true, if_false, mem_bank_4_ramwr, mem_map_rw_page]
    by_cases hr : 0x20 ≤ p ∧ p < 0x40
    · rw [if_pos hr, if_pos (by omega)]
    · rw [if_neg hr, if_neg (by omega)]
  · simp only [if_true, mem_bank_4_page2, mem_map_rw_page]
    by_cases hr : 0x20 ≤ p ∧ p < 0x40
    · rw [if_pos hr, if_pos (by omega)]
    · rw [if_neg hr, if_neg (by omega)]

theorem main_page_congr {s s' : apple2e_t} (h : mmu_flags s' = mmu_flags s) (p : Nat) :
    main_page s' p = main_page s p := by
  simp only [mmu_flags, List.cons.injEq, and_true] at h
  obtain ⟨h1, h2, h3, h4, h5, h6, -, -, -⟩ := h
  simp only [main_page, ovr_page, h1, h2, h3, h4, h5, h6]

theorem lc_page_congr {s s' : apple2e_t} (h : mmu_flags s' = mmu_flags s) (p : Nat) :
    lc_page s' p = lc_page s p := by
  simp only [mmu_flags, List.cons.injEq, and_true] at h
  obtain ⟨h1, -, -, -, -, -, h7, h8, h9⟩ := h
  simp only [lc_page, h1, h7, h8, h9]

theorem text_bank_update_flags (s : apple2e_t) :
    mmu_flags (_apple2e_text_bank_update s) = mmu_flags s := rfl

theorem hires_bank_update_flags (s : apple2e_t) :
    mmu_flags (_apple2e_hires_bank_update s) = mmu_flags s := rfl

theorem aux_bank_update_flags (s : apple2e_t) :
    mmu_flags (_apple2e_aux_bank_update s) = mmu_flags s := by
  simp only [_apple2e_aux_bank_update]
  split_ifs <;> rfl

theorem lc_bank_update_flags (s : apple2e_t) :
    mmu_flags (_apple2e_lc_bank_update s) = mmu_flags s := by
  simp only [_apple2e_lc_bank_update]
  split_ifs <;> rfl

theorem altzp_update_flags (s : apple2e_t) :
    mmu_flags (_apple2e_altzp_update s) = mmu_flags s := by
  simp only [_apple2e_altzp_update, lc_bank_update_flags]
  rfl

theorem aux_bank_update_page (s : apple2e_t) (p : Nat) :
    (_apple2e_aux_bank_update s).mem.page_table p =
      if 2 ≤ p ∧ p < 0xC0 ∧ ovr_page s p = false then main_page s p
      else s.mem.page_table p := by
  by_cases h80 : s._80store = true <;> by_cases hh : s.hires = true <;>
    simp [_apple2e_aux_bank_update, _apple2e_text_bank_update, _apple2e_hires_bank_update,
      mem_bank_0200, mem_bank_0400, mem_bank_0800, mem_bank_2000, mem_bank_4000, ramwr_of,
      mem_bank_4_ramwr, main_page, ovr_page, mem_map_rw_page, h80, hh] <;>
    split_ifs <;> first | rfl | omega

theorem mem_map_rom_page (m : mem_t) (a sz : Nat) (ptr : mem_ptr) (p : Nat) :
    (mem_map_rom m a sz ptr).page_table p =
      if a ≤ p * 256 ∧ p * 256 < a + sz then
        { read_ptr := { region := ptr.region, off := ptr.off + (p * 256 - a) },
          write_ptr := mem_junk }
      else m.page_table p := by
  simp only [mem_map_rom, mem_ptr.add]

theorem mem_map_rw_page_gen (m : mem_t) (a sz : Nat) (rd wr : mem_ptr) (p : Nat) :
    (mem_map_rw m a sz rd wr).page_table p =
      if a ≤ p * 256 ∧ p * 256 < a + sz then
        { read_ptr := { region := rd.region, off := rd.off + (p * 256 - a) },
          write_ptr := { region := wr.region, off := wr.off + (p * 256 - a) } }
      else m.page_table p := by
  simp only [mem_map_rw, mem_ptr.add]

theorem lc_bank_update_page (s : apple2e_t) (p : Nat) :
    (_apple2e_lc_bank_update s).mem.page_table p =
      if 0xD0 ≤ p ∧ p < 0x100 then lc_page s p else s.mem.page_table p := by
  by_cases h1 : s.lcram = true <;> by_cases h2 : s.write_enabled = true <;>
    by_cases h3 : s.lcbnk2 = true <;> by_cases h4 : s.altzp = true <;>
    simp [_apple2e_lc_bank_update, mem_map_ram, mem_map_rom_page, mem_map_rw_page_gen, lc_page,
      p_ram, p_aux, p_rom, mem_ptr.add, plane_of, h1, h2, h3, h4] <;>
    split_ifs <;> first | omega | (simp <;> omega)

theorem altzp_update_page (s : apple2e_t) (p : Nat) :
    (_apple2e_altzp_update s).mem.page_table p =
      if p < 2 then main_page s p
      else if 0xD0 ≤ p ∧ p < 0x100 then lc_page s p else s.mem.page_table p := by
  have hf : mmu_flags { s with mem := (mem_map_rw s.mem 0x0000 0x200
        (mem_bank_0000 (if s.altzp then 1 else 0)).read_ptr
        (mem_bank_0000 (if s.altzp then 1 else 0)).write_ptr) } = mmu_flags s := rfl
  simp only [_apple2e_altzp_update, lc_bank_update_page, lc_page_congr hf]
  by_cases h4 : s.altzp = true <;>
    simp [mem_map_rw_page_gen, mem_bank_0000, main_page, page_at, p_ram, p_aux, plane_of, h4] <;>
    split_ifs <;> first | omega | simp

theorem map_inv_of_eq {s s' : apple2e_t} (hm : s'.mem = s.mem)
    (hf : mmu_flags s' = mmu_flags s) (h : map_inv s) : map_inv s' := by
  refine ⟨fun p hp => ?_, fun p h1 h2 => ?_, fun p h1 h2 => ?_⟩
  · rw [hm, main_page_congr hf]; exact h.1 p hp
  · rw [hm]; exact h.2.1 p h1 h2
  · rw [hm, lc_page_congr hf]; exact h.2.2 p h1 h2

theorem map_inv_ramrd (s : apple2e_t) (b : Bool) (h : map_inv s) :
    map_inv (_apple2e_aux_bank_update { s with ramrd := b }) := by
  have hf := aux_bank_update_flags { s with ramrd := b }
  refine ⟨fun p hp => ?_, fun p h1 h2 => ?_, fun p h1 h2 => ?_⟩
  · rw [main_page_congr hf, aux_bank_update_page]
    split_ifs with hc
    · rfl
    · show s.mem.page_table p = _
      rw [h.1 p hp]
      simp only [main_page, ovr_page] at hc ⊢
      split_ifs at * <;> first | rfl | omega | simp_all
  · rw [aux_bank_update_page, if_neg (by omega)]
    exact h.2.1 p h1 h2
  · rw [aux_bank_update_page, if_neg (by omega), lc_page_congr hf]
    exact h.2.2 p h1 h2

theorem map_inv_ramwrt (s : apple2e_t) (b : Bool) (h : map_inv s) :
    map_inv (_apple2e_aux_bank_update { s with ramwrt := b }) := by
  have hf := aux_bank_update_flags { s with ramwrt := b }
  refine ⟨fun p hp => ?_, fun p h1 h2 => ?_, fun p h1 h2 => ?_⟩
  · rw [main_page_congr hf, aux_bank_update_page]
    split_ifs with hc
    · rfl
    · show s.mem.page_table p = _
      rw [h.1 p hp]
      simp only [main_page, ovr_page] at hc ⊢
      split_ifs at * <;> first | rfl | omega | simp_all
  · rw [aux_bank_update_page, if_neg (by omega)]
    exact h.2.1 p h1 h2
  · rw [aux_bank_update_page, if_neg (by omega), lc_page_congr hf]
    exact h.2.2 p h1 h2

theorem main_page_text (s : apple2e_t) (p : Nat) (hp : 4 ≤ p ∧ p < 8) :
    main_page s p =
      if s._80store then page_at (plane_of s.page2) (plane_of s.page2) p
      else page_at (plane_of s.ramrd) (plane_of s.ramwrt) p := by
  have h1 : ¬ p < 2 := by omega
  have h2 : ¬ (0x20 ≤ p ∧ p < 0x40) := by omega
  simp [main_page, ovr_page, h1, h2, hp]

theorem main_page_hires (s : apple2e_t) (p : Nat) (hp : 0x20 ≤ p ∧ p < 0x40) :
    main_page s p =
      if s._80store && s.hires then page_at (plane_of s.page2) (plane_of s.page2) p
      else page_at (plane_of s.ramrd) (plane_of s.ramwrt) p := by
  have h1 : ¬ p < 2 := by omega
  have h2 : ¬ (4 ≤ p ∧ p < 8) := by omega
  simp [main_page, ovr_page, h1, h2, hp]

theorem text_bank_update_page_main (s : apple2e_t) (p : Nat) :
    (_apple2e_text_bank_update s).mem.page_table p =
      if 4 ≤ p ∧ p < 8 then main_page s p else s.mem.page_table p := by
  rw [text_bank_update_page]
  split_ifs with h
  · rw [main_page_text s p h]; simp [*]
  · rw [main_page_text s p h]; simp [*]
  · rfl

theorem hires_bank_update_page_main (s : apple2e_t) (p : Nat) :
    (_apple2e_hires_bank_update s).mem.page_table p =
      if 0x20 ≤ p ∧ p < 0x40 then main_page s p else s.mem.page_table p := by
  rw [hires_bank_update_page]
  split_ifs with h
  · rw [main_page_hires s p h]; simp [*]
  · rw [main_page_hires s p h]; simp [*]
  · rfl

/-- Re-deriving the text and hi-res windows restores the invariant when only flags
that affect those two windows differ from a state that satisfied it. -/
theorem map_inv_text_hires (s s1 : apple2e_t) (h : map_inv s) (hm : s1.mem = s.mem)
    (h1 : s1.altzp = s.altzp) (h2 : s1.ramrd = s.ramrd) (h3 : s1.ramwrt = s.ramwrt)
    (h7 : s1.lcram = s.lcram) (h8 : s1.lcbnk2 = s.lcbnk2)
    (h9 : s1.write_enabled = s.write_enabled) :
    map_inv (_apple2e_hires_bank_update (_apple2e_text_bank_update s1)) := by
  have hf : mmu_flags (_apple2e_hires_bank_update (_apple2e_text_bank_update s1)) =
      mmu_flags s1 := rfl
  refine ⟨fun p hp => ?_, fun p q1 q2 => ?_, fun p q1 q2 => ?_⟩
  · rw [main_page_congr hf, hires_bank_update_page_main, text_bank_update_page_main]
    split_ifs with hc hd
    · exact main_page_congr (text_bank_update_flags s1) p
    · rfl
    · rw [hm, h.1 p hp]
      have hn1 : decide (4 ≤ p ∧ p < 8) = false := by simpa using hd
      have hn2 : decide (0x20 ≤ p ∧ p < 0x40) = false := by simpa using hc
      simp [main_page, ovr_page, hn1, hn2, h1, h2, h3]
  · rw [hires_bank_update_page_main, text_bank_update_page_main, if_neg (by omega),
      if_neg (by omega), hm]
    exact h.2.1 p q1 q2
  · rw [hires_bank_update_page_main, text_bank_update_page_main, if_neg (by omega),
      if_neg (by omega), hm, h.2.2 p q1 q2, lc_page_congr hf]
    simp only [lc_page, h1, h7, h8, h9]

theorem map_inv_80store (s : apple2e_t) (b : Bool) (h : map_inv s) :
    map_inv (_apple2e_hires_bank_update (_apple2e_text_bank_update { s with _80store := b })) :=
  map_inv_text_hires s _ h rfl rfl rfl rfl rfl rfl rfl

theorem map_inv_altzp (s : apple2e_t) (b : Bool) (h : map_inv s) :
    map_inv (_apple2e_altzp_update { s with altzp := b }) := by
  have hf := altzp_update_flags { s with altzp := b }
  refine ⟨fun p hp => ?_, fun p q1 q2 => ?_, fun p q1 q2 => ?_⟩
  · rw [main_page_congr hf, altzp_update_page]
    split_ifs with hc
    · rfl
    · omega
    · show s.mem.page_table p = _
      rw [h.1 p hp]
      simp only [main_page, ovr_page, if_neg hc]
  · rw [altzp_update_page, if_neg (by omega), if_neg (by omega)]
    exact h.2.1 p q1 q2
  · rw [altzp_update_page, if_neg (by omega), if_pos ⟨q1, q2⟩, lc_page_congr hf]

theorem map_inv_page2 (s : apple2e_t) (b : Bool) (h : map_inv s) :
    map_inv
      (if s._80store then
        (if (_apple2e_text_bank_update { s with page2 := b }).hires then
          _apple2e_hires_bank_update (_apple2e_text_bank_update { s with page2 := b })
        else _apple2e_text_bank_update { s with page2 := b })
      else { s with page2 := b }) := by
  by_cases h80 : s._80store = true <;> by_cases hh : s.hires = true
  · have e1 : s._80store = true := h80
    have e2 : (_apple2e_text_bank_update { s with page2 := b }).hires = true := hh
    rw [if_pos e1, if_pos e2]
    exact map_inv_text_hires s _ h rfl rfl rfl rfl rfl rfl rfl
  · have e1 : s._80store = true := h80
    have e2 : ¬ (_apple2e_text_bank_update { s with page2 := b }).hires = true := hh
    rw [if_pos e1, if_neg e2]
    refine ⟨fun p hp => ?_, fun p q1 q2 => ?_, fun p q1 q2 => ?_⟩
    · rw [main_page_congr (text_bank_update_flags _), text_bank_update_page_main]
      split_ifs with hc
      · rfl
      · show s.mem.page_table p = _
        rw [h.1 p hp]
        have hn1 : decide (4 ≤ p ∧ p < 8) = false := by simpa using hc
        simp [main_page, ovr_page, hn1, hh]
    · rw [text_bank_update_page_main, if_neg (by omega)]
      exact h.2.1 p q1 q2
    · rw [text_bank_update_page_main, if_neg (by omega), lc_page_congr (text_bank_update_flags _)]
      exact h.2.2 p q1 q2
  · have e1 : ¬ s._80store = true := h80
    rw [if_neg e1]
    refine ⟨fun p hp => ?_, fun p q1 q2 => h.2.1 p q1 q2, fun p q1 q2 => h.2.2 p q1 q2⟩
    show s.mem.page_table p = _
    rw [h.1 p hp]
    simp [main_page, ovr_page, h80]
  · have e1 : ¬ s._80store = true := h80
    rw [if_neg e1]
    refine ⟨fun p hp => ?_, fun p q1 q2 => h.2.1 p q1 q2, fun p q1 q2 => h.2.2 p q1 q2⟩
    show s.mem.page_table p = _
    rw [h.1 p hp]
    simp [main_page, ovr_page, h80]

theorem map_inv_hires (s : apple2e_t) (b : Bool) (h : map_inv s) :
    map_inv
      (if s._80store then
        _apple2e_hires_bank_update { s with hires := b }
      else { s with hires := b }) := by
  by_cases h80 : s._80store = true
  · have e1 : s._80store = true := h80
    rw [if_pos e1]
    refine ⟨fun p hp => ?_, fun p q1 q2 => ?_, fun p q1 q2 => ?_⟩
    · rw [main_page_congr (hires_bank_update_flags _), hires_bank_update_page_main]
      split_ifs with hc
      · rfl
      · show s.mem.page_table p = _
        rw [h.1 p hp]
        have hn1 : decide (0x20 ≤ p ∧ p < 0x40) = false := by simpa using hc
        simp [main_page, ovr_page, hn1]
    · rw [hires_bank_update_page_main, if_neg (by omega)]
      exact h.2.1 p q1 q2
    · rw [hires_bank_update_page_main, if_neg (by omega),
        lc_page_congr (hires_bank_update_flags _)]
      exact h.2.2 p q1 q2
  · have e1 : ¬ s._80store = true := h80
    rw [if_neg e1]
    refine ⟨fun p hp => ?_, fun p q1 q2 => h.2.1 p q1 q2, fun p q1 q2 => h.2.2 p q1 q2⟩
    show s.mem.page_table p = _
    rw [h.1 p hp]
    simp [main_page, ovr_page, h80]

theorem map_inv_lc_bank_update (s s0 : apple2e_t) (h : map_inv s0) (hm : s.mem = s0.mem)
    (h1 : s.altzp = s0.altzp) (h2 : s.ramrd = s0.ramrd) (h3 : s.ramwrt = s0.ramwrt)
    (h4 : s._80store = s0._80store) (h5 : s.page2 = s0.page2) (h6 : s.hires = s0.hires) :
    map_inv (_apple2e_lc_bank_update s) := by
  have hf := lc_bank_update_flags s
  refine ⟨fun p hp => ?_, fun p q1 q2 => ?_, fun p q1 q2 => ?_⟩
  · rw [main_page_congr hf, lc_bank_update_page, if_neg (by omega), hm, h.1 p hp]
    simp only [main_page, ovr_page, h1, h2, h3, h4, h5, h6]
  · rw [lc_bank_update_page, if_neg (by omega), hm]
    exact h.2.1 p q1 q2
  · rw [lc_bank_update_page, if_pos ⟨q1, q2⟩, lc_page_congr hf]

theorem same_main_ite (s0 : apple2e_t) (c : Prop) [Decidable c] {a b : apple2e_t}
    (ha : same_main s0 a) (hb : same_main s0 b) : same_main s0 (if c then a else b) := by
  split_ifs <;> assumption

theorem map_inv_ite (c : Prop) [Decidable c] {a b : apple2e_t}
    (ha : map_inv a) (hb : map_inv b) : map_inv (if c then a else b) := by
  split_ifs <;> assumption

theorem map_inv_lc_control (s : apple2e_t) (offset : Nat) (rw : Bool) (h : map_inv s) :
    map_inv (_apple2e_lc_control s offset rw) := by
  unfold _apple2e_lc_control
  lift_lets
  extract_lets s1 s2 s3 s4
  have e1 : same_main s s1 := by
    apply same_main_ite
    · exact ⟨rfl, rfl, rfl, rfl, rfl, rfl, rfl⟩
    · exact ⟨rfl, rfl, rfl, rfl, rfl, rfl, rfl⟩
  clear_value s1
  have e2 : same_main s s2 := by
    repeat' apply same_main_ite
    all_goals exact e1
  clear_value s2
  have e3 : same_main s s3 := by
    repeat' apply same_main_ite
    all_goals exact e2
  clear_value s3
  have e4 : same_main s s4 := e3
  obtain ⟨hm, h1, h2, h3, h4, h5, h6⟩ := e4
  exact map_inv_lc_bank_update s4 s h hm h1 h2 h3 h4 h5 h6

theorem mem_wr_mem (s : apple2e_t) (a d : Nat) : (mem_wr s a d).mem = s.mem := by
  simp only [mem_wr]; split <;> rfl

theorem mem_wr_flags (s : apple2e_t) (a d : Nat) : mmu_flags (mem_wr s a d) = mmu_flags s := by
  simp only [mem_wr]; split <;> rfl

theorem mem_wr_list_mem (ws : List (Nat × Nat)) (s : apple2e_t) :
    (mem_wr_list s ws).mem = s.mem := by
  induction ws generalizing s with
  | nil => rfl
  | cons w ws ih => simp only [mem_wr_list, ih, mem_wr_mem]

theorem mem_wr_list_flags (ws : List (Nat × Nat)) (s : apple2e_t) :
    mmu_flags (mem_wr_list s ws) = mmu_flags s := by
  induction ws generalizing s with
  | nil => rfl
  | cons w ws ih => simp only [mem_wr_list, ih, mem_wr_flags]

theorem map_inv_c000_c00f_w (s : apple2e_t) (addr : Nat) (h : map_inv s) :
    map_inv (_apple2e_mem_c000_c00f_w s addr) := by
  unfold _apple2e_mem_c000_c00f_w
  simp only []
  repeat' (with_reducible apply map_inv_ite)
  all_goals
    first
    | with_reducible exact h
    | with_reducible exact map_inv_80store s _ h
    | with_reducible exact map_inv_ramrd s _ h
    | with_reducible exact map_inv_ramwrt s _ h
    | with_reducible exact map_inv_altzp s _ h
    | exact map_inv_of_eq rfl rfl h

theorem map_inv_set_data {s : apple2e_t} (d : Nat) (h : map_inv s) :
    map_inv (wdc65C02cpu_set_data s d) := map_inv_of_eq rfl rfl h

theorem map_inv_set_dataSlots {s : apple2e_t} (b : Bool) (h : map_inv s) :
    map_inv (wdc65C02cpu_set_dataSlots s b) := map_inv_of_eq rfl rfl h

theorem map_inv_set_cxxx {s : apple2e_t} (b : Bool) (h : map_inv s) :
    map_inv (wdc65C02cpu_set_cxxx s b) := map_inv_of_eq rfl rfl h

theorem map_inv_beeper_toggle {s : apple2e_t} (h : map_inv s) :
    map_inv (beeper_toggle s) := map_inv_of_eq rfl rfl h

theorem map_inv_with_hdc {s : apple2e_t} (x : prodos_hdc_t) (h : map_inv s) :
    map_inv { s with hdc := x } := map_inv_of_eq rfl rfl h

theorem map_inv_with_cpu {s : apple2e_t} (x : wdc65C02cpu_t) (h : map_inv s) :
    map_inv { s with cpu := x } := map_inv_of_eq rfl rfl h

theorem map_inv_mem_wr {s : apple2e_t} (a d : Nat) (h : map_inv s) :
    map_inv (mem_wr s a d) := map_inv_of_eq (mem_wr_mem s a d) (mem_wr_flags s a d) h

theorem map_inv_mem_wr_list {s : apple2e_t} (ws : List (Nat × Nat)) (h : map_inv s) :
    map_inv (mem_wr_list s ws) :=
  map_inv_of_eq (mem_wr_list_mem ws s) (mem_wr_list_flags ws s) h

theorem map_inv_c010_c01f_r {s : apple2e_t} (addr : Nat) (h : map_inv s) :
    map_inv (_apple2e_mem_c010_c01f_r s addr) := map_inv_of_eq rfl rfl h

theorem map_inv_c000_c0ff_rw_default (X : collab_t) (s : apple2e_t) (addr : Nat) (rw : Bool)
    (h : map_inv s) : map_inv (_apple2e_mem_c000_c0ff_rw_default X s addr rw) := by
  unfold _apple2e_mem_c000_c0ff_rw_default
  simp only []
  repeat' (first
    | with_reducible exact h
    | with_reducible apply map_inv_ite
    | with_reducible apply map_inv_set_data
    | with_reducible apply map_inv_set_dataSlots
    | with_reducible apply map_inv_beeper_toggle
    | with_reducible apply map_inv_mem_wr_list
    | with_reducible apply map_inv_lc_control
    | with_reducible apply map_inv_c000_c00f_w
    | with_reducible apply map_inv_c010_c01f_r)
  all_goals exact map_inv_of_eq rfl rfl h

theorem map_inv_c000_c0ff_rw (X : collab_t) (s : apple2e_t) (addr : Nat) (rw : Bool)
    (h : map_inv s) : map_inv (_apple2e_mem_c000_c0ff_rw X s addr rw) := by
  unfold _apple2e_mem_c000_c0ff_rw
  simp only []
  repeat' (first
    | with_reducible exact h
    | with_reducible exact map_inv_page2 s _ h
    | with_reducible exact map_inv_hires s _ h
    | with_reducible exact map_inv_c000_c0ff_rw_default X s addr rw h
    | with_reducible apply map_inv_ite
    | with_reducible apply map_inv_set_data)
  all_goals exact map_inv_of_eq rfl rfl h

theorem map_inv_mem_rw (X : collab_t) (s : apple2e_t) (addr : Nat) (rw : Bool)
    (h : map_inv s) : map_inv (_apple2e_mem_rw X s addr rw) := by
  unfold _apple2e_mem_rw
  simp only []
  repeat' (first
    | with_reducible exact h
    | with_reducible apply map_inv_ite
    | with_reducible apply map_inv_set_data
    | with_reducible apply map_inv_set_dataSlots
    | with_reducible apply map_inv_set_cxxx
    | with_reducible apply map_inv_c000_c0ff_rw
    | with_reducible apply map_inv_mem_wr)
  all_goals exact map_inv_of_eq rfl rfl (map_inv_mem_wr _ _ (map_inv_set_cxxx _ h))

theorem map_inv_init_memorymap (s : apple2e_t) (h1 : s.altzp = false) (h2 : s.ramrd = false)
    (h3 : s.ramwrt = false) (h4 : s._80store = false) :
    map_inv (_apple2e_init_memorymap s) := by
  refine ⟨fun p hp => ?_, fun p q1 q2 => ?_, fun p q1 q2 => ?_⟩
  · simp only [_apple2e_init_memorymap, mem_map_ram, mem_map_rw_page_gen, mem_map_rom_page,
      main_page, ovr_page, h1, h2, h3, h4, p_ram, p_rom, plane_of, page_at]
    rw [if_neg (by omega), if_neg (by omega), if_neg (by omega), if_pos (by omega)]
    simp
  · simp only [_apple2e_init_memorymap, mem_map_ram, mem_map_rw_page_gen, mem_map_rom_page,
      cx_page, p_ram, p_rom]
    rw [if_neg (by omega), if_neg (by omega), if_pos (by omega)]
    simp
  · simp only [_apple2e_init_memorymap, mem_map_ram, mem_map_rw_page_gen, mem_map_rom_page,
      lc_page, h1, p_ram, p_rom, plane_of]
    by_cases hE : p < 0xE0
    · rw [if_neg (by omega), if_pos (by omega)]
      simp [hE]
      omega
    · rw [if_pos (by omega)]
      simp [hE]
      omega

theorem map_inv_init (X : collab_t) (cpu : wdc65C02cpu_t) (desc : apple2e_desc_t)
    (s : apple2e_t) (h : apple2e_init X cpu desc = some s) : map_inv s := by
  unfold apple2e_init at h
  lift_lets at h
  extract_lets num s0 s1 s2 s3 s4 s5 f s6 h' s7 at h
  have e4 : map_inv s4 := map_inv_init_memorymap s3 rfl rfl rfl rfl
  clear_value s4
  have e5 : map_inv s5 := map_inv_of_eq rfl rfl e4
  clear_value s5
  have e6 : map_inv s6 := by
    apply map_inv_ite
    · exact map_inv_of_eq rfl rfl e5
    · exact e5
  clear_value s6
  have e7 : map_inv s7 := by
    repeat' apply map_inv_ite
    all_goals exact map_inv_of_eq rfl rfl e6
  clear_value s7
  split_ifs at h
  simp only [Option.some.injEq] at h
  rw [← h]
  exact e7

theorem map_inv_reachable (X : collab_t) (s : apple2e_t) (h : Reachable X s) : map_inv s := by
  induction h with
  | init cpu desc s h => exact map_inv_init X cpu desc s h
  | access s c a rw _ _ ih => exact map_inv_mem_rw X _ a rw (map_inv_of_eq rfl rfl ih)

theorem lc_bank_update_prewrite (s : apple2e_t) :
    (_apple2e_lc_bank_update s).prewrite = s.prewrite := by
  simp only [_apple2e_lc_bank_update]
  split_ifs <;> rfl

theorem lc_bank_update_lcram (s : apple2e_t) :
    (_apple2e_lc_bank_update s).lcram = s.lcram := by
  simp only [_apple2e_lc_bank_update]
  split_ifs <;> rfl

theorem lc_bank_update_lcbnk2 (s : apple2e_t) :
    (_apple2e_lc_bank_update s).lcbnk2 = s.lcbnk2 := by
  simp only [_apple2e_lc_bank_update]
  split_ifs <;> rfl

theorem lc_bank_update_write_enabled (s : apple2e_t) :
    (_apple2e_lc_bank_update s).write_enabled = s.write_enabled := by
  simp only [_apple2e_lc_bank_update]
  split_ifs <;> rfl

theorem lc_flags_table : ∀ o, o < 16 → ∀ rw p w l : Bool,
    (if o &&& 3 = 0 ∨ o &&& 3 = 3 then true
      else if o &&& 3 = 1 ∨ o &&& 3 = 2 then false else l) =
        decide (o &&& 3 = 0 ∨ o &&& 3 = 3) ∧
    (if (!rw) = true then false
      else if o &&& 1 = 1 then true else (if o &&& 1 = 0 then false else p)) =
        (rw && decide (o % 2 = 1)) ∧
    (if (!rw) = true then (if o &&& 1 = 0 then false else w)
      else if o &&& 1 = 1 then
        (if (!(if o &&& 1 = 0 then false else p)) = true then (if o &&& 1 = 0 then false else w)
          else true)
      else (if o &&& 1 = 0 then false else w)) =
        (if o % 2 = 0 then false else if (rw && p) = true then true else w) := by
  decide

theorem lc_control_flags (s : apple2e_t) (o : Nat) (rw : Bool) (ho : o < 16) :
    (_apple2e_lc_control s o rw).lcram = decide (o &&& 3 = 0 ∨ o &&& 3 = 3) ∧
    (_apple2e_lc_control s o rw).lcbnk2 = decide (o &&& 8 = 0) ∧
    (_apple2e_lc_control s o rw).prewrite = (rw && decide (o % 2 = 1)) ∧
    (_apple2e_lc_control s o rw).write_enabled =
      (if o % 2 = 0 then false else if rw && s.prewrite then true else s.write_enabled) := by
  unfold _apple2e_lc_control
  lift_lets
  extract_lets s1 s2 s3 s4
  rw [lc_bank_update_prewrite, lc_bank_update_lcram, lc_bank_update_lcbnk2,
    lc_bank_update_write_enabled]
  have a1 : s1.prewrite = if o &&& 1 = 0 then false else s.prewrite := by
    simp only [s1]; split_ifs <;> rfl
  have a2 : s1.write_enabled = if o &&& 1 = 0 then false else s.write_enabled := by
    simp only [s1]; split_ifs <;> rfl
  have a3 : s1.lcram = s.lcram := by
    simp only [s1]; split_ifs <;> rfl
  clear_value s1
  have b1 : s2.prewrite =
      if (!rw) = true then false else if o &&& 1 = 1 then true else s1.prewrite := by
    simp only [s2]; split_ifs with c1 c2 c3
    · rfl
    · rfl
    · simpa using c3
    · rfl
  have b2 : s2.write_enabled =
      if (!rw) = true then s1.write_enabled
      else if o &&& 1 = 1 then (if (!s1.prewrite) = true then s1.write_enabled else true)
      else s1.write_enabled := by
    simp only [s2]; split_ifs <;> rfl
  have b3 : s2.lcram = s1.lcram := by
    simp only [s2]; split_ifs <;> rfl
  clear_value s2
  have c1 : s3.prewrite = s2.prewrite := by
    simp only [s3]; split_ifs <;> rfl
  have c2 : s3.write_enabled = s2.write_enabled := by
    simp only [s3]; split_ifs <;> rfl
  have c3 : s3.lcram =
      if o &&& 3 = 0 ∨ o &&& 3 = 3 then true
      else if o &&& 3 = 1 ∨ o &&& 3 = 2 then false else s2.lcram := by
    simp only [s3]; split_ifs <;> rfl
  clear_value s3
  have d1 : s4.prewrite = s3.prewrite := rfl
  have d2 : s4.write_enabled = s3.write_enabled := rfl
  have d3 : s4.lcram = s3.lcram := rfl
  have d4 : s4.lcbnk2 = decide (o &&& 8 = 0) := rfl
  rw [d1, d2, d3, d4, c1, c2, c3, b1, b2, b3, a1, a2, a3]
  obtain ⟨t1, t2, t3⟩ := lc_flags_table o ho rw s.prewrite s.write_enabled s.lcram
  exact ⟨t1, rfl, t2, t3⟩

theorem mem_rw_lc (X : collab_t) (s : apple2e_t) (a : Nat) (rw : Bool)
    (h1 : 0xC080 ≤ a) (h2 : a ≤ 0xC08F) :
    _apple2e_mem_rw X s a rw =
      if rw then
        wdc65C02cpu_set_data
          (_apple2e_lc_control
            (wdc65C02cpu_set_dataSlots (wdc65C02cpu_set_cxxx s true) false) (a &&& 0xF) rw) 0xFF
      else
        _apple2e_lc_control
          (wdc65C02cpu_set_dataSlots (wdc65C02cpu_set_cxxx s true) false) (a &&& 0xF) rw := by
  interval_cases a <;> rfl

/-- A read outside `$C000-$CFFF` puts the mapped byte on the data latch. -/
theorem mem_rw_read_data (X : collab_t) (s : apple2e_t) (a : Nat)
    (ha : ¬ (0xC000 ≤ a ∧ a ≤ 0xCFFF)) :
    (_apple2e_mem_rw X s a true).cpu.data = mem_rd s a := by
  simp only [_apple2e_mem_rw, if_neg ha]
  rfl

/-- A write outside `$C000-$CFFF` changes the RAM planes like `mem_wr`. -/
theorem mem_rw_write_planes (X : collab_t) (s : apple2e_t) (a : Nat)
    (ha : ¬ (0xC000 ≤ a ∧ a ≤ 0xCFFF)) :
    (_apple2e_mem_rw X s a false).ram = (mem_wr s a s.cpu.data).ram ∧
    (_apple2e_mem_rw X s a false).aux_ram = (mem_wr s a s.cpu.data).aux_ram := by
  have base : (mem_wr (wdc65C02cpu_set_cxxx s false) a
        (wdc65C02cpu_get_data (wdc65C02cpu_set_cxxx s false))).ram =
        (mem_wr s a s.cpu.data).ram ∧
      (mem_wr (wdc65C02cpu_set_cxxx s false) a
        (wdc65C02cpu_get_data (wdc65C02cpu_set_cxxx s false))).aux_ram =
        (mem_wr s a s.cpu.data).aux_ram := by
    simp only [mem_wr, wdc65C02cpu_set_cxxx, wdc65C02cpu_get_data]
    split <;> exact ⟨rfl, rfl⟩
  simp only [_apple2e_mem_rw, if_neg ha, Bool.false_eq_true, if_false]
  split_ifs <;> exact base

theorem mem_rd_eq (s : apple2e_t) (a : Nat) (R : mem_region) (off : Nat)
    (h : (s.mem.page_table (a / 256)).read_ptr = { region := R, off := off }) :
    mem_rd s a = region_byte s R (off + a % 256) := by
  simp only [mem_rd, h, region_byte]

theorem mem_wr_eq (s : apple2e_t) (a d : Nat) (W : mem_region) (off : Nat)
    (h : (s.mem.page_table (a / 256)).write_ptr = { region := W, off := off }) :
    (mem_wr s a d).ram =
        (if W = mem_region.ram then (fun i => if i = off + a % 256 then d else s.ram i)
         else s.ram) ∧
    (mem_wr s a d).aux_ram =
        (if W = mem_region.aux_ram then (fun i => if i = off + a % 256 then d else s.aux_ram i)
         else s.aux_ram) := by
  simp only [mem_wr, h]
  cases W <;> exact ⟨rfl, rfl⟩

theorem lc_off_eq (a : Nat) (b : Bool) (h1 : 0xD000 ≤ a) :
    (if a / 256 < 0xE0 ∧ b = false then a / 256 * 256 - 0x1000 else a / 256 * 256) + a % 256 =
      if a < 0xE000 ∧ b = false then a - 0x1000 else a := by
  cases b
  · simp only [and_true]
    split_ifs <;> omega
  · simp only [Bool.true_eq_false, and_false, if_false]
    omega

/-- The language-card window offset the code uses for address `a`. -/
theorem lc_read_ptr (s : apple2e_t) (hi : map_inv s) (a : Nat) (h1 : 0xD000 ≤ a)
    (h2 : a ≤ 0xFFFF) :
    mem_rd s a =
      if s.lcram then
        region_byte s (plane_of s.altzp) (if a < 0xE000 ∧ s.lcbnk2 = false then a - 0x1000 else a)
      else s.rom (a - 0xC000) := by
  have hp := hi.2.2 (a / 256) (by omega) (by omega)
  rw [mem_rd_eq s a _ _ rfl, hp]
  by_cases c1 : s.lcram = true
  · simp only [lc_page, c1, if_true, lc_off_eq a s.lcbnk2 h1]
  · have e : a / 256 * 256 - 0xC000 + a % 256 = a - 0xC000 := by omega
    simp only [lc_page, c1, Bool.false_eq_true, if_false, region_byte, e]

theorem lc_write_ptr (s : apple2e_t) (hi : map_inv s) (a d : Nat) (h1 : 0xD000 ≤ a)
    (h2 : a ≤ 0xFFFF) (i : Nat) :
    (mem_wr s a d).ram i =
      (if s.write_enabled = true ∧ s.altzp = false ∧
          i = (if a < 0xE000 ∧ s.lcbnk2 = false then a - 0x1000 else a) then d
       else s.ram i) ∧
    (mem_wr s a d).aux_ram i =
      (if s.write_enabled = true ∧ s.altzp = true ∧
          i = (if a < 0xE000 ∧ s.lcbnk2 = false then a - 0x1000 else a) then d
       else s.aux_ram i) := by
  have hp := hi.2.2 (a / 256) (by omega) (by omega)
  obtain ⟨r1, r2⟩ := mem_wr_eq s a d _ _ rfl
  rw [r1, r2, hp]
  by_cases c1 : s.write_enabled = true <;> by_cases c2 : s.altzp = true <;>
    simp [lc_page, c1, c2, plane_of, mem_junk, lc_off_eq a s.lcbnk2 h1]

theorem ex_init_ok : apple2e_init ex_collab ex_cpu ex_desc = some ex_init := rfl

theorem reachable_ex_init : Reachable ex_collab ex_init :=
  Reachable.init ex_cpu ex_desc ex_init ex_init_ok

theorem reachable_cpu_read (X : collab_t) (s : apple2e_t) (a : Nat) (ha : a < 0x10000)
    (h : Reachable X s) : Reachable X (cpu_read X s a) :=
  Reachable.access s s.cpu a true h ha

theorem reachable_cpu_write (X : collab_t) (s : apple2e_t) (a v : Nat) (ha : a < 0x10000)
    (h : Reachable X s) : Reachable X (cpu_write X s a v) :=
  Reachable.access s { s.cpu with data := v } a false h ha

theorem reachable_ex_lc : Reachable ex_collab ex_lc :=
  reachable_cpu_read _ _ _ (by decide) (reachable_cpu_read _ _ _ (by decide) reachable_ex_init)

/-! ## The claims -/

theorem spec_planes_eq (s : apple2e_t) (a : Nat) (ha : a < 0xC000) :
    main_page s (a / 256) =
      { read_ptr := { region := (spec_planes s a).1, off := a / 256 * 256 },
        write_ptr := { region := (spec_planes s a).2, off := a / 256 * 256 } } := by
  simp only [main_page, ovr_page, spec_planes, spec_ramwr, page_at, plane_of]
  by_cases c1 : a < 0x200
  · have : a / 256 < 2 := by omega
    cases s.altzp <;> simp [c1, this]
  · have n2 : ¬ a / 256 < 2 := by omega
    by_cases c2 : a < 0x400
    · have t1 : ¬ (4 ≤ a / 256 ∧ a / 256 < 8) := by omega
      have t2 : ¬ (32 ≤ a / 256 ∧ a / 256 < 64) := by omega
      cases s.ramrd <;> cases s.ramwrt <;> simp [c1, c2, n2, t1, t2, spec_bank]
    · by_cases c3 : a < 0x800
      · have t1 : (4 ≤ a / 256 ∧ a / 256 < 8) := by omega
        have t2 : ¬ (32 ≤ a / 256 ∧ a / 256 < 64) := by omega
        cases s.ramrd <;> cases s.ramwrt <;> cases s._80store <;> cases s.page2 <;>
          simp [c1, c2, c3, n2, t1, t2, spec_bank]
      · by_cases c4 : a < 0x2000
        · have t1 : ¬ (4 ≤ a / 256 ∧ a / 256 < 8) := by omega
          have t2 : ¬ (32 ≤ a / 256 ∧ a / 256 < 64) := by omega
          cases s.ramrd <;> cases s.ramwrt <;> simp [c1, c2, c3, c4, n2, t1, t2, spec_bank]
        · by_cases c5 : a < 0x4000
          · have t1 : ¬ (4 ≤ a / 256 ∧ a / 256 < 8) := by omega
            have t2 : (32 ≤ a / 256 ∧ a / 256 < 64) := by omega
            cases s.ramrd <;> cases s.ramwrt <;> cases s._80store <;> cases s.page2 <;>
              cases s.hires <;> simp [c1, c2, c3, c4, c5, n2, t1, t2, spec_bank]
          · have t1 : ¬ (4 ≤ a / 256 ∧ a / 256 < 8) := by omega
            have t2 : ¬ (32 ≤ a / 256 ∧ a / 256 < 64) := by omega
            cases s.ramrd <;> cases s.ramwrt <;>
              simp [c1, c2, c3, c4, c5, n2, t1, t2, spec_bank]

/-- C1: in every state reachable from `apple2e_init` by CPU bus accesses through
`_apple2e_mem_rw`, the page-table entry of every address below `$C000` is the bank
the selector table prescribes for the current flags: the read pointer points at the
address's own page in the read plane of the selected bank and the write pointer at
the same page in its write plane (`$0000-$01FF` by `altzp`; `$0200-$03FF`,
`$0800-$1FFF`, `$4000-$BFFF` by `ramwr`; `$0400-$07FF` by
`_80store ? (page2 ? 3 : 0) : ramwr`; `$2000-$3FFF` by
`(_80store && hires) ? (page2 ? 3 : 0) : ramwr`). -/
theorem C1_bank_mapping_invariant (X : collab_t) (s : apple2e_t) (h : Reachable X s)
    (a : Nat) (ha : a < 0xC000) :
    s.mem.page_table (a / 256) =
      { read_ptr := { region := (spec_planes s a).1, off := a / 256 * 256 },
        write_ptr := { region := (spec_planes s a).2, off := a / 256 * 256 } } := by
  rw [(map_inv_reachable X s h).1 (a / 256) (by omega)]
  exact spec_planes_eq s a ha

theorem reachable_ex_80store : Reachable ex_collab ex_80store :=
  reachable_cpu_write _ _ _ _ (by decide) (reachable_cpu_write _ _ _ _ (by decide)
    (reachable_cpu_write _ _ _ _ (by decide) reachable_ex_init))

/-- Witness of C1: after 80STORE on, HIRES on and PAGE2 on, the hi-res page-1 address
`$2345` is mapped to the auxiliary plane for reading and writing. -/
theorem C1_bank_mapping_invariant_witness :
    Reachable ex_collab ex_80store ∧ 0x2345 < 0xC000 ∧
    ex_80store.mem.page_table (0x2345 / 256) =
      { read_ptr := { region := mem_region.aux_ram, off := 0x2300 },
        write_ptr := { region := mem_region.aux_ram, off := 0x2300 } } :=
  ⟨reachable_ex_80store, by decide,
    C1_bank_mapping_invariant ex_collab ex_80store reachable_ex_80store 0x2345 (by decide)⟩

/-- C2: in every state reachable from `apple2e_init`, for every address `a` in
`$D000-$FFFF`: a CPU read returns a byte of the RAM plane selected by `altzp` (aux
iff `altzp`) when `lcram` is set and the system ROM byte `rom[a - 0xC000]` when
`lcram` is clear; a CPU write stores into the RAM plane selected by `altzp` when
`write_enabled` is set and changes neither RAM plane when it is clear; for all four
combinations of `(lcram, write_enabled)`. The RAM offset is the one the code uses. -/
theorem C2_language_card_read_write (X : collab_t) (s : apple2e_t) (h : Reachable X s)
    (a : Nat) (h1 : 0xD000 ≤ a) (h2 : a ≤ 0xFFFF) :
    (cpu_read X s a).cpu.data =
      (if s.lcram then
        (if s.altzp then s.aux_ram (if a < 0xE000 ∧ s.lcbnk2 = false then a - 0x1000 else a)
         else s.ram (if a < 0xE000 ∧ s.lcbnk2 = false then a - 0x1000 else a))
       else s.rom (a - 0xC000)) ∧
    ∀ v i : Nat,
      (cpu_write X s a v).ram i =
        (if s.write_enabled = true ∧ s.altzp = false ∧
            i = (if a < 0xE000 ∧ s.lcbnk2 = false then a - 0x1000 else a) then v
         else s.ram i) ∧
      (cpu_write X s a v).aux_ram i =
        (if s.write_enabled = true ∧ s.altzp = true ∧
            i = (if a < 0xE000 ∧ s.lcbnk2 = false then a - 0x1000 else a) then v
         else s.aux_ram i) := by
  have ha : ¬ (0xC000 ≤ a ∧ a ≤ 0xCFFF) := by omega
  have hi := map_inv_reachable X s h
  constructor
  · rw [cpu_read, mem_rw_read_data X s a ha, lc_read_ptr s hi a h1 h2]
    by_cases c2 : s.altzp = true <;> simp [c2, plane_of, region_byte]
  · intro v i
    have hw := mem_rw_write_planes X (wdc65C02cpu_set_data s v) a ha
    rw [cpu_write, hw.1, hw.2]
    exact lc_write_ptr (wdc65C02cpu_set_data s v) (map_inv_set_data v hi) a v h1 h2 i

/-- Witness of C2: right after power-on (`lcram` clear, `write_enabled` set) a read of
`$D123` returns the ROM byte at `0x1123` and a write of `0x5A` lands in main RAM. -/
theorem C2_language_card_read_write_witness :
    Reachable ex_collab ex_init ∧ 0xD000 ≤ 0xD123 ∧ 0xD123 ≤ 0xFFFF ∧
    (cpu_read ex_collab ex_init 0xD123).cpu.data = ex_init.rom 0x1123 ∧
    (cpu_write ex_collab ex_init 0xD123 0x5A).ram 0xD123 = 0x5A ∧
    (cpu_write ex_collab ex_init 0xD123 0x5A).aux_ram 0xD123 = 0xFF :=
  ⟨reachable_ex_init, by decide, by decide,
    (C2_language_card_read_write ex_collab ex_init reachable_ex_init 0xD123
      (by decide) (by decide)).1,
    ((C2_language_card_read_write ex_collab ex_init reachable_ex_init 0xD123
      (by decide) (by decide)).2 0x5A 0xD123).1,
    ((C2_language_card_read_write ex_collab ex_init reachable_ex_init 0xD123
      (by decide) (by decide)).2 0x5A 0xD123).2⟩

/-- Counterexample to C3 as stated: after power-on and two reads of `$C083` the
language card maps RAM with `lcbnk2` set, and a CPU write of `0x5A` to `$D000` lands
at offset `$D000` of main RAM, not in the window at `$C000`; the page-table entry of
`$D000` points at offset `$D000`. -/
theorem C3_counterexample :
    ex_lc.lcram = true ∧ ex_lc.write_enabled = true ∧ ex_lc.lcbnk2 = true ∧
    ex_lc.altzp = false ∧
    ex_lc.mem.page_table (0xD000 / 256) =
      { read_ptr := { region := mem_region.ram, off := 0xD000 },
        write_ptr := { region := mem_region.ram, off := 0xD000 } } ∧
    (cpu_write ex_collab ex_lc 0xD000 0x5A).ram 0xD000 = 0x5A ∧
    (cpu_write ex_collab ex_lc 0xD000 0x5A).ram 0xC000 ≠ 0x5A ∧
    (cpu_read ex_collab (cpu_write ex_collab ex_lc 0xD000 0x5A) 0xD000).cpu.data = 0x5A := by
  refine ⟨rfl, rfl, rfl, rfl, rfl, rfl, by decide, rfl⟩

/-- C3 (amended): when the language card maps RAM, an access to address `a` in
`$D000-$DFFF` uses offset `a` (the `$D000` window) of the selected RAM plane if
`lcbnk2` is set and the window at offset `$C000 + (a - $D000)` if `lcbnk2` is clear;
an access in `$E000-$FFFF` always uses offset `a`. Stated for the read pointer when
`lcram` is set and for the write pointer when `write_enabled` is set. -/
theorem C3_language_card_window (X : collab_t) (s : apple2e_t) (h : Reachable X s)
    (a : Nat) (h1 : 0xD000 ≤ a) (h2 : a ≤ 0xFFFF) :
    (s.lcram = true →
      ((s.mem.page_table (a / 256)).read_ptr.region = plane_of s.altzp ∧
       (s.mem.page_table (a / 256)).read_ptr.off + a % 256 =
        (if a ≤ 0xDFFF then (if s.lcbnk2 then a else 0xC000 + (a - 0xD000)) else a))) ∧
    (s.write_enabled = true →
      ((s.mem.page_table (a / 256)).write_ptr.region = plane_of s.altzp ∧
       (s.mem.page_table (a / 256)).write_ptr.off + a % 256 =
        (if a ≤ 0xDFFF then (if s.lcbnk2 then a else 0xC000 + (a - 0xD000)) else a))) := by
  have hp := (map_inv_reachable X s h).2.2 (a / 256) (by omega) (by omega)
  have e : (if a / 256 < 0xE0 ∧ s.lcbnk2 = false then a / 256 * 256 - 0x1000
        else a / 256 * 256) + a % 256 =
      (if a ≤ 0xDFFF then (if s.lcbnk2 then a else 0xC000 + (a - 0xD000)) else a) := by
    rw [lc_off_eq a s.lcbnk2 h1]
    cases s.lcbnk2 <;> simp <;> split_ifs <;> omega
  rw [hp]
  constructor
  · intro c
    simp only [lc_page, c, if_true]
    exact ⟨trivial, e⟩
  · intro c
    simp only [lc_page, c, if_true]
    exact ⟨trivial, e⟩

theorem reachable_ex_lc_bank1 :
    Reachable ex_collab (cpu_read ex_collab (cpu_read ex_collab ex_init 0xC08B) 0xC08B) :=
  reachable_cpu_read _ _ _ (by decide) (reachable_cpu_read _ _ _ (by decide) reachable_ex_init)

/-- Witness of the amended C3: after two reads of `$C08B` (`lcbnk2` clear) address
`$D010` is backed by offset `$C010` of main RAM. -/
theorem C3_language_card_window_witness :
    Reachable ex_collab (cpu_read ex_collab (cpu_read ex_collab ex_init 0xC08B) 0xC08B) ∧
    (cpu_read ex_collab (cpu_read ex_collab ex_init 0xC08B) 0xC08B).lcram = true ∧
    (cpu_read ex_collab (cpu_read ex_collab ex_init 0xC08B) 0xC08B).lcbnk2 = false ∧
    ((cpu_read ex_collab (cpu_read ex_collab ex_init 0xC08B) 0xC08B).mem.page_table
        (0xD010 / 256)).read_ptr.off + 0xD010 % 256 = 0xC010 :=
  ⟨reachable_ex_lc_bank1, rfl, rfl,
    ((C3_language_card_window ex_collab _ reachable_ex_lc_bank1 0xD010 (by decide)
      (by decide)).1 rfl).2⟩

theorem lc_access_flags (X : collab_t) (s : apple2e_t) (a : Nat) (rw : Bool)
    (h1 : 0xC080 ≤ a) (h2 : a ≤ 0xC08F) :
    (_apple2e_mem_rw X s a rw).lcram =
      decide ((a &&& 0xF) &&& 3 = 0 ∨ (a &&& 0xF) &&& 3 = 3) ∧
    (_apple2e_mem_rw X s a rw).lcbnk2 = decide ((a &&& 0xF) &&& 8 = 0) ∧
    (_apple2e_mem_rw X s a rw).prewrite = (rw && decide ((a &&& 0xF) % 2 = 1)) ∧
    (_apple2e_mem_rw X s a rw).write_enabled =
      (if (a &&& 0xF) % 2 = 0 then false
       else if rw && s.prewrite then true else s.write_enabled) := by
  have ho : a &&& 0xF < 16 := Nat.lt_succ_of_le Nat.and_le_right
  have hf := lc_control_flags
    (wdc65C02cpu_set_dataSlots (wdc65C02cpu_set_cxxx s true) false) (a &&& 0xF) rw ho
  rw [mem_rw_lc X s a rw h1 h2]
  cases rw
  · exact hf
  · exact hf

/-- C4: for every offset `o` in `0..15`, every access kind `rw` and every prior
`(prewrite, write_enabled)`, `_apple2e_lc_control(o, rw)` yields
`lcram = ((o & 3) is 0 or 3)`, `lcbnk2 = ((o & 8) == 0)`,
`prewrite = (rw is read and o is odd)`, and `write_enabled` = false if `o` is even,
true if `o` is odd, `rw` is read and `prewrite` was already set, and otherwise its
previous value. -/
theorem C4_lc_control_decode (s : apple2e_t) (o : Nat) (rw : Bool) (ho : o < 16) :
    (_apple2e_lc_control s o rw).lcram = decide (o &&& 3 = 0 ∨ o &&& 3 = 3) ∧
    (_apple2e_lc_control s o rw).lcbnk2 = decide (o &&& 8 = 0) ∧
    (_apple2e_lc_control s o rw).prewrite = (rw && decide (o % 2 = 1)) ∧
    (_apple2e_lc_control s o rw).write_enabled =
      (if o % 2 = 0 then false else if rw && s.prewrite then true else s.write_enabled) :=
  lc_control_flags s o rw ho

/-- Witness of C4: offset `0xB` read on the power-on state. -/
theorem C4_lc_control_decode_witness :
    0xB < 16 ∧
    (_apple2e_lc_control ex_init 0xB true).lcram = true ∧
    (_apple2e_lc_control ex_init 0xB true).lcbnk2 = false ∧
    (_apple2e_lc_control ex_init 0xB true).prewrite = true ∧
    (_apple2e_lc_control ex_init 0xB true).write_enabled = true :=
  ⟨by decide, C4_lc_control_decode ex_init 0xB true (by decide)⟩

/-- Counterexample to C5 as stated: on the power-on state one CPU read of `$C083`
leaves `write_enabled` set and `lcbnk2` set, so it does not leave
`write_enabled = false`, `lcram = true`, `lcbnk2 = false`. -/
theorem C5_counterexample :
    ex_init.write_enabled = true ∧ ex_init.lcram = false ∧ ex_init.lcbnk2 = true ∧
    ex_init.prewrite = false ∧
    (cpu_read ex_collab ex_init 0xC083).write_enabled = true ∧
    (cpu_read ex_collab ex_init 0xC083).lcbnk2 = true ∧
    ¬ ((cpu_read ex_collab ex_init 0xC083).write_enabled = false ∧
        (cpu_read ex_collab ex_init 0xC083).lcram = true ∧
        (cpu_read ex_collab ex_init 0xC083).lcbnk2 = false) := by
  refine ⟨rfl, rfl, rfl, rfl, rfl, rfl, by decide⟩

/-- C5 (amended): starting from the power-on language-card state
(`write_enabled = true`, `lcram = false`, `lcbnk2 = true`, `prewrite = false`), one
CPU read of `$C083` leaves `write_enabled = true`, `lcram = true`, `lcbnk2 = true`
and sets `prewrite`; a second CPU read of `$C083` then leaves
`write_enabled = true`. -/
theorem C5_lc_enable_sequence (X : collab_t) (s : apple2e_t)
    (hw : s.write_enabled = true) (_hr : s.lcram = false) (_hb : s.lcbnk2 = true)
    (hp : s.prewrite = false) :
    (cpu_read X s 0xC083).write_enabled = true ∧
    (cpu_read X s 0xC083).lcram = true ∧
    (cpu_read X s 0xC083).lcbnk2 = true ∧
    (cpu_read X s 0xC083).prewrite = true ∧
    (cpu_read X (cpu_read X s 0xC083) 0xC083).write_enabled = true := by
  obtain ⟨a1, a2, a3, a4⟩ := lc_access_flags X s 0xC083 true (by decide) (by decide)
  obtain ⟨_, _, _, b4⟩ :=
    lc_access_flags X (_apple2e_mem_rw X s 0xC083 true) 0xC083 true (by decide) (by decide)
  simp only [cpu_read]
  rw [b4, a1, a2, a3, a4, hw, hp]
  decide

/-- Witness of the amended C5 on the power-on state. -/
theorem C5_lc_enable_sequence_witness :
    ex_init.write_enabled = true ∧ ex_init.lcram = false ∧ ex_init.lcbnk2 = true ∧
    ex_init.prewrite = false ∧
    (cpu_read ex_collab ex_init 0xC083).lcram = true ∧
    (cpu_read ex_collab (cpu_read ex_collab ex_init 0xC083) 0xC083).write_enabled = true :=
  ⟨rfl, rfl, rfl, rfl,
    (C5_lc_enable_sequence ex_collab ex_init rfl rfl rfl rfl).2.1,
    (C5_lc_enable_sequence ex_collab ex_init rfl rfl rfl rfl).2.2.2.2⟩

/-- C6: from every state, two consecutive CPU reads of `$C081` leave
`write_enabled = true`. If instead a CPU write to `$C081` happens between the two
reads, then right after that write `prewrite` is false and `write_enabled` has the
value it had before the write, and after the second read `write_enabled` still has
the value it had after the first read. -/
theorem C6_prewrite_latch (X : collab_t) (s : apple2e_t) :
    (cpu_read X (cpu_read X s 0xC081) 0xC081).write_enabled = true ∧
    ∀ v : Nat,
      (cpu_write X (cpu_read X s 0xC081) 0xC081 v).prewrite = false ∧
      (cpu_write X (cpu_read X s 0xC081) 0xC081 v).write_enabled =
        (cpu_read X s 0xC081).write_enabled ∧
      (cpu_read X (cpu_write X (cpu_read X s 0xC081) 0xC081 v) 0xC081).write_enabled =
        (cpu_read X s 0xC081).write_enabled := by
  have n1 : (0xC081 &&& 0xF) % 2 = 1 := by decide
  have n0 : ¬ ((0xC081 &&& 0xF) % 2 = 0) := by decide
  obtain ⟨_, _, a3, a4⟩ := lc_access_flags X s 0xC081 true (by decide) (by decide)
  obtain ⟨_, _, _, b4⟩ :=
    lc_access_flags X (_apple2e_mem_rw X s 0xC081 true) 0xC081 true (by decide) (by decide)
  rw [if_neg n0] at a4 b4
  simp only [n1, decide_True, Bool.and_true, Bool.true_and] at a3
  constructor
  · simp only [cpu_read]
    rw [b4, a3]
    rfl
  · intro v
    obtain ⟨_, _, c3, c4⟩ := lc_access_flags X
      (wdc65C02cpu_set_data (_apple2e_mem_rw X s 0xC081 true) v) 0xC081 false
      (by decide) (by decide)
    obtain ⟨_, _, _, d4⟩ := lc_access_flags X
      (_apple2e_mem_rw X (wdc65C02cpu_set_data (_apple2e_mem_rw X s 0xC081 true) v) 0xC081 false)
      0xC081 true (by decide) (by decide)
    have e1 : (wdc65C02cpu_set_data (_apple2e_mem_rw X s 0xC081 true) v).write_enabled =
        (_apple2e_mem_rw X s 0xC081 true).write_enabled := rfl
    rw [if_neg n0] at c4 d4
    simp only [Bool.false_and, Bool.false_eq_true, if_false] at c3 c4
    simp only [cpu_read, cpu_write]
    refine ⟨c3, ?_, ?_⟩
    · rw [c4, e1]
    · rw [d4, c3, c4, e1]
      rfl

theorem mem_rw_write_mem (X : collab_t) (s : apple2e_t) (a : Nat)
    (ha : ¬ (0xC000 ≤ a ∧ a ≤ 0xCFFF)) :
    (_apple2e_mem_rw X s a false).mem = s.mem := by
  have base : (mem_wr (wdc65C02cpu_set_cxxx s false) a
      (wdc65C02cpu_get_data (wdc65C02cpu_set_cxxx s false))).mem = s.mem := by
    rw [mem_wr_mem]; rfl
  simp only [_apple2e_mem_rw, if_neg ha, Bool.false_eq_true, if_false]
  split_ifs <;> exact base

/-- Reading and writing an address below `$C000` whose page maps plane `R` for reads
and plane `W` for writes. -/
theorem main_access (s : apple2e_t) (hi : map_inv s) (a : Nat) (ha : a < 0xC000)
    (R W : mem_region) (hpg : main_page s (a / 256) = page_at R W (a / 256)) :
    mem_rd s a = region_byte s R a ∧
    ∀ d : Nat,
      (mem_wr s a d).ram =
        (if W = mem_region.ram then (fun i => if i = a then d else s.ram i) else s.ram) ∧
      (mem_wr s a d).aux_ram =
        (if W = mem_region.aux_ram then (fun i => if i = a then d else s.aux_ram i)
         else s.aux_ram) := by
  have hp := hi.1 (a / 256) (by omega)
  rw [hpg] at hp
  have hd : a / 256 * 256 + a % 256 = a := by omega
  constructor
  · rw [mem_rd_eq s a R (a / 256 * 256) (by rw [hp]; rfl), hd]
  · intro d
    have := mem_wr_eq s a d W (a / 256 * 256) (by rw [hp]; rfl)
    rw [hd] at this
    exact this

theorem main_page_0200 (s : apple2e_t) (a : Nat) (h1 : 0x200 ≤ a) (h2 : a ≤ 0x3FF) :
    main_page s (a / 256) = page_at (plane_of s.ramrd) (plane_of s.ramwrt) (a / 256) := by
  have n2 : ¬ a / 256 < 2 := by omega
  have t1 : ¬ (4 ≤ a / 256 ∧ a / 256 < 8) := by omega
  have t2 : ¬ (32 ≤ a / 256 ∧ a / 256 < 64) := by omega
  simp [main_page, ovr_page, n2, t1, t2]

theorem main_page_2000_80store (s : apple2e_t) (a : Nat) (h1 : 0x2000 ≤ a) (h2 : a ≤ 0x3FFF)
    (h80 : s._80store = true) (hh : s.hires = true) :
    main_page s (a / 256) = page_at (plane_of s.page2) (plane_of s.page2) (a / 256) := by
  have n2 : ¬ a / 256 < 2 := by omega
  have t2 : (32 ≤ a / 256 ∧ a / 256 < 64) := by omega
  simp [main_page, ovr_page, n2, t2, h80, hh]

theorem mem_rw_write_flags (X : collab_t) (s : apple2e_t) (a : Nat)
    (ha : ¬ (0xC000 ≤ a ∧ a ≤ 0xCFFF)) :
    mmu_flags (_apple2e_mem_rw X s a false) = mmu_flags s := by
  have base : mmu_flags (mem_wr (wdc65C02cpu_set_cxxx s false) a
      (wdc65C02cpu_get_data (wdc65C02cpu_set_cxxx s false))) = mmu_flags s := by
    rw [mem_wr_flags]; rfl
  simp only [_apple2e_mem_rw, if_neg ha, Bool.false_eq_true, if_false]
  split_ifs <;> exact base

/-- A CPU write of `v` to an address below `$C000` whose page maps plane `R` for
reads and plane `W` for writes, followed by what a CPU read of the same address
returns, and the effect on the two RAM planes. -/
theorem main_write_then_read (X : collab_t) (s : apple2e_t) (hi : map_inv s) (a v : Nat)
    (ha : a < 0xC000) (R W : mem_region)
    (hpg : main_page s (a / 256) = page_at R W (a / 256)) :
    (cpu_write X s a v).ram =
      (if W = mem_region.ram then (fun i => if i = a then v else s.ram i) else s.ram) ∧
    (cpu_write X s a v).aux_ram =
      (if W = mem_region.aux_ram then (fun i => if i = a then v else s.aux_ram i)
       else s.aux_ram) ∧
    (cpu_read X (cpu_write X s a v) a).cpu.data = region_byte (cpu_write X s a v) R a := by
  have hc : ¬ (0xC000 ≤ a ∧ a ≤ 0xCFFF) := by omega
  have hs : map_inv (wdc65C02cpu_set_data s v) := map_inv_set_data v hi
  have hw := mem_rw_write_planes X (wdc65C02cpu_set_data s v) a hc
  have hacc := (main_access (wdc65C02cpu_set_data s v) hs a ha R W hpg).2 v
  have hm : (cpu_write X s a v).mem = s.mem := mem_rw_write_mem X _ a hc
  have hf : mmu_flags (cpu_write X s a v) = mmu_flags s := mem_rw_write_flags X _ a hc
  have hi' : map_inv (cpu_write X s a v) := map_inv_of_eq hm hf hi
  have hpg' : main_page (cpu_write X s a v) (a / 256) = page_at R W (a / 256) := by
    rw [main_page_congr hf]; exact hpg
  refine ⟨?_, ?_, ?_⟩
  · rw [cpu_write, hw.1]; exact hacc.1
  · rw [cpu_write, hw.2]; exact hacc.2
  · rw [cpu_read, mem_rw_read_data X _ a hc]
    exact (main_access _ hi' a ha R W hpg').1

/-- Counterexample to C7 as stated: with RAMRD on and RAMWRT off (and 80STORE off), a
CPU write of `0x5A` to `$0200` followed by a CPU read of `$0200` returns `0x00`, the
byte of auxiliary RAM, not `0x5A`. -/
theorem C7_counterexample :
    ex_ramrd.ramrd = true ∧ ex_ramrd.ramwrt = false ∧ ex_ramrd._80store = false ∧
    (cpu_read ex_collab (cpu_write ex_collab ex_ramrd 0x0200 0x5A) 0x0200).cpu.data = 0x00 ∧
    (cpu_read ex_collab (cpu_write ex_collab ex_ramrd 0x0200 0x5A) 0x0200).cpu.data ≠ 0x5A := by
  refine ⟨rfl, rfl, rfl, rfl, by decide⟩

/-- C7 (amended): in every reachable state, for every address `a` in `$0200-$03FF`
and every byte `v`, a CPU write of `v` to `a` followed by a CPU read of `a` returns
`v` when `ramrd = ramwrt`; when `ramrd` and `ramwrt` differ, the read returns the
byte that the plane selected by `ramrd` held at `a` before the write. -/
theorem C7_write_read_0200 (X : collab_t) (s : apple2e_t) (h : Reachable X s) (a v : Nat)
    (h1 : 0x200 ≤ a) (h2 : a ≤ 0x3FF) :
    (cpu_read X (cpu_write X s a v) a).cpu.data =
      if s.ramrd = s.ramwrt then v else (if s.ramrd then s.aux_ram a else s.ram a) := by
  have hi := map_inv_reachable X s h
  obtain ⟨w1, w2, w3⟩ := main_write_then_read X s hi a v (by omega) _ _
    (main_page_0200 s a h1 h2)
  rw [w3]
  cases c1 : s.ramrd <;> cases c2 : s.ramwrt <;>
    simp [region_byte, plane_of, w1, w2, c1, c2]

/-- Witness of the amended C7: with RAMRD and RAMWRT both off the byte written to
`$0234` is read back. -/
theorem C7_write_read_0200_witness :
    Reachable ex_collab ex_init ∧ 0x200 ≤ 0x234 ∧ 0x234 ≤ 0x3FF ∧
    (cpu_read ex_collab (cpu_write ex_collab ex_init 0x234 0x5A) 0x234).cpu.data = 0x5A :=
  ⟨reachable_ex_init, by decide, by decide,
    C7_write_read_0200 ex_collab ex_init reachable_ex_init 0x234 0x5A (by decide) (by decide)⟩

/-- C8: in every reachable state with `_80store` and `hires` both set, a CPU write of
byte `v` to an address `a` in `$2000-$3FFF` sets `ram[a] = v` and leaves `aux_ram`
unchanged when `page2` is clear, and sets `aux_ram[a] = v` and leaves `ram` unchanged
when `page2` is set, whatever the values of `ramrd` and `ramwrt`. -/
theorem C8_80store_hires_write (X : collab_t) (s : apple2e_t) (h : Reachable X s)
    (h80 : s._80store = true) (hh : s.hires = true) (a v : Nat)
    (h1 : 0x2000 ≤ a) (h2 : a ≤ 0x3FFF) :
    (s.page2 = false →
      (cpu_write X s a v).ram = (fun i => if i = a then v else s.ram i) ∧
      (cpu_write X s a v).aux_ram = s.aux_ram) ∧
    (s.page2 = true →
      (cpu_write X s a v).aux_ram = (fun i => if i = a then v else s.aux_ram i) ∧
      (cpu_write X s a v).ram = s.ram) := by
  have hi := map_inv_reachable X s h
  obtain ⟨w1, w2, -⟩ := main_write_then_read X s hi a v (by omega) _ _
    (main_page_2000_80store s a h1 h2 h80 hh)
  constructor
  · intro c
    rw [w1, w2, c]
    simp [plane_of]
  · intro c
    rw [w1, w2, c]
    simp [plane_of]

/-- Witness of C8: after 80STORE on, HIRES on and PAGE2 on, a write of `0x5A` to
`$2345` lands in auxiliary RAM and leaves main RAM alone. -/
theorem C8_80store_hires_write_witness :
    Reachable ex_collab ex_80store ∧ ex_80store._80store = true ∧ ex_80store.hires = true ∧
    ex_80store.page2 = true ∧ 0x2000 ≤ 0x2345 ∧ 0x2345 ≤ 0x3FFF ∧
    (cpu_write ex_collab ex_80store 0x2345 0x5A).aux_ram 0x2345 = 0x5A ∧
    (cpu_write ex_collab ex_80store 0x2345 0x5A).ram = ex_80store.ram :=
  ⟨reachable_ex_80store, rfl, rfl, rfl, by decide, by decide,
    by
      rw [((C8_80store_hires_write ex_collab ex_80store reachable_ex_80store rfl rfl
        0x2345 0x5A (by decide) (by decide)).2 rfl).1]
      rfl,
    ((C8_80store_hires_write ex_collab ex_80store reachable_ex_80store rfl rfl
      0x2345 0x5A (by decide) (by decide)).2 rfl).2⟩

theorem dirty_ite (s0 : apple2e_t) (c : Prop) [Decidable c] {a b : apple2e_t}
    (ha : dirty_flags a = dirty_flags s0) (hb : dirty_flags b = dirty_flags s0) :
    dirty_flags (if c then a else b) = dirty_flags s0 := by
  split_ifs <;> assumption

theorem dirty_mem_wr (s : apple2e_t) (a d : Nat) :
    dirty_flags (mem_wr s a d) = dirty_flags s := by
  simp only [mem_wr]; split <;> rfl

theorem dirty_mem_wr_list (ws : List (Nat × Nat)) (s : apple2e_t) :
    dirty_flags (mem_wr_list s ws) = dirty_flags s := by
  induction ws generalizing s with
  | nil => rfl
  | cons w ws ih => simp only [mem_wr_list, ih, dirty_mem_wr]

theorem dirty_aux_bank_update (s : apple2e_t) :
    dirty_flags (_apple2e_aux_bank_update s) = dirty_flags s := by
  simp only [_apple2e_aux_bank_update]
  split_ifs <;> rfl

theorem dirty_lc_bank_update (s : apple2e_t) :
    dirty_flags (_apple2e_lc_bank_update s) = dirty_flags s := by
  simp only [_apple2e_lc_bank_update]
  split_ifs <;> rfl

theorem dirty_altzp_update (s : apple2e_t) :
    dirty_flags (_apple2e_altzp_update s) = dirty_flags s := by
  simp only [_apple2e_altzp_update, dirty_lc_bank_update]
  rfl

theorem dirty_lc_control (s : apple2e_t) (offset : Nat) (rw : Bool) :
    dirty_flags (_apple2e_lc_control s offset rw) = dirty_flags s := by
  unfold _apple2e_lc_control
  lift_lets
  extract_lets s1 s2 s3 s4
  have e1 : dirty_flags s1 = dirty_flags s := by
    apply dirty_ite <;> rfl
  clear_value s1
  have e2 : dirty_flags s2 = dirty_flags s := by
    repeat' apply dirty_ite
    all_goals exact e1
  clear_value s2
  have e3 : dirty_flags s3 = dirty_flags s := by
    repeat' apply dirty_ite
    all_goals exact e2
  clear_value s3
  have e4 : dirty_flags s4 = dirty_flags s := e3
  rw [dirty_lc_bank_update, e4]

theorem dirty_c000_c00f_w (s : apple2e_t) (addr : Nat) :
    dirty_flags (_apple2e_mem_c000_c00f_w s addr) = dirty_flags s := by
  unfold _apple2e_mem_c000_c00f_w
  simp only []
  repeat' (with_reducible apply dirty_ite)
  all_goals
    first
    | with_reducible rfl
    | (rw [dirty_aux_bank_update]; rfl)
    | (rw [dirty_altzp_update]; rfl)
    | rfl

theorem dirty_c000_c0ff_rw_default (X : collab_t) (s : apple2e_t) (addr : Nat) (rw : Bool) :
    dirty_flags (_apple2e_mem_c000_c0ff_rw_default X s addr rw) = dirty_flags s := by
  unfold _apple2e_mem_c000_c0ff_rw_default
  simp only []
  repeat' (with_reducible apply dirty_ite)
  all_goals
    first
    | with_reducible rfl
    | (rw [dirty_c000_c00f_w]; rfl)
    | (rw [dirty_mem_wr_list]; rfl)
    | (rw [dirty_lc_control]; rfl)
    | (show dirty_flags (_apple2e_lc_control _ _ _) = _; rw [dirty_lc_control]; rfl)
    | rfl

theorem dirty_c000_c0ff_rw (X : collab_t) (s : apple2e_t) (addr : Nat) (rw : Bool) :
    dirty_flags (_apple2e_mem_c000_c0ff_rw X s addr rw) = dirty_flags s := by
  unfold _apple2e_mem_c000_c0ff_rw
  simp only []
  repeat' (with_reducible apply dirty_ite)
  all_goals
    first
    | with_reducible rfl
    | (rw [dirty_c000_c0ff_rw_default])
    | rfl

theorem dirty_mem_rw_cxxx (X : collab_t) (s : apple2e_t) (a : Nat) (rw : Bool)
    (ha : 0xC000 ≤ a ∧ a ≤ 0xCFFF) :
    dirty_flags (_apple2e_mem_rw X s a rw) = dirty_flags s := by
  cases rw <;> simp only [_apple2e_mem_rw, if_pos ha, if_true, Bool.false_eq_true, if_false] <;>
    repeat' (with_reducible apply dirty_ite)
  all_goals
    first
    | with_reducible rfl
    | (rw [dirty_c000_c0ff_rw]; rfl)
    | rfl

/-- C9: for every state and every CPU write routed through `_apple2e_mem_rw` to
address `a`: `text_page1_dirty` becomes true if `a` is in `$0400-$07FF`,
`text_page2_dirty` if `a` is in `$0800-$0BFF`, `hires_page1_dirty` if `a` is in
`$2000-$3FFF`, `hires_page2_dirty` if `a` is in `$4000-$5FFF`, independently of
`ramrd`, `ramwrt`, `_80store` and `page2`; no other dirty flag changes, and a write
outside those four ranges changes no dirty flag. -/
theorem C9_dirty_flags_on_write (X : collab_t) (s : apple2e_t) (a v : Nat) :
    (cpu_write X s a v).text_page1_dirty =
      (s.text_page1_dirty || decide (0x400 ≤ a ∧ a ≤ 0x7FF)) ∧
    (cpu_write X s a v).text_page2_dirty =
      (s.text_page2_dirty || decide (0x800 ≤ a ∧ a ≤ 0xBFF)) ∧
    (cpu_write X s a v).hires_page1_dirty =
      (s.hires_page1_dirty || decide (0x2000 ≤ a ∧ a ≤ 0x3FFF)) ∧
    (cpu_write X s a v).hires_page2_dirty =
      (s.hires_page2_dirty || decide (0x4000 ≤ a ∧ a ≤ 0x5FFF)) := by
  by_cases ha : 0xC000 ≤ a ∧ a ≤ 0xCFFF
  · have hd := dirty_mem_rw_cxxx X (wdc65C02cpu_set_data s v) a false ha
    simp only [dirty_flags, List.cons.injEq, and_true] at hd
    obtain ⟨d1, d2, d3, d4⟩ := hd
    have n1 : ¬ (0x400 ≤ a ∧ a ≤ 0x7FF) := by omega
    have n2 : ¬ (0x800 ≤ a ∧ a ≤ 0xBFF) := by omega
    have n3 : ¬ (0x2000 ≤ a ∧ a ≤ 0x3FFF) := by omega
    have n4 : ¬ (0x4000 ≤ a ∧ a ≤ 0x5FFF) := by omega
    simp only [cpu_write, d1, d2, d3, d4, n1, n2, n3, n4, decide_False, Bool.or_false]
    exact ⟨rfl, rfl, rfl, rfl⟩
  · have hb := dirty_mem_wr (wdc65C02cpu_set_cxxx (wdc65C02cpu_set_data s v) false) a
      (wdc65C02cpu_get_data (wdc65C02cpu_set_cxxx (wdc65C02cpu_set_data s v) false))
    simp only [dirty_flags, List.cons.injEq, and_true] at hb
    obtain ⟨d1, d2, d3, d4⟩ := hb
    have e1 : (wdc65C02cpu_set_cxxx (wdc65C02cpu_set_data s v) false).text_page1_dirty =
      s.text_page1_dirty := rfl
    have e2 : (wdc65C02cpu_set_cxxx (wdc65C02cpu_set_data s v) false).text_page2_dirty =
      s.text_page2_dirty := rfl
    have e3 : (wdc65C02cpu_set_cxxx (wdc65C02cpu_set_data s v) false).hires_page1_dirty =
      s.hires_page1_dirty := rfl
    have e4 : (wdc65C02cpu_set_cxxx (wdc65C02cpu_set_data s v) false).hires_page2_dirty =
      s.hires_page2_dirty := rfl
    rw [e1] at d1; rw [e2] at d2; rw [e3] at d3; rw [e4] at d4
    simp only [cpu_write, _apple2e_mem_rw, if_neg ha, Bool.false_eq_true, if_false]
    by_cases c1 : 0x400 ≤ a ∧ a ≤ 0x7FF
    · have n2 : ¬ (0x800 ≤ a ∧ a ≤ 0xBFF) := by omega
      have n3 : ¬ (0x2000 ≤ a ∧ a ≤ 0x3FFF) := by omega
      have n4 : ¬ (0x4000 ≤ a ∧ a ≤ 0x5FFF) := by omega
      rw [if_pos c1]
      simp [c1, n2, n3, n4, d2, d3, d4]
    · rw [if_neg c1]
      by_cases c2 : 0x800 ≤ a ∧ a ≤ 0xBFF
      · have n3 : ¬ (0x2000 ≤ a ∧ a ≤ 0x3FFF) := by omega
        have n4 : ¬ (0x4000 ≤ a ∧ a ≤ 0x5FFF) := by omega
        rw [if_pos c2]
        simp [c1, c2, n3, n4, d1, d3, d4]
      · rw [if_neg c2]
        by_cases c3 : 0x2000 ≤ a ∧ a ≤ 0x3FFF
        · have n4 : ¬ (0x4000 ≤ a ∧ a ≤ 0x5FFF) := by omega
          rw [if_pos c3]
          simp [c1, c2, c3, n4, d1, d2, d4]
        · rw [if_neg c3]
          by_cases c4 : 0x4000 ≤ a ∧ a ≤ 0x5FFF
          · rw [if_pos c4]
            simp [c1, c2, c3, c4, d1, d2, d3]
          · rw [if_neg c4]
            simp [c1, c2, c3, c4, d1, d2, d3, d4]

theorem reset_last_key_code (X : collab_t) (s : apple2e_t) :
    (apple2e_reset X s).last_key_code = s.last_key_code := by
  unfold apple2e_reset
  lift_lets
  extract_lets s1 s2 s3
  have e1 : s1.last_key_code = s.last_key_code := rfl
  clear_value s1
  have e2 : s2.last_key_code = s.last_key_code := by
    simp only [s2]; split_ifs <;> exact e1
  clear_value s2
  have e3 : s3.last_key_code = s.last_key_code := by
    simp only [s3]; split_ifs <;> exact e2
  exact e3

theorem key_down_ascii (X : collab_t) (s : apple2e_t) (k : Int) (hk : k < 128) :
    (apple2e_key_down X s k).last_key_code = ((Int.lor k 0x80) % 256).toNat := by
  have n1 : ¬ k = 0x14F := by omega
  have n2 : ¬ k = 0x150 := by omega
  have n3 : ¬ k = 0x151 := by omega
  have n4 : ¬ k = 0x152 := by omega
  have n5 : ¬ (0x13A ≤ k ∧ k ≤ 0x142) := by omega
  have n6 : ¬ k = 0x145 := by omega
  have n7 : ¬ k = 0x1E3 := by omega
  have n8 : ¬ k = 0x1E7 := by omega
  simp only [apple2e_key_down, if_neg n1, if_neg n2, if_neg n3, if_neg n4, if_neg n5, if_neg n6,
    if_neg n7, if_neg n8, if_pos hk]

theorem lor_0x80_nonneg (k : Int) (h0 : 0 ≤ k) (hk : k < 128) :
    ((Int.lor k 0x80) % 256).toNat = k.toNat ||| 0x80 := by
  obtain ⟨n, rfl⟩ := Int.eq_ofNat_of_zero_le h0
  have hn : n < 128 := by omega
  have hlt : n ||| 0x80 < 256 := Nat.or_lt_two_pow (n := 8) (by omega) (by decide)
  have e : Int.lor (n : Int) 0x80 = ((n ||| 0x80 : Nat) : Int) := rfl
  rw [e, Int.toNat_ofNat]
  omega

theorem key_down_arrow (X : collab_t) (s : apple2e_t) :
    (apple2e_key_down X s 0x14F).last_key_code = 0x95 ∧
    (apple2e_key_down X s 0x150).last_key_code = 0x88 ∧
    (apple2e_key_down X s 0x151).last_key_code = 0x8A ∧
    (apple2e_key_down X s 0x152).last_key_code = 0x8B := by
  refine ⟨rfl, rfl, rfl, rfl⟩

theorem key_down_other (X : collab_t) (s : apple2e_t) (k : Int) (hk : 128 ≤ k)
    (n1 : k ≠ 0x14F) (n2 : k ≠ 0x150) (n3 : k ≠ 0x151) (n4 : k ≠ 0x152) :
    (apple2e_key_down X s k).last_key_code = s.last_key_code := by
  have n9 : ¬ k < 128 := by omega
  simp only [apple2e_key_down, if_neg n1, if_neg n2, if_neg n3, if_neg n4, if_neg n9]
  split_ifs <;> first | rfl | exact reset_last_key_code X s

/-- C10: for every key code `k`, `apple2e_key_down(k)` sets `last_key_code` to
`k | 0x80` when `k < 128` (the latch is a `uint8_t`, so the byte stored is
`k | 0x80` modulo 256, which is `k | 0x80` itself for every `k` in `0..127`), to
`0x95`, `0x88`, `0x8A`, `0x8B` for the arrow escapes `0x14F` (right), `0x150` (left),
`0x151` (down), `0x152` (up), and leaves `last_key_code` unchanged for every other
code (function keys, GUI keys, any other code `>= 128`). -/
theorem C10_key_down_latch (X : collab_t) (s : apple2e_t) (k : Int) :
    (k < 128 → (apple2e_key_down X s k).last_key_code = ((Int.lor k 0x80) % 256).toNat) ∧
    (0 ≤ k → k < 128 → (apple2e_key_down X s k).last_key_code = k.toNat ||| 0x80) ∧
    (apple2e_key_down X s 0x14F).last_key_code = 0x95 ∧
    (apple2e_key_down X s 0x150).last_key_code = 0x88 ∧
    (apple2e_key_down X s 0x151).last_key_code = 0x8A ∧
    (apple2e_key_down X s 0x152).last_key_code = 0x8B ∧
    (128 ≤ k → k ≠ 0x14F → k ≠ 0x150 → k ≠ 0x151 → k ≠ 0x152 →
      (apple2e_key_down X s k).last_key_code = s.last_key_code) := by
  obtain ⟨a1, a2, a3, a4⟩ := key_down_arrow X s
  refine ⟨key_down_ascii X s k, fun h0 hk => ?_, a1, a2, a3, a4, key_down_other X s k⟩
  rw [key_down_ascii X s k hk, lor_0x80_nonneg k h0 hk]

/-- Witness of C10: the key `'A'` (`0x41`) is latched as `0xC1`, and the function key
`F1` (`0x13A`) leaves the power-on latch `0x8D` alone. -/
theorem C10_key_down_latch_witness :
    (0 : Int) ≤ 0x41 ∧ (0x41 : Int) < 128 ∧
    (apple2e_key_down ex_collab ex_init 0x41).last_key_code = 0xC1 ∧
    (128 : Int) ≤ 0x13A ∧
    (apple2e_key_down ex_collab ex_init 0x13A).last_key_code = 0x8D :=
  ⟨by decide, by decide,
    (C10_key_down_latch ex_collab ex_init 0x41).2.1 (by decide) (by decide),
    by decide,
    (C10_key_down_latch ex_collab ex_init 0x13A).2.2.2.2.2.2 (by decide) (by decide)
      (by decide) (by decide) (by decide)⟩

theorem mem_rw_c000_read (X : collab_t) (s : apple2e_t) :
    (_apple2e_mem_rw X s 0xC000 true).cpu.data = s.last_key_code ∧
    (_apple2e_mem_rw X s 0xC000 true).last_key_code = s.last_key_code :=
  ⟨rfl, rfl⟩

theorem mem_rw_c010 (X : collab_t) (s : apple2e_t) (rw : Bool) :
    (_apple2e_mem_rw X s 0xC010 rw).last_key_code = s.last_key_code &&& 0x7F := rfl

theorem strobe_clears_bit7 : ∀ n, n < 128 → (n ||| 0x80) &&& 0x7F = n := by decide

/-- C11: for every key code `k` in `0..127`: after `apple2e_key_down(k)`, a CPU read
of `$C000` puts `k | 0x80` on the data bus; after any subsequent CPU access (read, or
write of any byte) to `$C010`, a CPU read of `$C000` puts `k` on the data bus (bit 7
cleared, low seven bits preserved). -/
theorem C11_keyboard_latch (X : collab_t) (s : apple2e_t) (k : Int) (h0 : 0 ≤ k)
    (hk : k < 128) :
    (cpu_read X (apple2e_key_down X s k) 0xC000).cpu.data = k.toNat ||| 0x80 ∧
    (cpu_read X (cpu_read X (cpu_read X (apple2e_key_down X s k) 0xC000) 0xC010)
      0xC000).cpu.data = k.toNat ∧
    ∀ v : Nat,
      (cpu_read X (cpu_write X (cpu_read X (apple2e_key_down X s k) 0xC000) 0xC010 v)
        0xC000).cpu.data = k.toNat := by
  have e : (apple2e_key_down X s k).last_key_code = k.toNat ||| 0x80 := by
    rw [key_down_ascii X s k hk, lor_0x80_nonneg k h0 hk]
  have hn : k.toNat < 128 := by omega
  have hc := strobe_clears_bit7 k.toNat hn
  simp only [cpu_read, cpu_write]
  refine ⟨?_, ?_, fun v => ?_⟩
  · rw [(mem_rw_c000_read X _).1, e]
  · rw [(mem_rw_c000_read X _).1, mem_rw_c010, (mem_rw_c000_read X _).2, e, hc]
  · have e2 : (wdc65C02cpu_set_data (_apple2e_mem_rw X (apple2e_key_down X s k) 0xC000 true)
        v).last_key_code = (_apple2e_mem_rw X (apple2e_key_down X s k) 0xC000 true).last_key_code :=
      rfl
    rw [(mem_rw_c000_read X _).1, mem_rw_c010, e2, (mem_rw_c000_read X _).2, e, hc]

/-- Witness of C11: `k = 0x41` gives `0xC1` and, after a read of `$C010`, `0x41`. -/
theorem C11_keyboard_latch_witness :
    (0 : Int) ≤ 0x41 ∧ (0x41 : Int) < 128 ∧
    (cpu_read ex_collab (apple2e_key_down ex_collab ex_init 0x41) 0xC000).cpu.data = 0xC1 ∧
    (cpu_read ex_collab (cpu_read ex_collab (cpu_read ex_collab
      (apple2e_key_down ex_collab ex_init 0x41) 0xC000) 0xC010) 0xC000).cpu.data = 0x41 :=
  ⟨by decide, by decide,
    (C11_keyboard_latch ex_collab ex_init 0x41 (by decide) (by decide)).1,
    (C11_keyboard_latch ex_collab ex_init 0x41 (by decide) (by decide)).2.1⟩

theorem mem_rw_c300_read (X : collab_t) (s : apple2e_t) (a : Nat) (h1 : 0xC300 ≤ a)
    (h2 : a ≤ 0xC3FF) (hi : s.intcxrom = false) :
    (_apple2e_mem_rw X s a true).cpu.data = if s.slotc3rom then 0x00 else mem_rd s a := by
  have c0 : 0xC000 ≤ a ∧ a ≤ 0xCFFF := by omega
  have c1 : ¬ (0xC000 ≤ a ∧ a ≤ 0xC0FF) := by omega
  have c2 : ¬ (0xC200 ≤ a ∧ a ≤ 0xC2FF) := by omega
  have c3 : 0xC300 ≤ a ∧ a ≤ 0xC3FF := ⟨h1, h2⟩
  have hi' : (wdc65C02cpu_set_cxxx s true).intcxrom = false := hi
  simp only [_apple2e_mem_rw, if_pos c0, if_neg c1, c2, false_and, if_false, c3, hi', true_and,
    Bool.not_false, if_true]
  rfl

theorem cx_read_rom (s : apple2e_t) (hm : map_inv s) (a : Nat) (h1 : 0xC000 ≤ a)
    (h2 : a ≤ 0xCFFF) : mem_rd s a = s.rom (a - 0xC000) := by
  have hp := hm.2.1 (a / 256) (by omega) (by omega)
  have e : a / 256 * 256 - 0xC000 + a % 256 = a - 0xC000 := by omega
  rw [mem_rd_eq s a mem_region.rom (a / 256 * 256 - 0xC000) (by rw [hp]; rfl), region_byte, e]

/-- Counterexample to C12 as stated: on the power-on state `intcxrom` and `slotc3rom`
are both clear and a CPU read of `$C300` returns the system ROM byte at `0x300`
(here `3`), not `0`. -/
theorem C12_counterexample :
    ex_init.intcxrom = false ∧ ex_init.slotc3rom = false ∧
    (cpu_read ex_collab ex_init 0xC300).cpu.data = 3 ∧
    (cpu_read ex_collab ex_init 0xC300).cpu.data ≠ 0 := by
  refine ⟨rfl, rfl, rfl, by decide⟩

/-- C12 (amended): for every address `a` in `$C300-$C3FF`, when `intcxrom` is false a
CPU read of `a` puts `0` on the data bus if `slotc3rom` is true, and the mapped byte
if `slotc3rom` is false; in every reachable state the mapped byte is the system ROM
byte `rom[a - 0xC000]`. -/
theorem C12_slot3_read (X : collab_t) (s : apple2e_t) (a : Nat) (h1 : 0xC300 ≤ a)
    (h2 : a ≤ 0xC3FF) (hi : s.intcxrom = false) :
    (s.slotc3rom = true → (cpu_read X s a).cpu.data = 0) ∧
    (s.slotc3rom = false → (cpu_read X s a).cpu.data = mem_rd s a) ∧
    (s.slotc3rom = false → Reachable X s → (cpu_read X s a).cpu.data = s.rom (a - 0xC000)) := by
  have e := mem_rw_c300_read X s a h1 h2 hi
  refine ⟨fun c => ?_, fun c => ?_, fun c hr => ?_⟩
  · rw [cpu_read, e, c]; rfl
  · rw [cpu_read, e, c]; rfl
  · rw [cpu_read, e, c, ← cx_read_rom s (map_inv_reachable X s hr) a (by omega) (by omega)]
    rfl

/-- Witness of the amended C12: on the power-on state a read of `$C3A5` returns the
ROM byte at `0x3A5`; after SETSLOTC3ROM (`$C00B`) it returns `0`. -/
theorem C12_slot3_read_witness :
    0xC300 ≤ 0xC3A5 ∧ 0xC3A5 ≤ 0xC3FF ∧ ex_init.intcxrom = false ∧
    ex_init.slotc3rom = false ∧ Reachable ex_collab ex_init ∧
    (cpu_read ex_collab ex_init 0xC3A5).cpu.data = ex_init.rom 0x3A5 ∧
    (cpu_write ex_collab ex_init 0xC00B 0).slotc3rom = true ∧
    (cpu_read ex_collab (cpu_write ex_collab ex_init 0xC00B 0) 0xC3A5).cpu.data = 0 :=
  ⟨by decide, by decide, rfl, rfl, reachable_ex_init,
    (C12_slot3_read ex_collab ex_init 0xC3A5 (by decide) (by decide) rfl).2.2 rfl
      reachable_ex_init,
    rfl,
    (C12_slot3_read ex_collab (cpu_write ex_collab ex_init 0xC00B 0) 0xC3A5 (by decide)
      (by decide) rfl).1 rfl⟩

theorem mem_rw_hdc_read (X : collab_t) (s : apple2e_t) (a : Nat) (h1 : 0xC0F0 ≤ a)
    (h2 : a ≤ 0xC0FF) :
    _apple2e_mem_rw X s a true =
      if s.hdc.valid then
        wdc65C02cpu_set_data
          { wdc65C02cpu_set_dataSlots (wdc65C02cpu_set_cxxx s true) false with
            hdc := (X.prodos_hdc_read_byte s.hdc (a &&& 0xF)).2 }
          (X.prodos_hdc_read_byte s.hdc (a &&& 0xF)).1
      else wdc65C02cpu_set_data (wdc65C02cpu_set_dataSlots (wdc65C02cpu_set_cxxx s true) false) 0 := by
  interval_cases a <;> rfl

/-- A CPU read of the hard-disk controller window `$C0F0-$C0FF` with the controller
absent puts `0x00` on the data bus. -/
theorem hdc_absent_read (X : collab_t) (s : apple2e_t) (a : Nat) (h1 : 0xC0F0 ≤ a)
    (h2 : a ≤ 0xC0FF) (hv : s.hdc.valid = false) : (cpu_read X s a).cpu.data = 0x00 := by
  rw [cpu_read, mem_rw_hdc_read X s a h1 h2, hv]
  rfl

/-- Every CPU access to the slot-6 window `$C0E0-$C0EF` only raises the `$Cxxx` and
slot-data flags: the data latch, the floppy controller and the rest of the machine
stay as they are. -/
theorem fdc_window_access (X : collab_t) (s : apple2e_t) (a : Nat) (rw : Bool)
    (h1 : 0xC0E0 ≤ a) (h2 : a ≤ 0xC0EF) :
    _apple2e_mem_rw X s a rw = wdc65C02cpu_set_dataSlots (wdc65C02cpu_set_cxxx s true) true := by
  interval_cases a <;> rfl

/-- C13, the code at the failing input: with the floppy controller absent
(`fdc.valid = false`) and `0x5A` on the data latch, a CPU read of `$C0E0` only raises
the slot-data flag and leaves `0x5A` on the data bus instead of `0x00`, because
`APPLE2E_REAL_FLOPPY` is defined and the emulated-controller branch is compiled out. -/
theorem C13_fdc_absent_read_leaves_bus :
    ex_nofdc.fdc.valid = false ∧ ex_nofdc.cpu.data = 0x5A ∧
    (cpu_read ex_collab ex_nofdc 0xC0E0).cpu.data = 0x5A ∧
    (cpu_read ex_collab ex_nofdc 0xC0E0).cpu.data ≠ 0x00 ∧
    (cpu_read ex_collab ex_nofdc 0xC0E0).cpu.dataSlots = true := by
  refine ⟨rfl, rfl, rfl, by decide, rfl⟩

theorem rotl4_shift (k : Nat) :
    ((0x100000000 - k % 0x100000000) % 0x100000000) &&& 3 = (4 - k % 4) % 4 := by
  have e : ∀ x : Nat, x &&& 3 = x % 4 := fun x => Nat.and_pow_two_sub_one_eq_mod x 2
  rw [e]
  omega

theorem rotl4_table : ∀ n, n < 16 → ∀ r, r < 4 →
    (((n * 0x11) % 0x100000000) >>> ((4 - r) % 4)) &&& 0xF = spec_rotl4 n r := by
  decide

set_option maxRecDepth 100000 in
theorem double_7_bits_table : ∀ x, x < 128 →
    _apple2e_double_7_bits x < 2 ^ 14 ∧
    (∀ i, i < 7 →
      (_apple2e_double_7_bits x).testBit (2 * i) = x.testBit i ∧
      (_apple2e_double_7_bits x).testBit (2 * i + 1) = x.testBit i) ∧
    spec_even_bits (_apple2e_double_7_bits x) = x ∧
    spec_odd_bits (_apple2e_double_7_bits x) = x := by
  decide

theorem rotl4_eq_spec (n k : Nat) (hn : n < 16) :
    _apple2e_rotl4 n k = spec_rotl4 n (k % 4) := by
  have hr : k % 4 < 4 := Nat.mod_lt _ (by decide)
  simp only [_apple2e_rotl4, _apple2e_rotl4b, rotl4_shift]
  exact rotl4_table n hn (k % 4) hr

theorem spec_rotl4_zero : ∀ n, n < 16 → spec_rotl4 n 0 = n := by decide

/-- C19: for every nibble `n < 16` and every 32-bit count `k`,
`_apple2e_rotl4(n, k) = ((n * 0x11) >> (-k & 3)) & 0xF` equals the 4-bit left
rotation of `n` by `k mod 4`, i.e.
`((n << (k mod 4)) | (n >> (4 - (k mod 4)))) & 0xF`; in particular
`_apple2e_rotl4(n, 0) = n`, and the result depends on `k` only through `k mod 4`. -/
theorem C19_rotl4_is_rotation (n k : Nat) (hn : n < 16) (hk : k < 2 ^ 32) :
    _apple2e_rotl4 n k = ((n * 0x11) >>> (((2 ^ 32 - k) % 2 ^ 32) &&& 3)) &&& 0xF ∧
    _apple2e_rotl4 n k = ((n <<< (k % 4)) ||| (n >>> (4 - k % 4))) &&& 0xF ∧
    _apple2e_rotl4 n 0 = n ∧
    ∀ k', k' < 2 ^ 32 → k' % 4 = k % 4 → _apple2e_rotl4 n k' = _apple2e_rotl4 n k := by
  refine ⟨?_, rotl4_eq_spec n k hn, ?_, fun k' _ h => ?_⟩
  · have e1 : (n * 0x11) % 0x100000000 = n * 0x11 := by omega
    have e2 : k % 0x100000000 = k := by omega
    simp only [_apple2e_rotl4, _apple2e_rotl4b, e1, e2]
    rfl
  · rw [rotl4_eq_spec n 0 hn]
    exact spec_rotl4_zero n hn
  · rw [rotl4_eq_spec n k' hn, rotl4_eq_spec n k hn, h]

/-- Witness of C19: rotating the nibble `0x9` by `5` gives `0x3`. -/
theorem C19_rotl4_is_rotation_witness :
    9 < 16 ∧ 5 < 2 ^ 32 ∧ _apple2e_rotl4 9 5 = 3 ∧ _apple2e_rotl4 9 5 = _apple2e_rotl4 9 1 := by
  have h := C19_rotl4_is_rotation 9 5 (by decide) (by decide)
  refine ⟨by decide, by decide, ?_, ?_⟩
  · rw [h.2.1]; decide
  · exact ((C19_rotl4_is_rotation 9 1 (by decide) (by decide)).2.2.2 5 (by decide)
      (by decide))

/-- C20: for every `x < 128`, `d = _apple2e_double_7_bits(x)` is below `2^14` and for
every `i` in `0..6` bit `2i` and bit `2i+1` of `d` both equal bit `i` of `x`; so
extracting the even bits of `d` (or the odd bits of `d`) recovers `x`. -/
theorem C20_double_7_bits (x : Nat) (hx : x < 128) :
    _apple2e_double_7_bits x < 2 ^ 14 ∧
    (∀ i, i < 7 →
      (_apple2e_double_7_bits x).testBit (2 * i) = x.testBit i ∧
      (_apple2e_double_7_bits x).testBit (2 * i + 1) = x.testBit i) ∧
    spec_even_bits (_apple2e_double_7_bits x) = x ∧
    spec_odd_bits (_apple2e_double_7_bits x) = x :=
  double_7_bits_table x hx

/-- Witness of C20: `0x55` doubles to `0x3333`, whose even bits give `0x55` back. -/
theorem C20_double_7_bits_witness :
    0x55 < 128 ∧ _apple2e_double_7_bits 0x55 = 0x3333 ∧
    spec_even_bits (_apple2e_double_7_bits 0x55) = 0x55 :=
  ⟨by decide, by decide, (C20_double_7_bits 0x55 (by decide)).2.2.1⟩

theorem timing_ite (s0 : apple2e_t) (c : Prop) [Decidable c] {a b : apple2e_t}
    (ha : timing a = timing s0) (hb : timing b = timing s0) :
    timing (if c then a else b) = timing s0 := by
  split_ifs <;> assumption

theorem timing_mem_wr (s : apple2e_t) (a d : Nat) : timing (mem_wr s a d) = timing s := by
  simp only [mem_wr]; split <;> rfl

theorem timing_mem_wr_list (ws : List (Nat × Nat)) (s : apple2e_t) :
    timing (mem_wr_list s ws) = timing s := by
  induction ws generalizing s with
  | nil => rfl
  | cons w ws ih => simp only [mem_wr_list, ih, timing_mem_wr]

theorem timing_aux_bank_update (s : apple2e_t) :
    timing (_apple2e_aux_bank_update s) = timing s := by
  simp only [_apple2e_aux_bank_update]
  split_ifs <;> rfl

theorem timing_lc_bank_update (s : apple2e_t) :
    timing (_apple2e_lc_bank_update s) = timing s := by
  simp only [_apple2e_lc_bank_update]
  split_ifs <;> rfl

theorem timing_altzp_update (s : apple2e_t) :
    timing (_apple2e_altzp_update s) = timing s := by
  simp only [_apple2e_altzp_update, timing_lc_bank_update]
  rfl

theorem timing_lc_control (s : apple2e_t) (offset : Nat) (rw : Bool) :
    timing (_apple2e_lc_control s offset rw) = timing s := by
  unfold _apple2e_lc_control
  lift_lets
  extract_lets s1 s2 s3 s4
  have e1 : timing s1 = timing s := by
    apply timing_ite <;> rfl
  clear_value s1
  have e2 : timing s2 = timing s := by
    repeat' apply timing_ite
    all_goals exact e1
  clear_value s2
  have e3 : timing s3 = timing s := by
    repeat' apply timing_ite
    all_goals exact e2
  clear_value s3
  have e4 : timing s4 = timing s := e3
  rw [timing_lc_bank_update, e4]

theorem timing_c000_c00f_w (s : apple2e_t) (addr : Nat) :
    timing (_apple2e_mem_c000_c00f_w s addr) = timing s := by
  unfold _apple2e_mem_c000_c00f_w
  simp only []
  repeat' (with_reducible apply timing_ite)
  all_goals
    first
    | with_reducible rfl
    | (rw [timing_aux_bank_update]; rfl)
    | (rw [timing_altzp_update]; rfl)
    | rfl

theorem timing_c000_c0ff_rw_default (X : collab_t) (s : apple2e_t) (addr : Nat) (rw : Bool) :
    timing (_apple2e_mem_c000_c0ff_rw_default X s addr rw) = timing s := by
  unfold _apple2e_mem_c000_c0ff_rw_default
  simp only []
  repeat' (with_reducible apply timing_ite)
  all_goals
    first
    | with_reducible rfl
    | (rw [timing_c000_c00f_w]; rfl)
    | (rw [timing_mem_wr_list]; rfl)
    | (rw [timing_lc_control]; rfl)
    | (show timing (_apple2e_lc_control _ _ _) = _; rw [timing_lc_control]; rfl)
    | rfl

theorem timing_c000_c0ff_rw (X : collab_t) (s : apple2e_t) (addr : Nat) (rw : Bool) :
    timing (_apple2e_mem_c000_c0ff_rw X s addr rw) = timing s := by
  unfold _apple2e_mem_c000_c0ff_rw
  simp only []
  repeat' (with_reducible apply timing_ite)
  all_goals
    first
    | with_reducible rfl
    | (rw [timing_c000_c0ff_rw_default])
    | rfl

/-- A CPU bus access leaves the VBL counter and the flash timer alone. -/
theorem timing_mem_rw (X : collab_t) (s : apple2e_t) (a : Nat) (rw : Bool) :
    timing (_apple2e_mem_rw X s a rw) = timing s := by
  cases rw <;> simp only [_apple2e_mem_rw, if_true, Bool.false_eq_true, if_false] <;>
    repeat' (with_reducible apply timing_ite)
  all_goals
    first
    | with_reducible rfl
    | (rw [timing_c000_c0ff_rw]; rfl)
    | (rw [timing_mem_wr]; rfl)
    | (show timing (mem_wr _ _ _) = _; rw [timing_mem_wr]; rfl)
    | rfl

theorem timing_tick_cpu (X : collab_t) (s : apple2e_t) :
    timing (apple2e_tick_cpu X s) = timing s := by
  simp only [apple2e_tick_cpu]
  rw [timing_mem_rw]
  rfl

theorem timing_tick_beeper (X : collab_t) (s : apple2e_t) :
    timing (apple2e_tick_beeper X s) = timing s := by
  simp only [apple2e_tick_beeper]
  split_ifs <;> rfl

theorem timing_tick_fdc (X : collab_t) (s : apple2e_t) :
    timing (apple2e_tick_fdc X s) = timing s := by
  simp only [apple2e_tick_fdc]
  split_ifs <;> rfl

theorem timing_tick_vbl (s : apple2e_t) :
    timing (apple2e_tick_vbl s) =
      (if s.vbl_ticks < 17030 then (s.vbl || decide (s.vbl_ticks = 12480)) else false,
       if s.vbl_ticks < 17030 then s.vbl_ticks + 1 else 0,
       s.flash, s.flash_timer_ticks) := by
  simp only [apple2e_tick_vbl, timing]
  by_cases h1 : s.vbl_ticks = 12480
  · have h2 : s.vbl_ticks < 17030 := by omega
    simp [h1]
  · by_cases h2 : s.vbl_ticks < 17030
    · simp [h1, h2]
    · simp [h1, h2]

theorem timing_tick_flash (s : apple2e_t) :
    timing (apple2e_tick_flash s) =
      (s.vbl, s.vbl_ticks,
       if s.flash_timer_ticks = 1 then !s.flash else s.flash,
       if s.flash_timer_ticks = 0 then 0
       else if s.flash_timer_ticks = 1 then APPLE2E_FREQUENCY / 2
       else s.flash_timer_ticks - 1) := by
  simp only [apple2e_tick_flash, timing]
  by_cases h0 : s.flash_timer_ticks = 0
  · simp [h0]
  · have hp : s.flash_timer_ticks > 0 := by omega
    by_cases h1 : s.flash_timer_ticks = 1
    · simp [h1]
      split_ifs <;> exact ⟨rfl, rfl, rfl, rfl⟩
    · have h2 : ¬ s.flash_timer_ticks - 1 = 0 := by omega
      simp [h0, h1, hp, h2]

/-- The VBL counter and the flash timer after one `apple2e_tick`. -/
theorem timing_tick (X : collab_t) (s : apple2e_t) :
    timing (apple2e_tick X s) =
      (if s.vbl_ticks < 17030 then (s.vbl || decide (s.vbl_ticks = 12480)) else false,
       if s.vbl_ticks < 17030 then s.vbl_ticks + 1 else 0,
       if s.flash_timer_ticks = 1 then !s.flash else s.flash,
       if s.flash_timer_ticks = 0 then 0
       else if s.flash_timer_ticks = 1 then APPLE2E_FREQUENCY / 2
       else s.flash_timer_ticks - 1) := by
  have e0 : timing (apple2e_tick X s) =
      timing (apple2e_tick_flash (apple2e_tick_fdc X (apple2e_tick_beeper X
        (apple2e_tick_cpu X (apple2e_tick_vbl s))))) := rfl
  have e1 : timing (apple2e_tick_fdc X (apple2e_tick_beeper X
      (apple2e_tick_cpu X (apple2e_tick_vbl s)))) = timing (apple2e_tick_vbl s) := by
    rw [timing_tick_fdc, timing_tick_beeper, timing_tick_cpu]
  rw [timing_tick_vbl] at e1
  simp only [timing, Prod.mk.injEq] at e1
  obtain ⟨a1, a2, a3, a4⟩ := e1
  rw [e0, timing_tick_flash, a1, a2, a3, a4]

theorem tick_flash_dirty (u : apple2e_t) (h : u.flash_timer_ticks = 1) :
    ((apple2e_tick_flash u).page2 = false → (apple2e_tick_flash u).text_page1_dirty = true) ∧
    ((apple2e_tick_flash u).page2 = true → (apple2e_tick_flash u).text_page2_dirty = true) := by
  by_cases hp : u.page2 = true
  · simp [apple2e_tick_flash, h, hp]
  · simp [apple2e_tick_flash, h, hp]

/-- The tick on which the flash timer runs out marks the text page that `page2`
selects dirty. -/
theorem tick_toggle_dirty (X : collab_t) (s : apple2e_t) (h : s.flash_timer_ticks = 1) :
    ((apple2e_tick X s).page2 = false → (apple2e_tick X s).text_page1_dirty = true) ∧
    ((apple2e_tick X s).page2 = true → (apple2e_tick X s).text_page2_dirty = true) := by
  have e1 : timing (apple2e_tick_fdc X (apple2e_tick_beeper X
      (apple2e_tick_cpu X (apple2e_tick_vbl s)))) = timing (apple2e_tick_vbl s) := by
    rw [timing_tick_fdc, timing_tick_beeper, timing_tick_cpu]
  rw [timing_tick_vbl] at e1
  simp only [timing, Prod.mk.injEq] at e1
  exact tick_flash_dirty _ (e1.2.2.2.trans h)

theorem timing_init (X : collab_t) (cpu : wdc65C02cpu_t) (desc : apple2e_desc_t)
    (s : apple2e_t) (h : apple2e_init X cpu desc = some s) :
    timing s = (false, 0, false, APPLE2E_FREQUENCY / 2) := by
  unfold apple2e_init at h
  lift_lets at h
  extract_lets num s0 s1 s2 s3 s4 s5 f s6 h' s7 at h
  have e5 : timing s5 = (false, 0, false, APPLE2E_FREQUENCY / 2) := rfl
  clear_value s5
  have e6 : timing s6 = (false, 0, false, APPLE2E_FREQUENCY / 2) := by
    simp only [s6]; split_ifs <;> exact e5
  clear_value s6
  have e7 : timing s7 = (false, 0, false, APPLE2E_FREQUENCY / 2) := by
    simp only [s7]; split_ifs <;> exact e6
  clear_value s7
  split_ifs at h
  simp only [Option.some.injEq] at h
  rw [← h]
  exact e7

theorem tick_reachable_ticks (X : collab_t) (n : Nat) (s : apple2e_t)
    (h : TickReachable X 0 s) : TickReachable X n (apple2e_ticks X n s) := by
  induction n with
  | zero => exact h
  | succ n ih => exact TickReachable.tick n _ ih

/-- The VBL invariant of the tick loop: the counter stays within `0..17030` and `vbl`
is set exactly when the counter is above 12480. -/
theorem vbl_inv_reachable (X : collab_t) (n : Nat) (s : apple2e_t)
    (h : TickReachable X n s) :
    s.vbl_ticks ≤ 17030 ∧ s.vbl = decide (12481 ≤ s.vbl_ticks) := by
  induction h with
  | init cpu desc s h =>
    have e := timing_init X cpu desc s h
    simp only [timing, Prod.mk.injEq] at e
    rw [e.1, e.2.1]
    exact ⟨by omega, by decide⟩
  | tick n s _ ih =>
    have e := timing_tick X s
    simp only [timing, Prod.mk.injEq] at e
    obtain ⟨e1, e2, -, -⟩ := e
    obtain ⟨i1, i2⟩ := ih
    rw [e1, e2, i2]
    by_cases c : s.vbl_ticks < 17030
    · refine ⟨by rw [if_pos c]; omega, ?_⟩
      rw [if_pos c, if_pos c]
      by_cases c1 : s.vbl_ticks = 12480
      · simp [c1]
      · by_cases c2 : 12481 ≤ s.vbl_ticks
        · have c3 : 12481 ≤ s.vbl_ticks + 1 := by omega
          simp [c1, c2, c3]
        · have c3 : ¬ 12481 ≤ s.vbl_ticks + 1 := by omega
          simp [c1, c2, c3]
    · rw [if_neg c, if_neg c]
      exact ⟨by omega, by decide⟩

/-- From a state with the counter at 0, the counter after `n <= 17030` ticks is `n`. -/
theorem vbl_ticks_after (X : collab_t) (s : apple2e_t) (h0 : s.vbl_ticks = 0) (n : Nat)
    (hn : n ≤ 17030) : (apple2e_ticks X n s).vbl_ticks = n := by
  induction n with
  | zero => exact h0
  | succ n ih =>
    have e := timing_tick X (apple2e_ticks X n s)
    simp only [timing, Prod.mk.injEq] at e
    have ih' := ih (by omega)
    show (apple2e_tick X (apple2e_ticks X n s)).vbl_ticks = n + 1
    rw [e.2.1, ih', if_pos (by omega)]

theorem tick_reachable_ex_init : TickReachable ex_collab 0 ex_init :=
  TickReachable.init ex_cpu ex_desc ex_init ex_init_ok

/-- C14: for every state with `vbl_ticks <= 17030` and every CPU bus transaction,
`apple2e_tick` yields a state with `vbl_ticks <= 17030`; hence `vbl_ticks` is in
`[0, 17030]` in every state reachable from `apple2e_init` by ticks. -/
theorem C14_vbl_ticks_bounded (X : collab_t) (s : apple2e_t) :
    (s.vbl_ticks ≤ 17030 → (apple2e_tick X s).vbl_ticks ≤ 17030) ∧
    (∀ n, TickReachable X n s → s.vbl_ticks ≤ 17030) := by
  constructor
  · intro _
    have e := timing_tick X s
    simp only [timing, Prod.mk.injEq] at e
    rw [e.2.1]
    split_ifs <;> omega
  · intro n h
    exact (vbl_inv_reachable X n s h).1

/-- Witness of C14: one tick from the power-on state, and the state 20000 ticks
after power-on. -/
theorem C14_vbl_ticks_bounded_witness :
    ex_init.vbl_ticks ≤ 17030 ∧ (apple2e_tick ex_collab ex_init).vbl_ticks ≤ 17030 ∧
    TickReachable ex_collab 20000 (apple2e_ticks ex_collab 20000 ex_init) ∧
    (apple2e_ticks ex_collab 20000 ex_init).vbl_ticks ≤ 17030 :=
  ⟨by decide, (C14_vbl_ticks_bounded ex_collab ex_init).1 (by decide),
    tick_reachable_ticks ex_collab 20000 ex_init tick_reachable_ex_init,
    (C14_vbl_ticks_bounded ex_collab (apple2e_ticks ex_collab 20000 ex_init)).2 20000
      (tick_reachable_ticks ex_collab 20000 ex_init tick_reachable_ex_init)⟩

/-- Counterexample to C15 as stated: 12480 ticks after power-on the counter reads
12480 and `vbl` is still false, so `vbl` is not equivalent to `vbl_ticks >= 12480`
right after that tick. -/
theorem C15_counterexample :
    TickReachable ex_collab 12480 (apple2e_ticks ex_collab 12480 ex_init) ∧
    (apple2e_ticks ex_collab 12480 ex_init).vbl_ticks = 12480 ∧
    (apple2e_ticks ex_collab 12480 ex_init).vbl = false ∧
    ¬ ((apple2e_ticks ex_collab 12480 ex_init).vbl = true ↔
        12480 ≤ (apple2e_ticks ex_collab 12480 ex_init).vbl_ticks) := by
  have hr := tick_reachable_ticks ex_collab 12480 ex_init tick_reachable_ex_init
  have ht := vbl_ticks_after ex_collab ex_init rfl 12480 (by decide)
  have hv := (vbl_inv_reachable ex_collab 12480 _ hr).2
  rw [ht] at hv
  have hv' : (apple2e_ticks ex_collab 12480 ex_init).vbl = false := by rw [hv]; decide
  refine ⟨hr, ht, hv', ?_⟩
  rw [hv', ht]
  decide

/-- C15 (amended): in every state reached from `apple2e_init` by calls of
`apple2e_tick`, `vbl` is true if and only if `vbl_ticks >= 12481` (checked right
after each tick): the tick that finds the counter at 12480 asserts `vbl` and leaves
the counter at 12481. -/
theorem C15_vbl_window (X : collab_t) (n : Nat) (s : apple2e_t) (h : TickReachable X n s) :
    s.vbl = true ↔ 12481 ≤ s.vbl_ticks := by
  rw [(vbl_inv_reachable X n s h).2]
  simp

/-- Witness of the amended C15: 12481 ticks after power-on the counter reads 12481
and `vbl` is set. -/
theorem C15_vbl_window_witness :
    TickReachable ex_collab 12481 (apple2e_ticks ex_collab 12481 ex_init) ∧
    (apple2e_ticks ex_collab 12481 ex_init).vbl_ticks = 12481 ∧
    ((apple2e_ticks ex_collab 12481 ex_init).vbl = true ↔
      12481 ≤ (apple2e_ticks ex_collab 12481 ex_init).vbl_ticks) :=
  ⟨tick_reachable_ticks ex_collab 12481 ex_init tick_reachable_ex_init,
    vbl_ticks_after ex_collab ex_init rfl 12481 (by decide),
    C15_vbl_window ex_collab 12481 _
      (tick_reachable_ticks ex_collab 12481 ex_init tick_reachable_ex_init)⟩

theorem flash_after (X : collab_t) (s : apple2e_t) (h : s.flash_timer_ticks = 510900)
    (n : Nat) (hn : n ≤ 510899) :
    (apple2e_ticks X n s).flash = s.flash ∧
    (apple2e_ticks X n s).flash_timer_ticks = 510900 - n := by
  induction n with
  | zero => exact ⟨rfl, h⟩
  | succ n ih =>
    obtain ⟨i1, i2⟩ := ih (by omega)
    have e := timing_tick X (apple2e_ticks X n s)
    simp only [timing, Prod.mk.injEq] at e
    obtain ⟨-, -, e3, e4⟩ := e
    have c0 : ¬ (apple2e_ticks X n s).flash_timer_ticks = 0 := by omega
    have c1 : ¬ (apple2e_ticks X n s).flash_timer_ticks = 1 := by omega
    rw [if_neg c1] at e3
    rw [if_neg c0, if_neg c1] at e4
    constructor
    · show (apple2e_tick X (apple2e_ticks X n s)).flash = s.flash
      rw [e3, i1]
    · show (apple2e_tick X (apple2e_ticks X n s)).flash_timer_ticks = 510900 - (n + 1)
      rw [e4, i2]
      omega

/-- C16: starting from a state with `flash_timer_ticks = FREQ/2 = 510900`, for every
CPU bus activity: `flash` keeps its value after each of the next 510899 ticks and is
inverted after the 510900th tick, at which point `flash_timer_ticks` is 510900 again
and the tick has set `text_page1_dirty` if `page2` is false and `text_page2_dirty`
if `page2` is true. -/
theorem C16_flash_period (X : collab_t) (s : apple2e_t)
    (h : s.flash_timer_ticks = APPLE2E_FREQUENCY / 2) :
    APPLE2E_FREQUENCY / 2 = 510900 ∧
    (∀ n, 1 ≤ n → n ≤ 510899 → (apple2e_ticks X n s).flash = s.flash) ∧
    (apple2e_ticks X 510900 s).flash = (!s.flash) ∧
    (apple2e_ticks X 510900 s).flash_timer_ticks = 510900 ∧
    ((apple2e_ticks X 510900 s).page2 = false →
      (apple2e_ticks X 510900 s).text_page1_dirty = true) ∧
    ((apple2e_ticks X 510900 s).page2 = true →
      (apple2e_ticks X 510900 s).text_page2_dirty = true) := by
  have hF : APPLE2E_FREQUENCY / 2 = 510900 := rfl
  rw [hF] at h
  obtain ⟨i1, i2⟩ := flash_after X s h 510899 (by omega)
  have i2' : (apple2e_ticks X 510899 s).flash_timer_ticks = 1 := by rw [i2]
  have e := timing_tick X (apple2e_ticks X 510899 s)
  simp only [timing, Prod.mk.injEq] at e
  obtain ⟨-, -, e3, e4⟩ := e
  rw [if_pos i2'] at e3
  rw [if_neg (by omega), if_pos i2'] at e4
  have hd := tick_toggle_dirty X (apple2e_ticks X 510899 s) i2'
  refine ⟨hF, fun n _ hn => (flash_after X s h n hn).1, ?_, ?_, hd.1, hd.2⟩
  · show (apple2e_tick X (apple2e_ticks X 510899 s)).flash = (!s.flash)
    rw [e3, i1]
  · show (apple2e_tick X (apple2e_ticks X 510899 s)).flash_timer_ticks = 510900
    rw [e4, hF]

/-- Witness of C16 on the power-on state: `flash` is false there, still false after
510899 ticks and true after 510900. -/
theorem C16_flash_period_witness :
    ex_init.flash_timer_ticks = APPLE2E_FREQUENCY / 2 ∧ ex_init.flash = false ∧
    (apple2e_ticks ex_collab 510899 ex_init).flash = false ∧
    (apple2e_ticks ex_collab 510900 ex_init).flash = true ∧
    (apple2e_ticks ex_collab 510900 ex_init).flash_timer_ticks = 510900 :=
  ⟨rfl, rfl,
    (C16_flash_period ex_collab ex_init rfl).2.1 510899 (by decide) (by decide),
    (C16_flash_period ex_collab ex_init rfl).2.2.1,
    (C16_flash_period ex_collab ex_init rfl).2.2.2.1⟩

theorem switch_state_reset (X : collab_t) (s : apple2e_t) :
    switch_state (apple2e_reset X s) = switch_state s := by
  unfold apple2e_reset
  lift_lets
  extract_lets s1 s2 s3
  have e1 : switch_state s1 = switch_state s := rfl
  clear_value s1
  have e2 : switch_state s2 = switch_state s := by
    simp only [s2]; split_ifs <;> exact e1
  clear_value s2
  have e3 : switch_state s3 = switch_state s := by
    simp only [s3]; split_ifs <;> exact e2
  exact e3

theorem switch_state_init (X : collab_t) (cpu : wdc65C02cpu_t) (desc : apple2e_desc_t)
    (s : apple2e_t) (h : apple2e_init X cpu desc = some s) :
    switch_state s =
      ([true, false, false, true, true], List.replicate 8 false, 0x8D,
        ram_reset_pattern, ram_reset_pattern) := by
  unfold apple2e_init at h
  lift_lets at h
  extract_lets num s0 s1 s2 s3 s4 s5 f s6 h' s7 at h
  have e5 : switch_state s5 =
      ([true, false, false, true, true], List.replicate 8 false, 0x8D,
        ram_reset_pattern, ram_reset_pattern) := rfl
  clear_value s5
  have e6 : switch_state s6 =
      ([true, false, false, true, true], List.replicate 8 false, 0x8D,
        ram_reset_pattern, ram_reset_pattern) := by
    simp only [s6]; split_ifs <;> exact e5
  clear_value s6
  have e7 : switch_state s7 =
      ([true, false, false, true, true], List.replicate 8 false, 0x8D,
        ram_reset_pattern, ram_reset_pattern) := by
    simp only [s7]; split_ifs <;> exact e6
  clear_value s7
  split_ifs at h
  simp only [Option.some.injEq] at h
  rw [← h]
  exact e7

/-- Counterexample to C17 as stated: `apple2e_reset` applied to valid machines leaves
`lcram` and `prewrite` set after two reads of `$C083`, `hires` and `page2` set after
writes to `$C057` and `$C055`, the latch at `0xC1` after the key `A`, and the byte
`0x5A` at the even main-RAM address `$0300` after a CPU write. -/
theorem C17_counterexample :
    ex_lc.valid = true ∧ (apple2e_reset ex_collab ex_lc).lcram = true ∧
    (apple2e_reset ex_collab ex_lc).prewrite = true ∧
    ex_80store.valid = true ∧ (apple2e_reset ex_collab ex_80store).hires = true ∧
    (apple2e_reset ex_collab ex_80store).page2 = true ∧
    ex_key.valid = true ∧ (apple2e_reset ex_collab ex_key).last_key_code = 0xC1 ∧
    ex_nofdc.valid = true ∧ (apple2e_reset ex_collab ex_nofdc).ram 0x0300 = 0x5A :=
  ⟨rfl, rfl, rfl, rfl, rfl, rfl, rfl, rfl, rfl, rfl⟩

/-- C17 (amended): `apple2e_reset` leaves the language-card flags, `ioudis`, the
display flags, `last_key_code` and both RAM planes as they were. The power-on
defaults (`lcbnk2 = true`, `lcram = false`, `prewrite = false`,
`write_enabled = true`, `ioudis = true`, `last_key_code = 0x8D`, all display flags
false, both RAM planes `0x00` at even and `0xFF` at odd addresses) hold in the state
returned by `apple2e_init`, and so also after a reset applied right to that state. -/
theorem C17_reset_keeps_switches (X : collab_t) (s : apple2e_t) :
    switch_state (apple2e_reset X s) = switch_state s ∧
    (∀ cpu desc, apple2e_init X cpu desc = some s →
      ∀ t, (t = s ∨ t = apple2e_reset X s) →
        t.lcbnk2 = true ∧ t.lcram = false ∧ t.prewrite = false ∧ t.write_enabled = true ∧
        t.ioudis = true ∧ t.last_key_code = 0x8D ∧ display_flags t = List.replicate 8 false ∧
        ∀ i, i < 0x10000 →
          t.ram i = (if i % 2 = 0 then 0x00 else 0xFF) ∧
          t.aux_ram i = (if i % 2 = 0 then 0x00 else 0xFF)) := by
  refine ⟨switch_state_reset X s, ?_⟩
  intro cpu desc h t ht
  have e : switch_state t =
      ([true, false, false, true, true], List.replicate 8 false, 0x8D,
        ram_reset_pattern, ram_reset_pattern) := by
    rcases ht with ht | ht
    · rw [ht]; exact switch_state_init X cpu desc s h
    · rw [ht, switch_state_reset]; exact switch_state_init X cpu desc s h
  simp only [switch_state, Prod.mk.injEq, List.cons.injEq, and_true] at e
  obtain ⟨⟨e1, e2, e3, e4, e5⟩, e6, e7, e8, e9⟩ := e
  refine ⟨e1, e2, e3, e4, e5, e7, e6, ?_⟩
  intro i hi
  rw [e8, e9]
  simp only [ram_reset_pattern, if_pos hi, and_self]

/-- Witness of the amended C17: the reset of the machine with the language card
enabled keeps `lcram` set, and the power-on state has the defaults before and after a
reset. -/
theorem C17_reset_keeps_switches_witness :
    switch_state (apple2e_reset ex_collab ex_lc) = switch_state ex_lc ∧
    apple2e_init ex_collab ex_cpu ex_desc = some ex_init ∧
    (apple2e_reset ex_collab ex_init).lcram = false ∧
    (apple2e_reset ex_collab ex_init).last_key_code = 0x8D ∧
    (apple2e_reset ex_collab ex_init).ram 0x0301 = 0xFF :=
  ⟨(C17_reset_keeps_switches ex_collab ex_lc).1, ex_init_ok,
    ((C17_reset_keeps_switches ex_collab ex_init).2 ex_cpu ex_desc ex_init_ok _
      (Or.inr rfl)).2.1,
    ((C17_reset_keeps_switches ex_collab ex_init).2 ex_cpu ex_desc ex_init_ok _
      (Or.inr rfl)).2.2.2.2.2.1,
    (((C17_reset_keeps_switches ex_collab ex_init).2 ex_cpu ex_desc ex_init_ok _
      (Or.inr rfl)).2.2.2.2.2.2.2 0x0301 (by decide)).1⟩

/-- C18: for every version different from `APPLE2E_SNAPSHOT_VERSION` (1),
`apple2e_load_snapshot(sys, version, src)` returns false and leaves the live instance
`sys` as it is; for version 1 it returns true. -/
theorem C18_load_snapshot_version (X : collab_t) (sys src : apple2e_t) (version : Nat) :
    APPLE2E_SNAPSHOT_VERSION = 1 ∧
    (version ≠ 1 → apple2e_load_snapshot X sys version src = (false, sys)) ∧
    (version = 1 → (apple2e_load_snapshot X sys version src).1 = true) := by
  refine ⟨rfl, ?_, ?_⟩
  · intro h
    unfold apple2e_load_snapshot
    rw [if_pos (by simpa [APPLE2E_SNAPSHOT_VERSION] using h)]
  · intro h
    unfold apple2e_load_snapshot
    rw [if_neg (by simp [APPLE2E_SNAPSHOT_VERSION, h])]

/-- Witness of C18: a version-2 load into the power-on machine from a snapshot with the
language card enabled is refused and changes nothing; a version-1 load is accepted
and takes over the snapshot's `lcram`. -/
theorem C18_load_snapshot_version_witness :
    apple2e_load_snapshot ex_collab ex_init 2 ex_lc = (false, ex_init) ∧
    (apple2e_load_snapshot ex_collab ex_init 1 ex_lc).1 = true ∧
    (apple2e_load_snapshot ex_collab ex_init 1 ex_lc).2.lcram = true :=
  ⟨(C18_load_snapshot_version ex_collab ex_init ex_lc 2).2.1 (by decide),
    (C18_load_snapshot_version ex_collab ex_init ex_lc 1).2.2 rfl, rfl⟩

set_option maxRecDepth 100000 in
theorem row_offset_table : ∀ r, r < 192 →
    ((((r / 8) &&& 0x07) <<< 7) ||| (((r / 8) &&& 0x18) * 5)) =
      (((r / 8) &&& 7) <<< 7) + (((r / 8) &&& 0x18) * 5) ∧
    (((r / 8) &&& 7) <<< 7) + (((r / 8) &&& 0x18) * 5) ≤ 0x3D0 ∧
    ((r &&& 7) <<< 10) ≤ 0x1C00 := by
  decide

theorem text_start_address_le (s : apple2e_t) : text_start_address s ≤ 0x0800 := by
  unfold text_start_address; split_ifs <;> omega

theorem hires_start_address_le (s : apple2e_t) : hires_start_address s ≤ 0x4000 := by
  unfold hires_start_address; split_ifs <;> omega

theorem text_row_address_eq (s : apple2e_t) (r : Nat) (hr : r < 192) :
    text_row_address (text_start_address s) r =
      text_start_address s + (((r / 8) &&& 7) <<< 7) + (((r / 8) &&& 0x18) * 5) := by
  obtain ⟨e1, e2, -⟩ := row_offset_table r hr
  have hb := text_start_address_le s
  unfold text_row_address
  rw [e1, Nat.mod_eq_of_lt (by omega)]
  omega

theorem hires_row_address_eq (s : apple2e_t) (r : Nat) (hr : r < 192) :
    hires_row_address (hires_start_address s) r =
      hires_start_address s + (((r / 8) &&& 7) <<< 7) + (((r / 8) &&& 0x18) * 5) +
        ((r &&& 7) <<< 10) := by
  obtain ⟨-, e2, e3⟩ := row_offset_table r hr
  have hb := hires_start_address_le s
  unfold hires_row_address
  rw [Nat.mod_eq_of_lt (by omega)]

/-- C21: for every scan row `r` in `[0, 192)` the row address computed by the
renderers equals the specified formula: the text and lo-res renderers (which combine
the two terms with a bitwise OR) give
`base + (((r/8) & 7) << 7) + (((r/8) & 0x18) * 5)`, the hi-res renderers give
`base + (((r/8) & 7) << 7) + (((r/8) & 0x18) * 5) + ((r & 7) << 10)`, with
`base = 0x0800` resp. `0x4000` when `page2 && !_80store` and `0x0400` resp. `0x2000`
otherwise. -/
theorem C21_row_address (s : apple2e_t) (r : Nat) (hr : r < 192) :
    text_row_address (text_start_address s) r =
      (if s.page2 && !s._80store then 0x0800 else 0x0400) +
        (((r / 8) &&& 7) <<< 7) + (((r / 8) &&& 0x18) * 5) ∧
    hires_row_address (hires_start_address s) r =
      (if s.page2 && !s._80store then 0x4000 else 0x2000) +
        (((r / 8) &&& 7) <<< 7) + (((r / 8) &&& 0x18) * 5) + ((r &&& 7) <<< 10) :=
  ⟨text_row_address_eq s r hr, hires_row_address_eq s r hr⟩

/-- Witness of C21: scan row 175 (text row 21, glyph line 7) of the power-on machine
is at `0x06D0` in the text page and at `0x3ED0` in the hi-res page. -/
theorem C21_row_address_witness :
    text_row_address (text_start_address ex_init) 175 = 0x06D0 ∧
    hires_row_address (hires_start_address ex_init) 175 = 0x3ED0 :=
  C21_row_address ex_init 175 (by decide)

theorem lor_0x80_lt : ∀ c, c ≤ 0x7F → (c ||| 0x80) % 256 = c ||| 0x80 := by decide

/-- Counterexample to C25 as stated, on the power-on machine (`altcharset` and
`flash` false, ROM byte `0x3B` at index 8): for the code `0x01`, outside the
inverse/flash range, the claim gives the ROM bits as they are, `0x3B`, and the code
returns `0x3B ^ 0x7F = 0x44`; for the code `0x41`, inside the range and with `flash`
false, the claim gives `0x3B` again and the code returns `0x44`. -/
theorem C25_counterexample :
    ex_init.altcharset = false ∧ ex_init.flash = false ∧
    ex_init.character_rom (0x01 * 8 + 0) &&& 0x7F = 0x3B ∧
    _apple2e_get_text_character ex_init 0x01 0 = 0x44 ∧
    _apple2e_get_text_character ex_init 0x01 0 ≠
      (ex_init.character_rom (0x01 * 8 + 0) &&& 0x7F) ^^^ 0x00 ∧
    _apple2e_get_text_character ex_init 0x41 0 = 0x44 ∧
    _apple2e_get_text_character ex_init 0x41 0 ≠
      (ex_init.character_rom ((0x41 &&& 0x3F) * 8 + 0) &&& 0x7F) ^^^ 0x00 := by
  refine ⟨rfl, rfl, rfl, rfl, ?_, rfl, ?_⟩ <;> decide

/-- C25 (amended): for every character code `c`, glyph row `g` and flag values,
`_apple2e_get_text_character` returns `(character_rom[c' * 8 + g] & 0x7F) XOR mask`,
where: if `altcharset` is false and `c` is in `[0x40, 0x7F]` then `c' = c & 0x3F` and
`mask` is `0x00` when `flash` is set and `0x7F` when it is not; if `altcharset` is
true and `c` is in `[0x60, 0x7F]` then `c' = c | 0x80` and `mask = 0x00`; otherwise
`c' = c` and `mask = 0x7F`. The XOR with `0x7F` is the default and the special cases
remove it. -/
theorem C25_get_text_character (s : apple2e_t) (c g : Nat) :
    (s.altcharset = false → 0x40 ≤ c → c ≤ 0x7F →
      _apple2e_get_text_character s c g =
        (s.character_rom ((c &&& 0x3F) * 8 + g) &&& 0x7F) ^^^ (if s.flash then 0x00 else 0x7F)) ∧
    (s.altcharset = true → 0x60 ≤ c → c ≤ 0x7F →
      _apple2e_get_text_character s c g = (s.character_rom ((c ||| 0x80) * 8 + g) &&& 0x7F) ^^^ 0x00) ∧
    (¬ (s.altcharset = false ∧ 0x40 ≤ c ∧ c ≤ 0x7F) →
      ¬ (s.altcharset = true ∧ 0x60 ≤ c ∧ c ≤ 0x7F) →
      _apple2e_get_text_character s c g = (s.character_rom (c * 8 + g) &&& 0x7F) ^^^ 0x7F) := by
  refine ⟨?_, ?_, ?_⟩
  · intro ha h1 h2
    simp only [_apple2e_get_text_character, ha, Bool.not_false, if_true, ge_iff_le, h1, h2,
      and_self]
    cases s.flash <;> rfl
  · intro ha h1 h2
    simp only [_apple2e_get_text_character, ha, Bool.not_true, ge_iff_le, h1, h2,
      and_self, if_true, lor_0x80_lt c h2]
    rfl
  · intro n1 n2
    cases ha : s.altcharset
    · have n : ¬ (c ≥ 0x40 ∧ c ≤ 0x7F) := fun h => n1 ⟨ha, h.1, h.2⟩
      simp only [_apple2e_get_text_character, ha, Bool.not_false, if_true, if_neg n]
    · have n : ¬ (c ≥ 0x60 ∧ c ≤ 0x7F) := fun h => n2 ⟨ha, h.1, h.2⟩
      simp only [_apple2e_get_text_character, ha, Bool.not_true, if_neg n]
      rfl

/-- Witness of the amended C25 on the power-on machine: the codes `0x41` (flash
range, `flash` false) and `0x01` (plain) both give `0x3B ^ 0x7F = 0x44`. -/
theorem C25_get_text_character_witness :
    _apple2e_get_text_character ex_init 0x41 0 =
      (ex_init.character_rom ((0x41 &&& 0x3F) * 8 + 0) &&& 0x7F) ^^^
        (if ex_init.flash then 0x00 else 0x7F) ∧
    _apple2e_get_text_character ex_init 0x01 0 =
      (ex_init.character_rom (0x01 * 8 + 0) &&& 0x7F) ^^^ 0x7F :=
  ⟨(C25_get_text_character ex_init 0x41 0).1 rfl (by decide) (by decide),
    (C25_get_text_character ex_init 0x01 0).2.2 (by decide) (by decide)⟩

theorem vbl_ticks_closed (X : collab_t) (s : apple2e_t) (h : s.vbl_ticks ≤ 17030) (n : Nat) :
    (apple2e_ticks X n s).vbl_ticks = (s.vbl_ticks + n) % 17031 := by
  induction n with
  | zero => show s.vbl_ticks = _; omega
  | succ n ih =>
    have e := timing_tick X (apple2e_ticks X n s)
    simp only [timing, Prod.mk.injEq] at e
    show (apple2e_tick X (apple2e_ticks X n s)).vbl_ticks = _
    rw [e.2.1, ih]
    split_ifs <;> omega

/-- Counterexample to C30 as stated: 17030 ticks after power-on (counter 0) the
counter reads 17030, not 0. -/
theorem C30_counterexample :
    ex_init.vbl_ticks = 0 ∧ (apple2e_ticks ex_collab 17030 ex_init).vbl_ticks = 17030 ∧
    (apple2e_ticks ex_collab 17030 ex_init).vbl_ticks ≠ ex_init.vbl_ticks := by
  have h := vbl_ticks_closed ex_collab ex_init (by decide) 17030
  have h0 : ex_init.vbl_ticks = 0 := rfl
  rw [h0] at h ⊢
  refine ⟨rfl, h, ?_⟩
  rw [h]
  decide

/-- C30 (amended): the VBL counter defines a frame of 17031 ticks: it runs through
`0, 1, .., 17030` and wraps. From every state with `vbl_ticks <= 17030`, after
exactly 17031 calls of `apple2e_tick` the counter has returned to its starting value,
and after `n` calls with `0 < n < 17031` it differs from it. -/
theorem C30_vbl_frame (X : collab_t) (s : apple2e_t) (h : s.vbl_ticks ≤ 17030) :
    (apple2e_ticks X 17031 s).vbl_ticks = s.vbl_ticks ∧
    ∀ n, 0 < n → n < 17031 → (apple2e_ticks X n s).vbl_ticks ≠ s.vbl_ticks := by
  constructor
  · rw [vbl_ticks_closed X s h]; omega
  · intro n h0 h1
    rw [vbl_ticks_closed X s h]; omega

/-- Witness of the amended C30 on the power-on machine. -/
theorem C30_vbl_frame_witness :
    ex_init.vbl_ticks ≤ 17030 ∧
    (apple2e_ticks ex_collab 17031 ex_init).vbl_ticks = ex_init.vbl_ticks ∧
    (apple2e_ticks ex_collab 17030 ex_init).vbl_ticks ≠ ex_init.vbl_ticks :=
  ⟨by decide, (C30_vbl_frame ex_collab ex_init (by decide)).1,
    (C30_vbl_frame ex_collab ex_init (by decide)).2 17030 (by decide) (by decide)⟩

/-! ## Lemmas on loops that fill an array block by block -/

theorem block_index (base m k j : Nat) (h1 : base + k * m ≤ j) (h2 : j < base + k * m + m) :
    (j - base) / m = k ∧ (j - base) % m = j - (base + k * m) := by
  have hm : 0 < m := by omega
  have e : j - base = (j - (base + k * m)) + k * m := by omega
  have hr : j - (base + k * m) < m := by omega
  rw [e, Nat.add_mul_div_right _ _ hm, Nat.add_mul_mod_self_right, Nat.div_eq_of_lt hr,
    Nat.mod_eq_of_lt hr]
  omega

theorem loop_blocks {ω : Type} (m base : Nat) (g : Nat → ω → ω) (h : Nat → ω → Nat → Nat)
    (body : Nat → ω × (Nat → Nat) → ω × (Nat → Nat))
    (hbody : ∀ k w a, body k (w, a) =
      (g k w, fun j => if base + k * m ≤ j ∧ j < base + k * m + m
        then h k w (j - (base + k * m)) else a j))
    (n : Nat) (w0 : ω) (a0 : Nat → Nat) :
    loop body n (w0, a0) =
      (loop g n w0, fun j => if base ≤ j ∧ j < base + n * m
        then h ((j - base) / m) (loop g ((j - base) / m) w0) ((j - base) % m) else a0 j) := by
  induction n with
  | zero =>
    show (w0, a0) = _
    congr 1
    funext j
    rw [if_neg (by omega)]
  | succ n ih =>
    show body n (loop body n (w0, a0)) = _
    rw [ih, hbody]
    congr 1
    funext j
    have e : base + (n + 1) * m = base + n * m + m := by rw [Nat.succ_mul]; omega
    by_cases c : base + n * m ≤ j ∧ j < base + n * m + m
    · obtain ⟨e1, e2⟩ := block_index base m n j c.1 c.2
      rw [if_pos c, if_pos ⟨by omega, by omega⟩, e1, e2]
    · rw [if_neg c]
      by_cases c2 : base ≤ j ∧ j < base + n * m
      · rw [if_pos c2, if_pos ⟨c2.1, by omega⟩]
      · rw [if_neg c2, if_neg (by omega)]

theorem loop_fill (m base : Nat) (h : Nat → Nat → Nat)
    (body : Nat → (Nat → Nat) → (Nat → Nat))
    (hbody : ∀ k a, body k a =
      fun j => if base + k * m ≤ j ∧ j < base + k * m + m
        then h k (j - (base + k * m)) else a j)
    (n : Nat) (a0 : Nat → Nat) :
    loop body n a0 =
      fun j => if base ≤ j ∧ j < base + n * m
        then h ((j - base) / m) ((j - base) % m) else a0 j := by
  induction n with
  | zero =>
    show a0 = _
    funext j
    rw [if_neg (by omega)]
  | succ n ih =>
    show body n (loop body n a0) = _
    rw [ih, hbody]
    funext j
    have e : base + (n + 1) * m = base + n * m + m := by rw [Nat.succ_mul]; omega
    by_cases c : base + n * m ≤ j ∧ j < base + n * m + m
    · obtain ⟨e1, e2⟩ := block_index base m n j c.1 c.2
      rw [if_pos c, if_pos ⟨by omega, by omega⟩, e1, e2]
    · rw [if_neg c]
      by_cases c2 : base ≤ j ∧ j < base + n * m
      · rw [if_pos c2, if_pos ⟨c2.1, by omega⟩]
      · rw [if_neg c2, if_neg (by omega)]

theorem store_block (a : Nat → Nat) (base k v : Nat) :
    store a (base + k) v =
      fun j => if base + k * 1 ≤ j ∧ j < base + k * 1 + 1 then v else a j := by
  funext j
  unfold store
  by_cases c : j = base + k
  · rw [if_pos c, if_pos (by omega)]
  · rw [if_neg c, if_neg (by omega)]

theorem loop_shift2 (k w : Nat) : loop (fun _ w => w >>> 1 >>> 1) k w = w >>> (2 * k) := by
  induction k with
  | zero => rfl
  | succ k ih =>
    show (loop (fun _ w => w >>> 1 >>> 1) k w) >>> 1 >>> 1 = _
    rw [ih, ← Nat.shiftRight_add, ← Nat.shiftRight_add]
    congr 1

/-! ## The monochrome line kernel -/

theorem render_mono_pair_eq (out col b w : Nat) (a : Nat → Nat) :
    render_mono_pair out col b (w, a) =
      (w >>> 1 >>> 1, fun j => if out + col * 7 + b * 1 ≤ j ∧ j < out + col * 7 + b * 1 + 1
        then mono_byte w else a j) := by
  unfold render_mono_pair
  simp only []
  rw [← Nat.add_assoc, store_block]
  rfl

theorem render_mono_inner (out col w : Nat) (a : Nat → Nat) :
    loop (render_mono_pair out col) 7 (w, a) =
      (w >>> 14, fun j => if out + col * 7 ≤ j ∧ j < out + col * 7 + 7
        then mono_byte (w >>> (2 * (j - (out + col * 7)))) else a j) := by
  rw [loop_blocks 1 (out + col * 7) (fun _ w => w >>> 1 >>> 1) (fun _ w _ => mono_byte w)
    (render_mono_pair out col) (fun k w a => render_mono_pair_eq out col k w a)]
  simp only [loop_shift2, Nat.div_one]

/-- The window of the monochrome kernel for column `col` after the next word has been
added. -/
theorem mono_window_add (a b : Nat) (ha : a < 2 ^ 14) (hb : b < 2 ^ 14) :
    (a + (b <<< 14)) % 0x100000000 = a + b * 2 ^ 14 ∧ (a + b * 2 ^ 14) >>> 14 = b := by
  rw [Nat.shiftLeft_eq, Nat.shiftRight_eq_div_pow]
  constructor <;> omega


theorem render_mono_col_eq (out : Nat) (words : Nat → Nat) (i w : Nat) (a : Nat → Nat) :
    render_mono_col out words 0 i (w, a) =
      ((if i + 1 < 40 then (w + (words (i + 1) <<< 14)) % 0x100000000 else w) >>> 14,
        fun j => if out + i * 7 ≤ j ∧ j < out + i * 7 + 7
          then mono_byte ((if i + 1 < 40 then (w + (words (i + 1) <<< 14)) % 0x100000000 else w)
            >>> (2 * (j - (out + i * 7)))) else a j) := by
  unfold render_mono_col
  simp only [Nat.zero_add]
  rw [render_mono_inner]

theorem mono_window (words : Nat → Nat) (hw : ∀ c, c < 40 → words c < 2 ^ 14) (c : Nat)
    (hc : c < 40) :
    loop (fun i w => (if i + 1 < 40 then (w + (words (i + 1) <<< 14)) % 0x100000000 else w) >>> 14)
      c (words 0) = words c := by
  induction c with
  | zero => rfl
  | succ c ih =>
    show (if c + 1 < 40 then _ else _) >>> 14 = _
    rw [ih (by omega), if_pos hc]
    obtain ⟨e1, e2⟩ := mono_window_add (words c) (words (c + 1)) (hw c (by omega)) (hw _ hc)
    rw [e1, e2]

/-- The bytes the monochrome kernel leaves in the framebuffer for a line of 40 words
of 14 bits. -/
theorem render_line_monochrome_eq (fb : Nat → Nat) (out : Nat) (words : Nat → Nat)
    (hw : ∀ c, c < 40 → words c < 2 ^ 14) (j : Nat) :
    _apple2e_render_line_monochrome fb out words 0 40 j =
      if out ≤ j ∧ j < out + 280 then
        mono_byte ((if (j - out) / 7 + 1 < 40
          then words ((j - out) / 7) + words ((j - out) / 7 + 1) * 2 ^ 14
          else words ((j - out) / 7)) >>> (2 * ((j - out) % 7)))
      else fb j := by
  unfold _apple2e_render_line_monochrome
  rw [loop_blocks 7 out
    (fun i w => (if i + 1 < 40 then (w + (words (i + 1) <<< 14)) % 0x100000000 else w) >>> 14)
    (fun i w r => mono_byte ((if i + 1 < 40 then (w + (words (i + 1) <<< 14)) % 0x100000000
      else w) >>> (2 * r)))
    (render_mono_col out words 0) (fun k w a => render_mono_col_eq out words k w a)]
  show (if out ≤ j ∧ j < out + (40 - 0) * 7 then _ else _) = _
  by_cases c : out ≤ j ∧ j < out + 280
  · have hq : (j - out) / 7 < 40 := by omega
    rw [if_pos c, if_pos c, mono_window words hw _ hq]
    by_cases c1 : (j - out) / 7 + 1 < 40
    · rw [if_pos c1, if_pos c1, (mono_window_add _ _ (hw _ hq) (hw _ c1)).1]
    · rw [if_neg c1, if_neg c1]
  · rw [if_neg c, if_neg c]

theorem mono_byte_hi (w : Nat) : mono_byte w >>> 4 = if w &&& 1 ≠ 0 then 15 else 0 := by
  unfold mono_byte
  split_ifs <;> rfl

theorem mono_byte_lo (w : Nat) : mono_byte w &&& 0xF = if (w >>> 1) &&& 1 ≠ 0 then 15 else 0 := by
  unfold mono_byte
  split_ifs <;> rfl

theorem mono_bit (a b j : Nat) (hj : j < 14) :
    ((a + b * 2 ^ 14) >>> j) &&& 1 = (a >>> j) &&& 1 := by
  simp only [Nat.shiftRight_eq_div_pow, Nat.and_one_is_mod]
  interval_cases j <;> omega

/-- C26: for every array `in[0..39]` of words each below `2^14`,
`_apple2e_render_line_monochrome(out, in, 0, 40)` writes, for every column `c < 40`
and every `j < 14`, pixel `14c + j` of the line (high nibble of `out[7c + j/2]` for
even `j`, low nibble for odd `j`) as 15 if bit `j` of `in[c]` is 1 and as 0
otherwise: the next column's word, carried into the sliding window, never disturbs
the pixels of the current column. -/
theorem C26_render_line_monochrome (fb : Nat → Nat) (out : Nat) (words : Nat → Nat)
    (hw : ∀ c, c < 40 → words c < 2 ^ 14) (c j : Nat) (hc : c < 40) (hj : j < 14) :
    line_pixel (_apple2e_render_line_monochrome fb out words 0 40) out (14 * c + j) =
      (if (words c >>> j) &&& 1 = 1 then 15 else 0) ∧
    line_pixel (_apple2e_render_line_monochrome fb out words 0 40) out (14 * c + j) =
      (if j % 2 = 0
        then _apple2e_render_line_monochrome fb out words 0 40 (out + (7 * c + j / 2)) >>> 4
        else _apple2e_render_line_monochrome fb out words 0 40 (out + (7 * c + j / 2)) &&& 0xF) := by
  have hp2 : (14 * c + j) / 2 = 7 * c + j / 2 := by omega
  have hpm : (14 * c + j) % 2 = j % 2 := by omega
  have second : line_pixel (_apple2e_render_line_monochrome fb out words 0 40) out (14 * c + j) =
      (if j % 2 = 0
        then _apple2e_render_line_monochrome fb out words 0 40 (out + (7 * c + j / 2)) >>> 4
        else _apple2e_render_line_monochrome fb out words 0 40 (out + (7 * c + j / 2)) &&& 0xF) := by
    unfold line_pixel
    rw [hp2, hpm]
  refine ⟨?_, second⟩
  rw [second, render_line_monochrome_eq fb out words hw,
    if_pos (show out ≤ out + (7 * c + j / 2) ∧ out + (7 * c + j / 2) < out + 280 from
      ⟨by omega, by omega⟩)]
  have hq : (out + (7 * c + j / 2) - out) / 7 = c := by omega
  have hr : (out + (7 * c + j / 2) - out) % 7 = j / 2 := by omega
  rw [hq, hr]
  have key : ∀ W : Nat, (W >>> j) &&& 1 = (words c >>> j) &&& 1 →
      (if j % 2 = 0 then mono_byte (W >>> (2 * (j / 2))) >>> 4
        else mono_byte (W >>> (2 * (j / 2))) &&& 0xF) =
      (if (words c >>> j) &&& 1 = 1 then 15 else 0) := by
    intro W hW
    have h01 : (words c >>> j) &&& 1 = 0 ∨ (words c >>> j) &&& 1 = 1 := by
      rw [Nat.and_one_is_mod]; omega
    by_cases par : j % 2 = 0
    · have e : 2 * (j / 2) = j := by omega
      rw [if_pos par, mono_byte_hi, e, hW]
      rcases h01 with h | h <;> rw [h] <;> rfl
    · have e : 2 * (j / 2) + 1 = j := by omega
      rw [if_neg par, mono_byte_lo, ← Nat.shiftRight_add, e, hW]
      rcases h01 with h | h <;> rw [h] <;> rfl
  by_cases c1 : c + 1 < 40
  · rw [if_pos c1]
    exact key _ (mono_bit _ _ j hj)
  · rw [if_neg c1]
    exact key _ rfl

/-- Witness of C26: the line whose words are all `0x2AAA` (the odd bits) has pixel 0
dark and pixel 1 lit. -/
theorem C26_render_line_monochrome_witness :
    line_pixel (_apple2e_render_line_monochrome (fun _ => 0) 0 (fun _ => 0x2AAA) 0 40) 0
      (14 * 0 + 0) = 0 ∧
    line_pixel (_apple2e_render_line_monochrome (fun _ => 0) 0 (fun _ => 0x2AAA) 0 40) 0
      (14 * 0 + 1) = 15 :=
  ⟨(C26_render_line_monochrome (fun _ => 0) 0 (fun _ => 0x2AAA) (fun _ _ => (by decide : (0x2AAA : Nat) < 2 ^ 14)) 0 0
      (by decide) (by decide)).1,
    (C26_render_line_monochrome (fun _ => 0) 0 (fun _ => 0x2AAA) (fun _ _ => (by decide : (0x2AAA : Nat) < 2 ^ 14)) 0 1
      (by decide) (by decide)).1⟩

/-! ## The colour line kernel -/

theorem render_color_pair_eq (out col : Nat) (is_80col : Bool) (b w : Nat) (a : Nat → Nat) :
    render_color_pair out col is_80col b (w, a) =
      (w >>> 1 >>> 1, fun j => if out + col * 7 + b * 1 ≤ j ∧ j < out + col * 7 + b * 1 + 1
        then color_byte col b (if is_80col then 1 else 0) w else a j) := by
  unfold render_color_pair
  simp only []
  rw [← Nat.add_assoc, store_block]
  rfl

theorem render_color_inner (out col : Nat) (is_80col : Bool) (w : Nat) (a : Nat → Nat) :
    loop (render_color_pair out col is_80col) 7 (w, a) =
      (w >>> 14, fun j => if out + col * 7 ≤ j ∧ j < out + col * 7 + 7
        then color_byte col (j - (out + col * 7)) (if is_80col then 1 else 0)
          (w >>> (2 * (j - (out + col * 7)))) else a j) := by
  rw [loop_blocks 1 (out + col * 7) (fun _ w => w >>> 1 >>> 1)
    (fun k w _ => color_byte col k (if is_80col then 1 else 0) w)
    (render_color_pair out col is_80col) (fun k w a => render_color_pair_eq out col is_80col k w a)]
  simp only [loop_shift2, Nat.div_one]

theorem render_color_col_eq (out : Nat) (words : Nat → Nat) (is_80col : Bool) (i w : Nat)
    (a : Nat → Nat) :
    render_color_col out words 0 is_80col i (w, a) =
      ((if i + 1 < 40 then (w + (words (i + 1) <<< 17) % 0x100000000) % 0x100000000 else w)
          >>> 14,
        fun j => if out + i * 7 ≤ j ∧ j < out + i * 7 + 7
          then color_byte i (j - (out + i * 7)) (if is_80col then 1 else 0)
            ((if i + 1 < 40 then (w + (words (i + 1) <<< 17) % 0x100000000) % 0x100000000
              else w) >>> (2 * (j - (out + i * 7)))) else a j) := by
  unfold render_color_col
  simp only [Nat.zero_add]
  rw [render_color_inner]

/-- The window with the next word added is `color_window`; the `+=` of the source
adds into bits that are all zero. -/
theorem color_window_add (words : Nat → Nat) (hw : ∀ c, c < 40 → words c < 2 ^ 14) (c : Nat)
    (hc : c < 40) :
    (if c + 1 < 40
      then (words c * 8 + (if c = 0 then 0 else words (c - 1)) / 2048 +
        (words (c + 1) <<< 17) % 0x100000000) % 0x100000000
      else words c * 8 + (if c = 0 then 0 else words (c - 1)) / 2048) = color_window words c := by
  unfold color_window
  have h0 := hw c hc
  have hp : (if c = 0 then 0 else words (c - 1)) < 2 ^ 14 := by
    split_ifs
    · decide
    · exact hw _ (by omega)
  by_cases c1 : c + 1 < 40
  · have h1 := hw _ c1
    rw [if_pos c1, if_pos c1, Nat.shiftLeft_eq]
    generalize (if c = 0 then 0 else words (c - 1)) = a at hp ⊢
    omega
  · rw [if_neg c1, if_neg c1, Nat.zero_mul, Nat.add_zero]

theorem color_window_loop (words : Nat → Nat) (hw : ∀ c, c < 40 → words c < 2 ^ 14) (c : Nat)
    (hc : c < 40) :
    loop (fun i w => (if i + 1 < 40 then (w + (words (i + 1) <<< 17) % 0x100000000) % 0x100000000
        else w) >>> 14) c ((words 0 <<< 3) % 0x100000000) =
      words c * 8 + (if c = 0 then 0 else words (c - 1)) / 2048 := by
  induction c with
  | zero =>
    show (words 0 <<< 3) % 0x100000000 = _
    have h0 := hw 0 hc
    rw [Nat.shiftLeft_eq, if_pos rfl]
    omega
  | succ c ih =>
    show (if c + 1 < 40 then _ else _) >>> 14 = _
    rw [ih (by omega), color_window_add words hw c (by omega)]
    unfold color_window
    have h0 := hw c (by omega)
    have h1 := hw _ hc
    have hp : (if c = 0 then 0 else words (c - 1)) < 2 ^ 14 := by
      split_ifs
      · decide
      · exact hw _ (by omega)
    rw [if_pos hc, if_neg (show ¬ c + 1 = 0 from by omega), Nat.add_sub_cancel,
      Nat.shiftRight_eq_div_pow]
    generalize (if c = 0 then 0 else words (c - 1)) = a at hp ⊢
    omega

/-- The bytes the colour kernel leaves in the framebuffer for a line of 40 words of 14
bits. -/
theorem render_line_color_eq (fb : Nat → Nat) (out : Nat) (words : Nat → Nat)
    (is_80col : Bool) (hw : ∀ c, c < 40 → words c < 2 ^ 14) (j : Nat) :
    _apple2e_render_line_color fb out words 0 40 is_80col j =
      if out ≤ j ∧ j < out + 280 then
        color_byte ((j - out) / 7) ((j - out) % 7) (if is_80col then 1 else 0)
          (color_window words ((j - out) / 7) >>> (2 * ((j - out) % 7)))
      else fb j := by
  unfold _apple2e_render_line_color
  rw [loop_blocks 7 out
    (fun i w => (if i + 1 < 40 then (w + (words (i + 1) <<< 17) % 0x100000000) % 0x100000000
      else w) >>> 14)
    (fun i w r => color_byte i r (if is_80col then 1 else 0)
      ((if i + 1 < 40 then (w + (words (i + 1) <<< 17) % 0x100000000) % 0x100000000
        else w) >>> (2 * r)))
    (render_color_col out words 0 is_80col)
    (fun k w a => render_color_col_eq out words is_80col k w a)]
  show (if out ≤ j ∧ j < out + (40 - 0) * 7 then _ else _) = _
  by_cases c : out ≤ j ∧ j < out + 280
  · have hq : (j - out) / 7 < 40 := by omega
    rw [if_pos c, if_pos c, color_window_loop words hw _ hq, color_window_add words hw _ hq]
  · rw [if_neg c, if_neg c]

theorem win_bit (a b d i : Nat) (ha : a < 2 ^ 14) (hb : b < 2 ^ 14) (hi : i < 20) :
    ((b * 8 + a / 2048 + d * 131072) >>> i) &&& 1 =
      if i < 3 then (a >>> (i + 11)) &&& 1
      else if i < 17 then (b >>> (i - 3)) &&& 1 else (d >>> (i - 17)) &&& 1 := by
  simp only [Nat.shiftRight_eq_div_pow, Nat.and_one_is_mod]
  interval_cases i <;> norm_num <;> omega

theorem and_7f_bits (x : Nat) :
    x &&& 0x7F = ((List.range 7).map (fun (k : Nat) => ((x >>> k) &&& 1) * 2 ^ k)).sum := by
  have e : x &&& 0x7F = x % 128 := Nat.and_pow_two_sub_one_eq_mod x 7
  have r : List.range 7 = [0, 1, 2, 3, 4, 5, 6] := rfl
  rw [e, r]
  simp only [List.map, List.sum_cons, List.sum_nil, Nat.shiftRight_eq_div_pow, Nat.and_one_is_mod]
  omega

theorem stream_bit_nat (words : Nat → Nat) (n : Nat) :
    stream_bit words ((n : Int) - 3) =
      if 3 ≤ n ∧ n < 563 then (words ((n - 3) / 14) >>> ((n - 3) % 14)) &&& 1 else 0 := by
  unfold stream_bit
  by_cases h : 3 ≤ n
  · have e : (n : Int) - 3 = ((n - 3 : Nat) : Int) := by omega
    rw [e, Int.toNat_ofNat]
    by_cases h2 : n < 563
    · rw [if_pos ⟨by omega, by omega⟩, if_pos ⟨h, h2⟩]
    · rw [if_neg (by omega), if_neg (by omega)]
  · rw [if_neg (by omega), if_neg (by omega)]

/-- Bit `i` of the window of column `c` is the stream bit `S[14c + i - 3]`. -/
theorem color_window_bit (words : Nat → Nat) (hw : ∀ c, c < 40 → words c < 2 ^ 14) (c i : Nat)
    (hc : c < 40) (hi : i < 20) :
    (color_window words c >>> i) &&& 1 = stream_bit words (((14 * c + i : Nat) : Int) - 3) := by
  have hp : (if c = 0 then 0 else words (c - 1)) < 2 ^ 14 := by
    split_ifs
    · decide
    · exact hw _ (by omega)
  rw [stream_bit_nat]
  unfold color_window
  rw [win_bit _ _ _ i hp (hw c hc) hi]
  by_cases c1 : i < 3
  · rw [if_pos c1]
    by_cases c0 : c = 0
    · rw [if_pos c0, if_neg (by omega), Nat.zero_shiftRight]
      rfl
    · rw [if_neg c0, if_pos ⟨by omega, by omega⟩]
      have e1 : (14 * c + i - 3) / 14 = c - 1 := by omega
      have e2 : (14 * c + i - 3) % 14 = i + 11 := by omega
      rw [e1, e2]
  · rw [if_neg c1]
    by_cases c2 : i < 17
    · rw [if_pos c2, if_pos ⟨by omega, by omega⟩]
      have e1 : (14 * c + i - 3) / 14 = c := by omega
      have e2 : (14 * c + i - 3) % 14 = i - 3 := by omega
      rw [e1, e2]
    · rw [if_neg c2]
      by_cases c3 : c + 1 < 40
      · rw [if_pos c3, if_pos ⟨by omega, by omega⟩]
        have e1 : (14 * c + i - 3) / 14 = c + 1 := by omega
        have e2 : (14 * c + i - 3) % 14 = i - 17 := by omega
        rw [e1, e2]
      · rw [if_neg c3, if_neg (by omega), Nat.zero_shiftRight]
        rfl

/-- The seven bits the colour kernel looks up for pixel `14c + t` are the stream
window around that pixel. -/
theorem color_window_lookup (words : Nat → Nat) (hw : ∀ c, c < 40 → words c < 2 ^ 14)
    (c t : Nat) (hc : c < 40) (ht : t < 14) :
    (color_window words c >>> t) &&& 0x7F = stream_window words (14 * c + t) := by
  have r : List.range 7 = [0, 1, 2, 3, 4, 5, 6] := rfl
  have cast : ∀ k : Nat, ((14 * c + t : Nat) : Int) - 3 + (k : Int) =
      ((14 * c + (t + k) : Nat) : Int) - 3 := by
    intro k; push_cast; omega
  rw [and_7f_bits, stream_window, r]
  simp only [List.map, ← Nat.shiftRight_add, cast]
  rw [color_window_bit words hw c (t + 0) hc (by omega),
    color_window_bit words hw c (t + 1) hc (by omega),
    color_window_bit words hw c (t + 2) hc (by omega),
    color_window_bit words hw c (t + 3) hc (by omega),
    color_window_bit words hw c (t + 4) hc (by omega),
    color_window_bit words hw c (t + 5) hc (by omega),
    color_window_bit words hw c (t + 6) hc (by omega)]

theorem lut_table : ∀ i, i < 128 →
    _apple2e_artifact_color_lut i =
      ((_apple2e_artifact_color_lut i &&& 0xF) * 0x11) % 0x100000000 ∧
    _apple2e_artifact_color_lut i &&& 0xF < 16 := by
  decide

/-- On a table entry, `_apple2e_rotl4b` is the 4-bit left rotation of the entry's
colour. -/
theorem lut_rotl4b (i n : Nat) (hi : i < 128) :
    _apple2e_rotl4b (_apple2e_artifact_color_lut i) n =
      spec_rotl4 (_apple2e_artifact_color_lut i &&& 0xF) (n % 4) := by
  obtain ⟨e1, e2⟩ := lut_table i hi
  rw [← rotl4_eq_spec _ n e2]
  unfold _apple2e_rotl4
  rw [← e1]

theorem rotl4b_lt (x n : Nat) : _apple2e_rotl4b x n < 16 := by
  unfold _apple2e_rotl4b
  exact Nat.lt_of_le_of_lt Nat.and_le_right (by decide)

theorem nibble_pack : ∀ c1, c1 < 16 → ∀ d, d < 16 →
    (((c1 <<< 4) ||| d) % 256) >>> 4 = c1 ∧ (((c1 <<< 4) ||| d) % 256) &&& 0xF = d := by
  decide

theorem color_byte_hi (col b off w : Nat) :
    color_byte col b off w >>> 4 =
      _apple2e_rotl4b (_apple2e_artifact_color_lut (w &&& 0x7F)) (col * 14 + b * 2 + off) := by
  unfold color_byte
  have h1 := rotl4b_lt (_apple2e_artifact_color_lut (w &&& 0x7F)) (col * 14 + b * 2 + off)
  rw [Nat.mod_eq_of_lt (a := _apple2e_rotl4b (_apple2e_artifact_color_lut (w &&& 0x7F))
    (col * 14 + b * 2 + off)) (by omega)]
  exact (nibble_pack _ h1 _ (Nat.lt_of_le_of_lt Nat.and_le_right (by decide))).1

theorem color_byte_lo (col b off w : Nat) :
    color_byte col b off w &&& 0xF =
      _apple2e_rotl4b (_apple2e_artifact_color_lut ((w >>> 1) &&& 0x7F))
        (col * 14 + b * 2 + 1 + off) := by
  unfold color_byte
  have h1 := rotl4b_lt (_apple2e_artifact_color_lut (w &&& 0x7F)) (col * 14 + b * 2 + off)
  have h2 := rotl4b_lt (_apple2e_artifact_color_lut ((w >>> 1) &&& 0x7F))
    (col * 14 + b * 2 + 1 + off)
  rw [Nat.mod_eq_of_lt (a := _apple2e_rotl4b (_apple2e_artifact_color_lut (w &&& 0x7F))
    (col * 14 + b * 2 + off)) (by omega),
    Nat.mod_eq_of_lt (a := _apple2e_rotl4b (_apple2e_artifact_color_lut ((w >>> 1) &&& 0x7F))
    (col * 14 + b * 2 + 1 + off)) (by omega)]
  have e : ∀ x, x < 16 → x &&& 0xF = x := by decide
  rw [e _ h2]
  exact (nibble_pack _ h1 _ h2).2

theorem and_7f_lt (x : Nat) : x &&& 0x7F < 128 :=
  Nat.lt_of_le_of_lt Nat.and_le_right (by decide)

/-- Pixel `p` of a line drawn by the colour kernel. -/
theorem render_line_color_pixel (fb : Nat → Nat) (out : Nat) (words : Nat → Nat)
    (is_80col : Bool) (hw : ∀ c, c < 40 → words c < 2 ^ 14) (p : Nat) (hp : p < 560) :
    line_pixel (_apple2e_render_line_color fb out words 0 40 is_80col) out p =
      spec_rotl4 (_apple2e_artifact_color_lut (stream_window words p) &&& 0xF)
        ((p + (if is_80col then 1 else 0)) % 4) := by
  have hc : p / 14 < 40 := by omega
  have ht : p % 14 < 14 := by omega
  have hq : (out + p / 2 - out) / 7 = p / 14 := by omega
  have hr : (out + p / 2 - out) % 7 = p % 14 / 2 := by omega
  have hwin := color_window_lookup words hw (p / 14) (p % 14) hc ht
  have hpe : 14 * (p / 14) + p % 14 = p := by omega
  rw [hpe] at hwin
  unfold line_pixel
  rw [render_line_color_eq fb out words is_80col hw,
    if_pos (show out ≤ out + p / 2 ∧ out + p / 2 < out + 280 from ⟨by omega, by omega⟩),
    hq, hr]
  by_cases par : p % 2 = 0
  · have e : 2 * (p % 14 / 2) = p % 14 := by omega
    have en : p / 14 * 14 + p % 14 / 2 * 2 + (if is_80col then 1 else 0) =
        p + (if is_80col then 1 else 0) := by omega
    rw [if_pos par, color_byte_hi, e, hwin, en, lut_rotl4b _ _ (by rw [← hwin]; exact and_7f_lt _)]
  · have e : 2 * (p % 14 / 2) + 1 = p % 14 := by omega
    have en : p / 14 * 14 + p % 14 / 2 * 2 + 1 + (if is_80col then 1 else 0) =
        p + (if is_80col then 1 else 0) := by omega
    rw [if_neg par, color_byte_lo, ← Nat.shiftRight_add, e, hwin, en,
      lut_rotl4b _ _ (by rw [← hwin]; exact and_7f_lt _)]

/-- The window on entry to column `c` has bits 17 and up clear, so adding the next
word shifted by 17 is the same as OR-ing it in. -/
theorem color_window_no_carry (fb : Nat → Nat) (out : Nat) (words : Nat → Nat) (is_80col : Bool)
    (hw : ∀ c, c < 40 → words c < 2 ^ 14) (c : Nat) (hc : c + 1 < 40) :
    ((loop (render_color_col out words 0 is_80col) c
        ((words 0 <<< 3) % 0x100000000, fb)).1 +
      (words (c + 1) <<< 17) % 0x100000000) % 0x100000000 =
    (loop (render_color_col out words 0 is_80col) c
        ((words 0 <<< 3) % 0x100000000, fb)).1 ||| (words (c + 1) <<< 17) := by
  rw [loop_blocks 7 out
    (fun i w => (if i + 1 < 40 then (w + (words (i + 1) <<< 17) % 0x100000000) % 0x100000000
      else w) >>> 14)
    (fun i w r => color_byte i r (if is_80col then 1 else 0)
      ((if i + 1 < 40 then (w + (words (i + 1) <<< 17) % 0x100000000) % 0x100000000
        else w) >>> (2 * r)))
    (render_color_col out words 0 is_80col)
    (fun k w a => render_color_col_eq out words is_80col k w a)]
  show (loop _ c _ + _) % _ = loop _ c _ ||| _
  rw [color_window_loop words hw c (by omega)]
  have h0 := hw c (by omega)
  have h1 := hw _ hc
  have hp : (if c = 0 then 0 else words (c - 1)) < 2 ^ 14 := by
    split_ifs
    · decide
    · exact hw _ (by omega)
  generalize (if c = 0 then 0 else words (c - 1)) = a at hp ⊢
  have hlt : words c * 8 + a / 2048 < 2 ^ 17 := by omega
  rw [Nat.lor_comm, Nat.shiftLeft_eq, Nat.mul_comm (words (c + 1)), ← Nat.mul_add_lt_is_or hlt,
    Nat.mod_eq_of_lt (a := 2 ^ 17 * words (c + 1)) (by omega), Nat.mod_eq_of_lt (by omega)]
  omega

/-- C27: for every array `in[0..39]` of words each below `2^14`, with `S` the 560-bit
stream `S[14c + j] = bit j of in[c]` (`0` outside `0..559`), the kernel
`_apple2e_render_line_color(out, in, 0, 40, off)` writes as pixel `p < 560` (high
nibble of `out[p/2]` for even `p`, low nibble for odd `p`) the 4-bit left rotation by
`p + off` of the 4-bit colour of `LUT[sum over k in 0..6 of S[p - 3 + k] * 2^k]`,
with `off = 1` for double hi-res and `0` for single hi-res; and the `+=` that loads
the next column's word gives what `|=` would give: it never carries into the
window. -/
theorem C27_render_line_color (fb : Nat → Nat) (out : Nat) (words : Nat → Nat)
    (is_80col : Bool) (hw : ∀ c, c < 40 → words c < 2 ^ 14) :
    (∀ p, p < 560 →
      (if p % 2 = 0 then _apple2e_render_line_color fb out words 0 40 is_80col (out + p / 2) >>> 4
        else _apple2e_render_line_color fb out words 0 40 is_80col (out + p / 2) &&& 0xF) =
      spec_rotl4 (_apple2e_artifact_color_lut (stream_window words p) &&& 0xF)
        ((p + (if is_80col then 1 else 0)) % 4)) ∧
    (∀ c, c + 1 < 40 →
      ((loop (render_color_col out words 0 is_80col) c
          ((words 0 <<< 3) % 0x100000000, fb)).1 +
        (words (c + 1) <<< 17) % 0x100000000) % 0x100000000 =
      (loop (render_color_col out words 0 is_80col) c
          ((words 0 <<< 3) % 0x100000000, fb)).1 ||| (words (c + 1) <<< 17)) :=
  ⟨fun p hp => render_line_color_pixel fb out words is_80col hw p hp,
    fun c hc => color_window_no_carry fb out words is_80col hw c hc⟩

/-- Witness of C27: in single hi-res, on the line whose words are all `0x3FFF` (all
lit), pixel 5 sees the window `0x7F`, whose colour is `0xF`. -/
theorem C27_render_line_color_witness :
    (_apple2e_render_line_color (fun _ => 0) 0 (fun _ => 0x3FFF) 0 40 false (0 + 5 / 2)) &&& 0xF =
      spec_rotl4 (_apple2e_artifact_color_lut (stream_window (fun _ => 0x3FFF) 5) &&& 0xF)
        ((5 + 0) % 4) ∧
    stream_window (fun _ => 0x3FFF) 5 = 0x7F ∧
    spec_rotl4 (_apple2e_artifact_color_lut 0x7F &&& 0xF) ((5 + 0) % 4) = 0xF :=
  ⟨(C27_render_line_color (fun _ => 0) 0 (fun _ => 0x3FFF) false
      (fun _ _ => (by decide : (0x3FFF : Nat) < 2 ^ 14))).1 5 (by decide),
    by decide, by decide⟩

/-! ## The word loop of the single hi-res renderer -/

/-- The word `w` of `_apple2e_hgr_update` for the source byte `v` and the delay bit
`last`. -/
theorem store_block0 (a : Nat → Nat) (col W : Nat) :
    store a col W = fun j => if 0 + col * 1 ≤ j ∧ j < 0 + col * 1 + 1 then W else a j := by
  funext j
  unfold store
  by_cases c : j = col
  · rw [if_pos c, if_pos (by omega)]
  · rw [if_neg c, if_neg (by omega)]

theorem hgr_word_step_eq (vram_row : Nat → Nat) (col last : Nat) (a : Nat → Nat) :
    hgr_word_step vram_row col (last, a) =
      ((if vram_row col &&& 0x80 ≠ 0
          then (((_apple2e_double_7_bits (vram_row col &&& 0x7F) <<< 1) ||| last) &&& 0x3FFF)
          else _apple2e_double_7_bits (vram_row col &&& 0x7F)) >>> 13,
        fun j => if 0 + col * 1 ≤ j ∧ j < 0 + col * 1 + 1
          then (if vram_row col &&& 0x80 ≠ 0
            then (((_apple2e_double_7_bits (vram_row col &&& 0x7F) <<< 1) ||| last) &&& 0x3FFF)
            else _apple2e_double_7_bits (vram_row col &&& 0x7F))
          else a j) := by
  unfold hgr_word_step
  simp only []
  rw [store_block0]

theorem hgr_word_lt (x last : Nat) :
    (if x &&& 0x80 ≠ 0
      then (((_apple2e_double_7_bits (x &&& 0x7F) <<< 1) ||| last) &&& 0x3FFF)
      else _apple2e_double_7_bits (x &&& 0x7F)) < 2 ^ 14 := by
  split_ifs
  · exact Nat.lt_of_le_of_lt Nat.and_le_right (by decide)
  · exact (double_7_bits_table _ (and_7f_lt x)).1

theorem hgr_words_eq (v : Nat → Nat) (c : Nat) (hc : c < 40) :
    hgr_words v c =
      (if v c &&& 0x80 ≠ 0
        then (((_apple2e_double_7_bits (v c &&& 0x7F) <<< 1) |||
          (if c = 0 then 0 else hgr_words v (c - 1) >>> 13)) &&& 0x3FFF)
        else _apple2e_double_7_bits (v c &&& 0x7F)) := by
  have key : ∀ n, n < 40 → hgr_words v n =
      (if v n &&& 0x80 ≠ 0
        then (((_apple2e_double_7_bits (v n &&& 0x7F) <<< 1) |||
          loop (fun col last => (if v col &&& 0x80 ≠ 0
            then (((_apple2e_double_7_bits (v col &&& 0x7F) <<< 1) ||| last) &&& 0x3FFF)
            else _apple2e_double_7_bits (v col &&& 0x7F)) >>> 13) n 0) &&& 0x3FFF)
        else _apple2e_double_7_bits (v n &&& 0x7F)) := by
    intro n hn
    unfold hgr_words
    rw [loop_blocks 1 0
      (fun col last => (if v col &&& 0x80 ≠ 0
          then (((_apple2e_double_7_bits (v col &&& 0x7F) <<< 1) ||| last) &&& 0x3FFF)
          else _apple2e_double_7_bits (v col &&& 0x7F)) >>> 13)
      (fun col last _ => if v col &&& 0x80 ≠ 0
          then (((_apple2e_double_7_bits (v col &&& 0x7F) <<< 1) ||| last) &&& 0x3FFF)
          else _apple2e_double_7_bits (v col &&& 0x7F))
      (hgr_word_step v) (fun k w a => hgr_word_step_eq v k w a)]
    simp only [Nat.sub_zero, Nat.div_one]
    rw [if_pos (show 0 ≤ n ∧ n < 0 + 40 * 1 from ⟨by omega, by omega⟩)]
  have hl : loop (fun col last => (if v col &&& 0x80 ≠ 0
        then (((_apple2e_double_7_bits (v col &&& 0x7F) <<< 1) ||| last) &&& 0x3FFF)
        else _apple2e_double_7_bits (v col &&& 0x7F)) >>> 13) c 0 =
      if c = 0 then 0 else hgr_words v (c - 1) >>> 13 := by
    cases c with
    | zero => rfl
    | succ c =>
      rw [if_neg (Nat.succ_ne_zero c), Nat.add_sub_cancel, key c (by omega)]
      rfl
  rw [key c hc, hl]

theorem hgr_words_lt (v : Nat → Nat) (c : Nat) (hc : c < 40) : hgr_words v c < 2 ^ 14 := by
  rw [hgr_words_eq v c hc]
  exact hgr_word_lt _ _

theorem bit13 (x : Nat) (h : x < 2 ^ 14) : x >>> 13 = (x >>> 13) &&& 1 := by
  rw [Nat.shiftRight_eq_div_pow, Nat.and_one_is_mod]
  omega

/-- C28: in `_apple2e_hgr_update`, for every column `c` in `0..39` with source byte
`v`, the 14-bit input word is `words[c] = pixel_double(v & 0x7F)` when bit 7 of `v`
is clear, and `((pixel_double(v & 0x7F) << 1) | d) & 0x3FFF` when bit 7 of `v` is
set, where `d` is bit 13 of `words[c-1]` (`d = 0` for `c = 0`); every `words[c]` is
below `2^14`. -/
theorem C28_hgr_words (v : Nat → Nat) (c : Nat) (hc : c < 40) :
    (v c &&& 0x80 = 0 → hgr_words v c = _apple2e_double_7_bits (v c &&& 0x7F)) ∧
    (v c &&& 0x80 ≠ 0 →
      hgr_words v c =
        ((_apple2e_double_7_bits (v c &&& 0x7F) <<< 1) |||
          (if c = 0 then 0 else (hgr_words v (c - 1) >>> 13) &&& 1)) &&& 0x3FFF) ∧
    hgr_words v c < 2 ^ 14 := by
  refine ⟨?_, ?_, hgr_words_lt v c hc⟩
  · intro h
    rw [hgr_words_eq v c hc, if_neg (not_not.mpr h)]
  · intro h
    rw [hgr_words_eq v c hc, if_pos h]
    cases c with
    | zero => rw [if_pos (rfl : (0 : Nat) = 0), if_pos (rfl : (0 : Nat) = 0)]
    | succ c =>
      rw [if_neg (Nat.succ_ne_zero c), if_neg (Nat.succ_ne_zero c), Nat.add_sub_cancel,
        ← bit13 _ (hgr_words_lt v c (by omega))]

/-- Witness of C28: on the row whose bytes are all `0xFF`, column 0 gets
`(0x3FFF << 1) & 0x3FFF = 0x3FFE`; on the row whose bytes are all `0x55`, column 7
gets `pixel_double(0x55) = 0x3333`. -/
theorem C28_hgr_words_witness :
    hgr_words (fun _ => 0xFF) 0 = 0x3FFE ∧ hgr_words (fun _ => 0x55) 7 = 0x3333 :=
  ⟨((C28_hgr_words (fun _ => 0xFF) 0 (by decide)).2.1 (by decide)).trans (by decide),
    ((C28_hgr_words (fun _ => 0x55) 7 (by decide)).1 (by decide)).trans (by decide)⟩

/-! ## The renderers: what they keep and what they clear -/

theorem text_update_clean (s : apple2e_t) (b e : Nat) (h : text_clean s = true) :
    _apple2e_text_update s b e = s := by
  unfold _apple2e_text_update
  rw [if_pos h]

theorem lores_update_clean (s : apple2e_t) (b e : Nat) (h : text_clean s = true) :
    _apple2e_lores_update s b e = s := by
  unfold _apple2e_lores_update
  rw [if_pos h]

theorem hgr_update_clean (s : apple2e_t) (b e : Nat) (h : hires_clean s = true) :
    _apple2e_hgr_update s b e = s := by
  unfold _apple2e_hgr_update
  rw [if_pos h]

theorem dhgr_update_clean (s : apple2e_t) (b e : Nat) (h : hires_clean s = true) :
    _apple2e_dhgr_update s b e = s := by
  unfold _apple2e_dhgr_update
  rw [if_pos h]

theorem text_update_props (s : apple2e_t) (b e : Nat) :
    render_mode (_apple2e_text_update s b e) = render_mode s ∧
    text_clean (_apple2e_text_update s b e) = true ∧
    hires_clean (_apple2e_text_update s b e) = hires_clean s := by
  unfold _apple2e_text_update
  by_cases c : text_clean s = true
  · rw [if_pos c]; exact ⟨rfl, c, rfl⟩
  · rw [if_neg c]
    cases hp : s.page2 <;> simp [render_mode, text_clean, hires_clean, hp]

theorem lores_update_props (s : apple2e_t) (b e : Nat) :
    render_mode (_apple2e_lores_update s b e) = render_mode s ∧
    text_clean (_apple2e_lores_update s b e) = true ∧
    hires_clean (_apple2e_lores_update s b e) = hires_clean s := by
  unfold _apple2e_lores_update
  by_cases c : text_clean s = true
  · rw [if_pos c]; exact ⟨rfl, c, rfl⟩
  · rw [if_neg c]
    cases hp : s.page2 <;> simp [render_mode, text_clean, hires_clean, hp]

theorem hgr_update_props (s : apple2e_t) (b e : Nat) :
    render_mode (_apple2e_hgr_update s b e) = render_mode s ∧
    hires_clean (_apple2e_hgr_update s b e) = true ∧
    text_clean (_apple2e_hgr_update s b e) = text_clean s := by
  unfold _apple2e_hgr_update
  by_cases c : hires_clean s = true
  · rw [if_pos c]; exact ⟨rfl, c, rfl⟩
  · rw [if_neg c]
    cases hp : s.page2 <;> simp [render_mode, text_clean, hires_clean, hp]

theorem dhgr_update_props (s : apple2e_t) (b e : Nat) :
    render_mode (_apple2e_dhgr_update s b e) = render_mode s ∧
    hires_clean (_apple2e_dhgr_update s b e) = true ∧
    text_clean (_apple2e_dhgr_update s b e) = text_clean s := by
  unfold _apple2e_dhgr_update
  by_cases c : hires_clean s = true
  · rw [if_pos c]; exact ⟨rfl, c, rfl⟩
  · rw [if_neg c]
    cases hp : s.page2 <;> simp [render_mode, text_clean, hires_clean, hp]

theorem render_mode_fields (a b : apple2e_t) (h : render_mode a = render_mode b) :
    a.text = b.text ∧ a.mixed = b.mixed ∧ a.hires = b.hires ∧ a.dhires = b.dhires ∧
    a._80col = b._80col ∧ a.page2 = b.page2 ∧ a._80store = b._80store := by
  simpa [render_mode] using h

/-- In text mode `apple2e_screen_update` is the text renderer over rows `0..191`. -/
theorem screen_update_text (s : apple2e_t) (h : s.text = true) :
    apple2e_screen_update s = _apple2e_text_update s 0 191 := by
  unfold apple2e_screen_update
  simp only [h, Bool.not_true, Bool.false_eq_true, if_false]
  rw [if_pos (by decide)]

/-- In mixed mode `apple2e_screen_update` is the graphics renderer over rows `0..159`
followed by the text renderer over rows `160..191`. -/
theorem screen_update_mixed (s : apple2e_t) (h : s.text = false) (hm : s.mixed = true) :
    apple2e_screen_update s = _apple2e_text_update (graphics_update s 159) 160 191 := by
  unfold apple2e_screen_update graphics_update
  simp only [h, hm, Bool.not_false, if_true]
  rw [if_pos (by decide)]

/-- In full-screen graphics mode `apple2e_screen_update` is the graphics renderer over
rows `0..191`. -/
theorem screen_update_full (s : apple2e_t) (h : s.text = false) (hm : s.mixed = false) :
    apple2e_screen_update s = graphics_update s 191 := by
  unfold apple2e_screen_update graphics_update
  simp only [h, hm, Bool.not_false, if_true, Bool.false_eq_true, if_false]
  rw [if_neg (by decide)]

theorem graphics_update_props (s : apple2e_t) (e : Nat) :
    render_mode (graphics_update s e) = render_mode s ∧
    (s.hires = false → text_clean (graphics_update s e) = true) ∧
    (s.hires = true →
      hires_clean (graphics_update s e) = true ∧
      text_clean (graphics_update s e) = text_clean s) := by
  unfold graphics_update
  by_cases hh : s.hires = true
  · rw [if_pos hh]
    by_cases hd : (s.dhires && s._80col) = true
    · rw [if_pos hd]
      obtain ⟨p1, p2, p3⟩ := dhgr_update_props s 0 e
      exact ⟨p1, fun h => absurd hh (by rw [h]; decide), fun _ => ⟨p2, p3⟩⟩
    · rw [if_neg hd]
      obtain ⟨p1, p2, p3⟩ := hgr_update_props s 0 e
      exact ⟨p1, fun h => absurd hh (by rw [h]; decide), fun _ => ⟨p2, p3⟩⟩
  · rw [if_neg hh]
    obtain ⟨p1, p2, -⟩ := lores_update_props s 0 e
    exact ⟨p1, fun _ => p2, fun h => absurd h hh⟩

theorem graphics_update_clean (s : apple2e_t) (e : Nat)
    (h1 : s.hires = false → text_clean s = true)
    (h2 : s.hires = true → hires_clean s = true) : graphics_update s e = s := by
  unfold graphics_update
  by_cases hh : s.hires = true
  · rw [if_pos hh]
    by_cases hd : (s.dhires && s._80col) = true
    · rw [if_pos hd]
      exact dhgr_update_clean s 0 e (h2 hh)
    · rw [if_neg hd]
      exact hgr_update_clean s 0 e (h2 hh)
  · rw [if_neg hh]
    exact lores_update_clean s 0 e (h1 (by simpa using hh))

/-- After `apple2e_screen_update` the mode flags are as before and every renderer the
mode selects finds its dirty flag clear. -/
theorem screen_update_props (s : apple2e_t) :
    render_mode (apple2e_screen_update s) = render_mode s ∧
    (s.text = true ∨ s.mixed = true → text_clean (apple2e_screen_update s) = true) ∧
    (s.text = false → s.hires = false → text_clean (apple2e_screen_update s) = true) ∧
    (s.text = false → s.hires = true → hires_clean (apple2e_screen_update s) = true) := by
  by_cases ht : s.text = true
  · rw [screen_update_text s ht]
    obtain ⟨q1, q2, -⟩ := text_update_props s 0 191
    exact ⟨q1, fun _ => q2, fun h => absurd ht (by rw [h]; decide),
      fun h => absurd ht (by rw [h]; decide)⟩
  · have ht' : s.text = false := by simpa using ht
    by_cases hm : s.mixed = true
    · rw [screen_update_mixed s ht' hm]
      obtain ⟨p1, p2, p3⟩ := graphics_update_props s 159
      obtain ⟨q1, q2, q3⟩ := text_update_props (graphics_update s 159) 160 191
      exact ⟨q1.trans p1, fun _ => q2, fun _ _ => q2, fun _ hh => q3.trans (p3 hh).1⟩
    · have hm' : s.mixed = false := by simpa using hm
      rw [screen_update_full s ht' hm']
      obtain ⟨p1, p2, p3⟩ := graphics_update_props s 191
      refine ⟨p1, fun h => ?_, fun _ hh => p2 hh, fun _ hh => (p3 hh).1⟩
      rcases h with h | h
      · exact absurd h ht
      · exact absurd h hm

/-- A state in which every renderer the mode selects finds its dirty flag clear is
left as it is by `apple2e_screen_update`. -/
theorem screen_update_fix (t : apple2e_t)
    (h1 : t.text = true ∨ t.mixed = true → text_clean t = true)
    (h2 : t.text = false → t.hires = false → text_clean t = true)
    (h3 : t.text = false → t.hires = true → hires_clean t = true) :
    apple2e_screen_update t = t := by
  by_cases ht : t.text = true
  · rw [screen_update_text t ht]
    exact text_update_clean t 0 191 (h1 (Or.inl ht))
  · have ht' : t.text = false := by simpa using ht
    have g : ∀ e, graphics_update t e = t :=
      fun e => graphics_update_clean t e (h2 ht') (h3 ht')
    by_cases hm : t.mixed = true
    · rw [screen_update_mixed t ht' hm, g 159]
      exact text_update_clean t 160 191 (h1 (Or.inr hm))
    · have hm' : t.mixed = false := by simpa using hm
      rw [screen_update_full t ht' hm']
      exact g 191

/-- C22: `apple2e_screen_update` is idempotent: for every machine state `s`, applying
it twice in a row gives exactly the state (framebuffer, dirty flags and every other
field) that applying it once gives. -/
theorem C22_screen_update_idempotent (s : apple2e_t) :
    apple2e_screen_update (apple2e_screen_update s) = apple2e_screen_update s := by
  obtain ⟨p1, p2, p3, p4⟩ := screen_update_props s
  obtain ⟨e1, e2, e3, -⟩ := render_mode_fields _ _ p1
  apply screen_update_fix
  · rw [e1, e2]; exact p2
  · rw [e1, e3]; exact p3
  · rw [e1, e3]; exact p4

/-! ## The lo-res renderer -/

theorem loop_fill_lt (m base : Nat) (h : Nat → Nat → Nat)
    (body : Nat → (Nat → Nat) → (Nat → Nat)) (n : Nat)
    (hbody : ∀ k, k < n → ∀ a, body k a =
      fun j => if base + k * m ≤ j ∧ j < base + k * m + m
        then h k (j - (base + k * m)) else a j)
    (a0 : Nat → Nat) :
    loop body n a0 =
      fun j => if base ≤ j ∧ j < base + n * m
        then h ((j - base) / m) ((j - base) % m) else a0 j := by
  induction n with
  | zero =>
    show a0 = _
    funext j
    rw [if_neg (by omega)]
  | succ n ih =>
    show body n (loop body n a0) = _
    rw [ih (fun k hk => hbody k (by omega)), hbody n (by omega)]
    funext j
    have e : base + (n + 1) * m = base + n * m + m := by rw [Nat.succ_mul]; omega
    by_cases c : base + n * m ≤ j ∧ j < base + n * m + m
    · obtain ⟨e1, e2⟩ := block_index base m n j c.1 c.2
      rw [if_pos c, if_pos ⟨by omega, by omega⟩, e1, e2]
    · rw [if_neg c]
      by_cases c2 : base ≤ j ∧ j < base + n * m
      · rw [if_pos c2, if_pos ⟨c2.1, by omega⟩]
      · rw [if_neg c2, if_neg (by omega)]

/-- A loop that writes `m` bytes under a cursor and advances it. -/
theorem loop_cursor (m : Nat) (h : Nat → Nat → Nat)
    (body : Nat → Nat × (Nat → Nat) → Nat × (Nat → Nat))
    (hbody : ∀ k p a, body k (p, a) =
      (p + m, fun j => if p ≤ j ∧ j < p + m then h k (j - p) else a j))
    (n p0 : Nat) (a0 : Nat → Nat) :
    loop body n (p0, a0) =
      (p0 + n * m, fun j => if p0 ≤ j ∧ j < p0 + n * m
        then h ((j - p0) / m) ((j - p0) % m) else a0 j) := by
  induction n with
  | zero =>
    show (p0, a0) = _
    congr 1
    · omega
    · funext j
      rw [if_neg (by omega)]
  | succ n ih =>
    show body n (loop body n (p0, a0)) = _
    rw [ih, hbody]
    have e : p0 + (n + 1) * m = p0 + n * m + m := by rw [Nat.succ_mul]; omega
    congr 1
    · exact e.symm
    · funext j
      by_cases c : p0 + n * m ≤ j ∧ j < p0 + n * m + m
      · obtain ⟨e1, e2⟩ := block_index p0 m n j c.1 c.2
        rw [if_pos c, if_pos ⟨by omega, by omega⟩, e1, e2]
      · rw [if_neg c]
        by_cases c2 : p0 ≤ j ∧ j < p0 + n * m
        · rw [if_pos c2, if_pos ⟨c2.1, by omega⟩]
        · rw [if_neg c2, if_neg (by omega)]

theorem lores_put_eq (hi lo p : Nat) (a : Nat → Nat) :
    lores_put hi lo (p, a) =
      (p + 1, fun j => if p ≤ j ∧ j < p + 1 then nib_byte hi lo else a j) := by
  unfold lores_put
  simp only []
  congr 1
  funext j
  unfold store nib_byte
  by_cases c : j = p
  · rw [if_pos c, if_pos rfl, if_pos (show p ≤ j ∧ j < p + 1 from ⟨by omega, by omega⟩)]
  · rw [if_neg c, if_neg c, if_neg (show ¬ (p ≤ j ∧ j < p + 1) from by omega)]

theorem lores_puts (hi lo n p : Nat) (a : Nat → Nat) :
    loop (fun _ st => lores_put hi lo st) n (p, a) =
      (p + n, fun j => if p ≤ j ∧ j < p + n then nib_byte hi lo else a j) := by
  rw [loop_cursor 1 (fun _ _ => nib_byte hi lo) (fun _ st => lores_put hi lo st)
    (fun _ p a => lores_put_eq hi lo p a)]
  simp only [Nat.mul_one]

theorem lores_col_eq (sys : apple2e_t) (_double : Bool) (address row col p : Nat)
    (a : Nat → Nat) :
    lores_col sys _double address row col (p, a) =
      (p + 7, fun j => if p ≤ j ∧ j < p + 7
        then lores_byte sys _double address row col (j - p) else a j) := by
  unfold lores_col
  cases _double
  · simp only [Bool.false_eq_true, if_false]
    rw [lores_puts]
    rfl
  · simp only [if_true]
    rw [lores_puts, lores_put_eq, lores_puts]
    congr 1
    funext j
    unfold lores_byte
    simp only [if_true]
    by_cases c1 : p ≤ j ∧ j < p + 3
    · rw [if_neg (show ¬ (p + 3 + 1 ≤ j ∧ j < p + 3 + 1 + 3) from by omega),
        if_neg (show ¬ (p + 3 ≤ j ∧ j < p + 3 + 1) from by omega), if_pos c1,
        if_pos (show p ≤ j ∧ j < p + 7 from by omega),
        if_pos (show j - p < 3 from by omega)]
    · by_cases c2 : p + 3 ≤ j ∧ j < p + 3 + 1
      · rw [if_neg (show ¬ (p + 3 + 1 ≤ j ∧ j < p + 3 + 1 + 3) from by omega),
          if_pos c2, if_pos (show p ≤ j ∧ j < p + 7 from by omega),
          if_neg (show ¬ j - p < 3 from by omega), if_pos (show j - p = 3 from by omega)]
      · by_cases c3 : p + 3 + 1 ≤ j ∧ j < p + 3 + 1 + 3
        · rw [if_pos c3, if_pos (show p ≤ j ∧ j < p + 7 from by omega),
            if_neg (show ¬ j - p < 3 from by omega), if_neg (show ¬ j - p = 3 from by omega)]
        · rw [if_neg c3, if_neg c2, if_neg c1,
            if_neg (show ¬ (p ≤ j ∧ j < p + 7) from by omega)]

theorem get_fb_addr_eq (row : Nat) (h : row < 0x10000) : _apple2e_get_fb_addr row = row * 280 := by
  unfold _apple2e_get_fb_addr
  rw [Nat.mod_eq_of_lt h]
  rfl

/-- One lo-res row on its own: the 280 bytes the column loop writes. -/
theorem lores_line_eq (sys : apple2e_t) (_double : Bool) (address row p : Nat) (a : Nat → Nat) :
    (loop (lores_col sys _double address row) 40 (p, a)).2 =
      fun j => if p ≤ j ∧ j < p + 280
        then lores_byte sys _double address row ((j - p) / 7) ((j - p) % 7) else a j := by
  rw [loop_cursor 7 (fun col k => lores_byte sys _double address row col k)
    (lores_col sys _double address row)
    (fun col p a => lores_col_eq sys _double address row col p a)]

/-- One pass of the row loop of the lo-res renderer fills the four framebuffer rows of
the cell with the same 280 bytes. -/
theorem lores_row_eq (sys : apple2e_t) (_double : Bool) (start_address i : Nat) (hi : i < 48)
    (fb : Nat → Nat) :
    lores_row sys _double start_address 0 i fb =
      fun j => if 0 + i * 1120 ≤ j ∧ j < 0 + i * 1120 + 1120
        then lores_byte sys _double (text_row_address start_address (4 * i)) (4 * i)
          ((j - (0 + i * 1120)) % 280 / 7) ((j - (0 + i * 1120)) % 280 % 7)
        else fb j := by
  unfold lores_row
  simp only [Nat.zero_add]
  rw [lores_line_eq, get_fb_addr_eq (4 * i) (by omega)]
  simp only [loop]
  rw [get_fb_addr_eq (4 * i + (0 + 1)) (by omega), get_fb_addr_eq (4 * i + (1 + 1)) (by omega),
    get_fb_addr_eq (4 * i + (2 + 1)) (by omega)]
  funext j
  unfold memcpy
  simp only []
  by_cases r3 : (4 * i + (2 + 1)) * 280 ≤ j ∧ j < (4 * i + (2 + 1)) * 280 + 40 * 7
  · rw [if_pos r3,
      if_neg (show ¬ ((4 * i + (1 + 1)) * 280 ≤ 4 * i * 280 + (j - (4 * i + (2 + 1)) * 280) ∧
        4 * i * 280 + (j - (4 * i + (2 + 1)) * 280) < (4 * i + (1 + 1)) * 280 + 40 * 7) from by omega),
      if_neg (show ¬ ((4 * i + (0 + 1)) * 280 ≤ 4 * i * 280 + (j - (4 * i + (2 + 1)) * 280) ∧
        4 * i * 280 + (j - (4 * i + (2 + 1)) * 280) < (4 * i + (0 + 1)) * 280 + 40 * 7) from by omega),
      if_pos (show 4 * i * 280 ≤ 4 * i * 280 + (j - (4 * i + (2 + 1)) * 280) ∧
        4 * i * 280 + (j - (4 * i + (2 + 1)) * 280) < 4 * i * 280 + 280 from by omega),
      if_pos (show i * 1120 ≤ j ∧ j < i * 1120 + 1120 from by omega)]
    congr 1 <;> omega
  · rw [if_neg r3]
    by_cases r2 : (4 * i + (1 + 1)) * 280 ≤ j ∧ j < (4 * i + (1 + 1)) * 280 + 40 * 7
    · rw [if_pos r2,
        if_neg (show ¬ ((4 * i + (0 + 1)) * 280 ≤ 4 * i * 280 + (j - (4 * i + (1 + 1)) * 280) ∧
          4 * i * 280 + (j - (4 * i + (1 + 1)) * 280) < (4 * i + (0 + 1)) * 280 + 40 * 7) from by omega),
        if_pos (show 4 * i * 280 ≤ 4 * i * 280 + (j - (4 * i + (1 + 1)) * 280) ∧
          4 * i * 280 + (j - (4 * i + (1 + 1)) * 280) < 4 * i * 280 + 280 from by omega),
        if_pos (show i * 1120 ≤ j ∧ j < i * 1120 + 1120 from by omega)]
      congr 1 <;> omega
    · rw [if_neg r2]
      by_cases r1 : (4 * i + (0 + 1)) * 280 ≤ j ∧ j < (4 * i + (0 + 1)) * 280 + 40 * 7
      · rw [if_pos r1,
          if_pos (show 4 * i * 280 ≤ 4 * i * 280 + (j - (4 * i + (0 + 1)) * 280) ∧
            4 * i * 280 + (j - (4 * i + (0 + 1)) * 280) < 4 * i * 280 + 280 from by omega),
          if_pos (show i * 1120 ≤ j ∧ j < i * 1120 + 1120 from by omega)]
        congr 1 <;> omega
      · rw [if_neg r1]
        by_cases r0 : 4 * i * 280 ≤ j ∧ j < 4 * i * 280 + 280
        · rw [if_pos r0, if_pos (show i * 1120 ≤ j ∧ j < i * 1120 + 1120 from by omega)]
          congr 1 <;> omega
        · rw [if_neg r0, if_neg (show ¬ (i * 1120 ≤ j ∧ j < i * 1120 + 1120) from by omega)]

theorem lores_update_fb_loop (s : apple2e_t) (b e : Nat) (hd : text_clean s = false) :
    (_apple2e_lores_update s b e).fb =
      loop (lores_row s (s.dhires && s._80col) (text_start_address s) (((b / 8) * 8) % 0x10000))
        (((((e / 8) + 1) * 8) % 0x10000 - ((b / 8) * 8) % 0x10000 + 3) / 4) s.fb := by
  unfold _apple2e_lores_update
  rw [if_neg (by rw [hd]; decide)]
  simp only []
  split <;> rfl

/-- The framebuffer after the lo-res renderer has run over rows `0..e`: the rows of
the cells up to row `e` are redrawn, the rest is as before. -/
theorem lores_update_fb (s : apple2e_t) (e : Nat) (hd : text_clean s = false) (he : e < 192)
    (j : Nat) :
    (_apple2e_lores_update s 0 e).fb j =
      if j < (e / 8 + 1) * 2240 then
        lores_byte s (s.dhires && s._80col)
          (text_row_address (text_start_address s) (4 * (j / 1120))) (4 * (j / 1120))
          (j % 1120 % 280 / 7) (j % 1120 % 280 % 7)
      else s.fb j := by
  have e0 : ((0 / 8) * 8) % 0x10000 = 0 := rfl
  have e1 : (((e / 8) + 1) * 8) % 0x10000 = (e / 8 + 1) * 8 := Nat.mod_eq_of_lt (by omega)
  have e2 : ((e / 8 + 1) * 8 - 0 + 3) / 4 = 2 * (e / 8 + 1) := by omega
  rw [lores_update_fb_loop s 0 e hd, e0, e1, e2,
    loop_fill_lt 1120 0
      (fun k x => lores_byte s (s.dhires && s._80col)
        (text_row_address (text_start_address s) (4 * k)) (4 * k) (x % 280 / 7) (x % 280 % 7))
      (lores_row s (s.dhires && s._80col) (text_start_address s) 0) (2 * (e / 8 + 1))
      (fun k hk a => by rw [lores_row_eq s _ _ k (by omega) a])]
  simp only [Nat.sub_zero]
  by_cases c : j < (e / 8 + 1) * 2240
  · rw [if_pos (show 0 ≤ j ∧ j < 0 + 2 * (e / 8 + 1) * 1120 from ⟨by omega, by omega⟩), if_pos c]
  · rw [if_neg (show ¬ (0 ≤ j ∧ j < 0 + 2 * (e / 8 + 1) * 1120) from by omega), if_neg c]

theorem graphics_update_lores (s : apple2e_t) (e : Nat) (hh : s.hires = false) :
    graphics_update s e = _apple2e_lores_update s 0 e := by
  unfold graphics_update
  rw [if_neg (by rw [hh]; decide)]

/-- In lo-res mode `apple2e_screen_update` is the lo-res renderer alone, over rows
`0..159` in mixed mode and `0..191` otherwise: the text renderer that follows in
mixed mode finds the dirty flag cleared by the lo-res renderer and returns. -/
theorem screen_update_lores (s : apple2e_t) (ht : s.text = false) (hh : s.hires = false) :
    apple2e_screen_update s = _apple2e_lores_update s 0 (if s.mixed then 159 else 191) := by
  by_cases hm : s.mixed = true
  · rw [screen_update_mixed s ht hm, graphics_update_lores s 159 hh, if_pos hm]
    exact text_update_clean _ 160 191 (lores_update_props s 0 159).2.1
  · have hm' : s.mixed = false := by simpa using hm
    rw [screen_update_full s ht hm', graphics_update_lores s 191 hh, if_neg hm]

theorem screen_update_lores_fb (s : apple2e_t) (ht : s.text = false) (hh : s.hires = false)
    (hd : text_clean s = false) (j : Nat) :
    (apple2e_screen_update s).fb j =
      if j < (if s.mixed then 160 else 192) * 280 then
        lores_byte s (s.dhires && s._80col)
          (text_row_address (text_start_address s) (4 * (j / 1120))) (4 * (j / 1120))
          (j % 1120 % 280 / 7) (j % 1120 % 280 % 7)
      else s.fb j := by
  rw [screen_update_lores s ht hh]
  by_cases hm : s.mixed = true
  · rw [if_pos hm, if_pos hm, lores_update_fb s 159 hd (by decide)]
  · rw [if_neg hm, if_neg hm, lores_update_fb s 191 hd (by decide)]

set_option maxRecDepth 100000 in
theorem row_and_4 : ∀ r, r < 192 → (4 * (r / 4)) &&& 4 = r &&& 4 := by decide

theorem lores_byte_row (s : apple2e_t) (d : Bool) (sa r c b : Nat) (hr : r < 192) :
    lores_byte s d (text_row_address sa (4 * (r / 4))) (4 * (r / 4)) c b =
      lores_byte s d (text_row_address sa r) r c b := by
  have e1 : text_row_address sa (4 * (r / 4)) = text_row_address sa r := by
    unfold text_row_address
    rw [show 4 * (r / 4) / 8 = r / 8 from by omega]
  rw [e1]
  unfold lores_byte
  rw [row_and_4 r hr]

/-- Byte `x` of framebuffer row `r` after `apple2e_screen_update` in lo-res mode. -/
theorem screen_update_lores_byte (s : apple2e_t) (ht : s.text = false) (hh : s.hires = false)
    (hd : text_clean s = false) (r x : Nat) (hr : r < (if s.mixed then 160 else 192))
    (hx : x < 280) :
    (apple2e_screen_update s).fb (r * 280 + x) =
      lores_byte s (s.dhires && s._80col) (text_row_address (text_start_address s) r) r
        (x / 7) (x % 7) := by
  have hr' : r < 192 := by split_ifs at hr <;> omega
  rw [screen_update_lores_fb s ht hh hd, if_pos (by split_ifs at hr ⊢ <;> omega),
    show (r * 280 + x) / 1120 = r / 4 from by omega,
    show (r * 280 + x) % 1120 % 280 = x from by omega, lores_byte_row s _ _ r _ _ hr']


theorem nib_byte_nibbles : ∀ hi, hi < 16 → ∀ lo, lo < 16 →
    nib_byte hi lo >>> 4 = hi ∧ nib_byte hi lo &&& 0xF = lo := by
  decide

theorem and_0f_lt (x : Nat) : x &&& 0x0F < 16 :=
  Nat.lt_of_le_of_lt Nat.and_le_right (by decide)

theorem rotl4_mod (n k : Nat) : _apple2e_rotl4 n k % 256 = _apple2e_rotl4 n k ∧
    _apple2e_rotl4 n k < 16 := by
  have h : _apple2e_rotl4 n k < 16 := by
    unfold _apple2e_rotl4
    exact rotl4b_lt _ _
  exact ⟨Nat.mod_eq_of_lt (by omega), h⟩

theorem lores_byte_single (s : apple2e_t) (address row col k : Nat) :
    lores_byte s false address row col k =
      nib_byte ((s.ram (address + col) >>> (row &&& 4)) &&& 0x0F)
        ((s.ram (address + col) >>> (row &&& 4)) &&& 0x0F) := rfl

theorem lores_byte_double (s : apple2e_t) (address row col k : Nat) :
    lores_byte s true address row col k =
      if k < 3 then
        nib_byte (_apple2e_rotl4 ((s.aux_ram (address + col) >>> (row &&& 4)) &&& 0x0F) 1 % 256)
          (_apple2e_rotl4 ((s.aux_ram (address + col) >>> (row &&& 4)) &&& 0x0F) 1 % 256)
      else if k = 3 then
        nib_byte (_apple2e_rotl4 ((s.aux_ram (address + col) >>> (row &&& 4)) &&& 0x0F) 1 % 256)
          ((s.ram (address + col) >>> (row &&& 4)) &&& 0x0F)
      else
        nib_byte ((s.ram (address + col) >>> (row &&& 4)) &&& 0x0F)
          ((s.ram (address + col) >>> (row &&& 4)) &&& 0x0F) := rfl

/-- Pixel `p` of a lo-res row is the high or the low nibble of byte `p / 2`. -/
theorem screen_update_lores_pixel (s : apple2e_t) (ht : s.text = false) (hh : s.hires = false)
    (hd : text_clean s = false) (r p : Nat) (hr : r < (if s.mixed then 160 else 192))
    (hp : p < 560) :
    fb_pixel (apple2e_screen_update s) r p =
      if p % 2 = 0
        then lores_byte s (s.dhires && s._80col) (text_row_address (text_start_address s) r) r
          (p / 14) (p / 2 % 7) >>> 4
        else lores_byte s (s.dhires && s._80col) (text_row_address (text_start_address s) r) r
          (p / 14) (p / 2 % 7) &&& 0xF := by
  have hw : APPLE2E_SCREEN_WIDTH / 2 = 280 := rfl
  unfold fb_pixel line_pixel
  rw [hw, screen_update_lores_byte s ht hh hd r (p / 2) hr (by omega),
    show p / 2 / 7 = p / 14 from by omega]

/-- C29: when lo-res is rendered (`text = false`, `hires = false`, the text dirty flag
the renderer tests is set), for every rendered row `r` and column `c < 40` with main
byte `m` and aux byte `x` at the row's text address `+ c`: in non-double mode all 14
pixels `14c..14c+13` of framebuffer row `r` equal `(m >> (r & 4)) & 0x0F`; in double
lo-res (`dhires && _80col`) pixels `14c..14c+6` equal
`rotl4((x >> (r & 4)) & 0x0F, 1)` and pixels `14c+7..14c+13` equal
`(m >> (r & 4)) & 0x0F`; the four rows of each 4-row cell are identical. The rendered
rows are `0..159` in mixed mode and `0..191` otherwise. -/
theorem C29_lores_pixels (s : apple2e_t) (ht : s.text = false) (hh : s.hires = false)
    (hd : text_clean s = false) (r c : Nat) (hr : r < (if s.mixed then 160 else 192))
    (hc : c < 40) :
    ((s.dhires && s._80col) = false → ∀ k, k < 14 →
      fb_pixel (apple2e_screen_update s) r (14 * c + k) =
        (s.ram (text_row_address (text_start_address s) r + c) >>> (r &&& 4)) &&& 0x0F) ∧
    ((s.dhires && s._80col) = true →
      (∀ k, k < 7 →
        fb_pixel (apple2e_screen_update s) r (14 * c + k) =
          _apple2e_rotl4
            ((s.aux_ram (text_row_address (text_start_address s) r + c) >>> (r &&& 4)) &&& 0x0F) 1) ∧
      (∀ k, 7 ≤ k → k < 14 →
        fb_pixel (apple2e_screen_update s) r (14 * c + k) =
          (s.ram (text_row_address (text_start_address s) r + c) >>> (r &&& 4)) &&& 0x0F)) ∧
    (∀ p, p < 560 →
      fb_pixel (apple2e_screen_update s) r p =
        fb_pixel (apple2e_screen_update s) (4 * (r / 4)) p) := by
  have hr' : r < 192 := by split_ifs at hr <;> omega
  have hm := and_0f_lt (s.ram (text_row_address (text_start_address s) r + c) >>> (r &&& 4))
  have hx := rotl4_mod
    ((s.aux_ram (text_row_address (text_start_address s) r + c) >>> (r &&& 4)) &&& 0x0F) 1
  refine ⟨?_, ?_, ?_⟩
  · intro hdbl k hk
    rw [screen_update_lores_pixel s ht hh hd r _ hr (by omega), hdbl,
      show (14 * c + k) / 14 = c from by omega]
    rw [lores_byte_single]
    split_ifs
    · exact (nib_byte_nibbles _ hm _ hm).1
    · exact (nib_byte_nibbles _ hm _ hm).2
  · intro hdbl
    constructor
    · intro k hk
      rw [screen_update_lores_pixel s ht hh hd r _ hr (by omega), hdbl,
        show (14 * c + k) / 14 = c from by omega,
        show (14 * c + k) / 2 % 7 = k / 2 from by omega,
        show (14 * c + k) % 2 = k % 2 from by omega]
      rw [lores_byte_double, hx.1]
      by_cases k3 : k / 2 < 3
      · rw [if_pos k3]
        split_ifs
        · exact (nib_byte_nibbles _ hx.2 _ hx.2).1
        · exact (nib_byte_nibbles _ hx.2 _ hx.2).2
      · rw [if_neg k3, if_pos (show k / 2 = 3 from by omega),
          if_pos (show k % 2 = 0 from by omega)]
        exact (nib_byte_nibbles _ hx.2 _ hm).1
    · intro k hk7 hk
      rw [screen_update_lores_pixel s ht hh hd r _ hr (by omega), hdbl,
        show (14 * c + k) / 14 = c from by omega,
        show (14 * c + k) / 2 % 7 = k / 2 from by omega,
        show (14 * c + k) % 2 = k % 2 from by omega]
      rw [lores_byte_double, hx.1, if_neg (show ¬ k / 2 < 3 from by omega)]
      by_cases k3 : k / 2 = 3
      · rw [if_pos k3, if_neg (show ¬ k % 2 = 0 from by omega)]
        exact (nib_byte_nibbles _ hx.2 _ hm).2
      · rw [if_neg k3]
        split_ifs
        · exact (nib_byte_nibbles _ hm _ hm).1
        · exact (nib_byte_nibbles _ hm _ hm).2
  · intro p hp
    have hr4 : 4 * (r / 4) < (if s.mixed then 160 else 192) := by split_ifs at hr ⊢ <;> omega
    rw [screen_update_lores_pixel s ht hh hd r p hr hp,
      screen_update_lores_pixel s ht hh hd (4 * (r / 4)) p hr4 hp,
      ← lores_byte_row s _ _ r _ _ hr',
      ← lores_byte_row s _ _ (4 * (r / 4)) _ _ (by omega),
      show 4 * (4 * (r / 4) / 4) = 4 * (r / 4) from by omega]

/-- Witness of C29 on the power-on machine with `0x5A` written to `$0400`: in row 4
(lower half of the first cell) pixel 3 of column 0 is the high nibble `5`, in row 0
it is the low nibble `0xA`. -/
theorem C29_lores_pixels_witness :
    fb_pixel (apple2e_screen_update ex_lores) 4 (14 * 0 + 3) = 5 ∧
    fb_pixel (apple2e_screen_update ex_lores) 0 (14 * 0 + 3) = 0xA :=
  ⟨((C29_lores_pixels ex_lores rfl rfl rfl 4 0 (by decide) (by decide)).1 rfl 3
      (by decide)).trans (by decide),
    ((C29_lores_pixels ex_lores rfl rfl rfl 0 0 (by decide) (by decide)).1 rfl 3
      (by decide)).trans (by decide)⟩

/-! ## The text renderer -/

theorem get_text_character_lt (s : apple2e_t) (code row : Nat) :
    _apple2e_get_text_character s code row < 128 := by
  unfold _apple2e_get_text_character
  simp only []
  apply Nat.xor_lt_two_pow (n := 7)
  · exact and_7f_lt _
  · split_ifs <;>
      first
      | exact (by decide : (127 ^^^ 127 : Nat) < 2 ^ 7)
      | exact (by decide : (127 : Nat) < 2 ^ 7)

theorem text_word_lt (s : apple2e_t) (address row col : Nat) :
    text_word s address row col < 2 ^ 14 := by
  unfold text_word
  split_ifs
  · have h1 := get_text_character_lt s (s.aux_ram (address + col)) (row &&& 7)
    have h2 := get_text_character_lt s (s.ram (address + col)) (row &&& 7)
    rw [Nat.shiftLeft_eq]
    omega
  · exact (double_7_bits_table _ (get_text_character_lt _ _ _)).1

theorem words_loop_eq (f : Nat → Nat) :
    loop (fun col words => store words col (f col)) 40 (fun _ => 0) =
      fun c => if c < 40 then f c else 0 := by
  rw [loop_fill 1 0 (fun k _ => f k) (fun col words => store words col (f col))
    (fun k a => store_block0 a k (f k))]
  funext c
  simp only [Nat.sub_zero, Nat.div_one]
  by_cases h : c < 40
  · rw [if_pos (show 0 ≤ c ∧ c < 0 + 40 * 1 from ⟨by omega, by omega⟩), if_pos h]
  · rw [if_neg (show ¬ (0 ≤ c ∧ c < 0 + 40 * 1) from by omega), if_neg h]

/-- One pass of the row loop of the text renderer: the 280 bytes of the row. -/
theorem text_row_eq (s : apple2e_t) (start_row i : Nat) (hi : start_row + i < 192)
    (fb : Nat → Nat) :
    text_row s (text_start_address s) start_row i fb =
      fun j => if start_row * 280 + i * 280 ≤ j ∧ j < start_row * 280 + i * 280 + 280
        then text_byte s (start_row + i) (j - (start_row * 280 + i * 280)) else fb j := by
  unfold text_row
  simp only []
  rw [words_loop_eq, get_fb_addr_eq _ (by omega)]
  funext j
  rw [render_line_monochrome_eq fb _ _
    (fun c _ => by
      show (if c < 40 then _ else 0) < 2 ^ 14
      split_ifs
      exact text_word_lt _ _ _ _) j]
  have e : (start_row + i) * 280 = start_row * 280 + i * 280 := by omega
  rw [e]
  by_cases c : start_row * 280 + i * 280 ≤ j ∧ j < start_row * 280 + i * 280 + 280
  · have h1 : (j - (start_row * 280 + i * 280)) / 7 < 40 := by omega
    rw [if_pos c, if_pos c]
    unfold text_byte
    by_cases c1 : (j - (start_row * 280 + i * 280)) / 7 + 1 < 40
    · rw [if_pos c1, if_pos c1, if_pos h1, if_pos c1]
    · rw [if_neg c1, if_neg c1, if_pos h1]
  · rw [if_neg c, if_neg c]

theorem text_update_fb_loop (s : apple2e_t) (b e : Nat) (hd : text_clean s = false) :
    (_apple2e_text_update s b e).fb =
      loop (text_row s (text_start_address s) (((b / 8) * 8) % 0x10000))
        ((((e / 8) + 1) * 8) % 0x10000 - ((b / 8) * 8) % 0x10000) s.fb := by
  unfold _apple2e_text_update
  rw [if_neg (by rw [hd]; decide)]
  simp only []
  split <;> rfl

/-- The framebuffer after the text renderer has run over rows `b..e`: the rows of the
text lines from the one of `b` to the one of `e` are redrawn, the rest is as
before. -/
theorem text_update_fb (s : apple2e_t) (b e : Nat) (hd : text_clean s = false)
    (hb : b ≤ e) (he : e < 192) (j : Nat) :
    (_apple2e_text_update s b e).fb j =
      if b / 8 * 8 * 280 ≤ j ∧ j < (e / 8 + 1) * 8 * 280
        then text_byte s (j / 280) (j % 280) else s.fb j := by
  have e0 : ((b / 8) * 8) % 0x10000 = b / 8 * 8 := Nat.mod_eq_of_lt (by omega)
  have e1 : (((e / 8) + 1) * 8) % 0x10000 = (e / 8 + 1) * 8 := Nat.mod_eq_of_lt (by omega)
  rw [text_update_fb_loop s b e hd, e0, e1,
    loop_fill_lt 280 (b / 8 * 8 * 280)
      (fun k x => text_byte s (b / 8 * 8 + k) x)
      (text_row s (text_start_address s) (b / 8 * 8)) ((e / 8 + 1) * 8 - b / 8 * 8)
      (fun k hk a => by rw [text_row_eq s _ k (by omega) a])]
  simp only []
  by_cases c : b / 8 * 8 * 280 ≤ j ∧ j < (e / 8 + 1) * 8 * 280
  · rw [if_pos (show b / 8 * 8 * 280 ≤ j ∧
        j < b / 8 * 8 * 280 + ((e / 8 + 1) * 8 - b / 8 * 8) * 280 from ⟨c.1, by omega⟩), if_pos c,
      show b / 8 * 8 + (j - b / 8 * 8 * 280) / 280 = j / 280 from by omega,
      show (j - b / 8 * 8 * 280) % 280 = j % 280 from by omega]
  · rw [if_neg (show ¬ (b / 8 * 8 * 280 ≤ j ∧
        j < b / 8 * 8 * 280 + ((e / 8 + 1) * 8 - b / 8 * 8) * 280) from by omega), if_neg c]

/-! ## Mixed mode and the dirty flags -/

theorem text_clean_page1 (t : apple2e_t) (h : text_clean t = true) (hp : t.page2 = false) :
    t.text_page1_dirty = false := by
  unfold text_clean at h
  rw [hp] at h
  cases hd : t.text_page1_dirty
  · rfl
  · rw [hd] at h
    exact absurd h (by simp)

/-- In lo-res mixed mode `apple2e_screen_update` leaves the framebuffer rows `160..191`
as they were, whatever the dirty flags are, and the text dirty flag it tests is clear
afterwards. -/
theorem lores_mixed_text_rows_kept (s : apple2e_t) (ht : s.text = false) (hh : s.hires = false)
    (hm : s.mixed = true) :
    (∀ j, 160 * 280 ≤ j → (apple2e_screen_update s).fb j = s.fb j) ∧
    text_clean (apple2e_screen_update s) = true ∧
    (apple2e_screen_update s).page2 = s.page2 := by
  rw [screen_update_lores s ht hh, if_pos hm]
  refine ⟨?_, (lores_update_props s 0 159).2.1,
    (render_mode_fields _ _ (lores_update_props s 0 159).1).2.2.2.2.2.1⟩
  intro j hj
  by_cases hd : text_clean s = true
  · rw [lores_update_clean s 0 159 hd]
  · rw [lores_update_fb s 159 (by simpa using hd) (by decide) j,
      if_neg (show ¬ j < (159 / 8 + 1) * 2240 from by omega)]

/-- C23, evaluated at a lo-res state: on the power-on machine with MIXED switched on
and the character `0xC1` written to `$0650` (text = false, mixed = true,
hires = false, text page 1 displayed and dirty), `apple2e_screen_update` leaves every
framebuffer byte from row 160 on as it was and clears `text_page1_dirty`: the lo-res
renderer clears the flag the text renderer tests, so the text renderer returns at
once. Byte 2 of row 160 stays `0x00`, where the text renderer run on the same state
draws `0xFF`. -/
theorem C23_mixed_lores_skips_text :
    ex_mixed_lores.text = false ∧ ex_mixed_lores.mixed = true ∧
    ex_mixed_lores.hires = false ∧ ex_mixed_lores.page2 = false ∧
    ex_mixed_lores.text_page1_dirty = true ∧ ex_mixed_lores.ram 0x0650 = 0xC1 ∧
    (∀ j, 160 * 280 ≤ j →
      (apple2e_screen_update ex_mixed_lores).fb j = ex_mixed_lores.fb j) ∧
    (apple2e_screen_update ex_mixed_lores).text_page1_dirty = false ∧
    (_apple2e_text_update ex_mixed_lores 160 191).fb (160 * 280 + 2) = 0xFF ∧
    (apple2e_screen_update ex_mixed_lores).fb (160 * 280 + 2) = 0x00 := by
  obtain ⟨k1, k2, k3⟩ := lores_mixed_text_rows_kept ex_mixed_lores rfl rfl rfl
  refine ⟨rfl, rfl, rfl, rfl, rfl, rfl, k1, text_clean_page1 _ k2 (k3.trans rfl), ?_, ?_⟩
  · rw [text_update_fb ex_mixed_lores 160 191 rfl (by decide) (by decide),
      if_pos (show 160 / 8 * 8 * 280 ≤ 160 * 280 + 2 ∧ 160 * 280 + 2 < (191 / 8 + 1) * 8 * 280
        from by decide)]
    decide
  · rw [k1 _ (by decide)]
    rfl

/-- In text mode `apple2e_screen_update` tests the dirty flag selected by `page2`
alone: when that flag is clear the state is left as it is. -/
theorem screen_update_text_clean (s : apple2e_t) (ht : s.text = true)
    (hc : (if s.page2 then s.text_page2_dirty else s.text_page1_dirty) = false) :
    apple2e_screen_update s = s := by
  rw [screen_update_text s ht]
  apply text_update_clean
  unfold text_clean
  cases hp : s.page2
  · rw [hp] at hc
    simp only [Bool.false_eq_true, if_false] at hc
    rw [hc]
    rfl
  · rw [hp] at hc
    simp only [if_true] at hc
    rw [hc]
    rfl

/-- C24, evaluated at a state with 80STORE and PAGE2 on: text mode, the displayed
page is page 1 (base `0x0400`, since `page2 && !_80store` is false) and
`text_page1_dirty` is set, yet `apple2e_screen_update` returns the state unchanged,
`text_page1_dirty` still set: the renderer tests `text_page2_dirty`, the flag that
`page2` alone selects. -/
theorem C24_text_flag_selected_by_page2 :
    ex_text80.text = true ∧ ex_text80.page2 = true ∧ ex_text80._80store = true ∧
    text_start_address ex_text80 = 0x0400 ∧
    ex_text80.text_page1_dirty = true ∧ ex_text80.text_page2_dirty = false ∧
    apple2e_screen_update ex_text80 = ex_text80 ∧
    (apple2e_screen_update ex_text80).text_page1_dirty = true := by
  have h := screen_update_text_clean ex_text80 rfl rfl
  refine ⟨rfl, rfl, rfl, rfl, rfl, rfl, h, ?_⟩
  rw [h]
  rfl

theorem text_byte_congr (a b : apple2e_t) (h : text_inputs a = text_inputs b) (r x : Nat) :
    text_byte a r x = text_byte b r x := by
  simp only [text_inputs, Prod.mk.injEq, List.cons.injEq, and_true] at h
  obtain ⟨h1, h2, h3, h4, h5, h6, h7, h8⟩ := h
  unfold text_byte text_word text_start_address _apple2e_get_text_character
  rw [h1, h2, h3, h4, h5, h6, h7, h8]

theorem hgr_update_text_inputs (s : apple2e_t) (b e : Nat) :
    text_inputs (_apple2e_hgr_update s b e) = text_inputs s := by
  unfold _apple2e_hgr_update
  by_cases c : hires_clean s = true
  · rw [if_pos c]
  · rw [if_neg c]
    cases hp : s.page2 <;> simp [text_inputs, hp]

theorem dhgr_update_text_inputs (s : apple2e_t) (b e : Nat) :
    text_inputs (_apple2e_dhgr_update s b e) = text_inputs s := by
  unfold _apple2e_dhgr_update
  by_cases c : hires_clean s = true
  · rw [if_pos c]
  · rw [if_neg c]
    cases hp : s.page2 <;> simp [text_inputs, hp]

theorem graphics_update_text_inputs (s : apple2e_t) (e : Nat) (hh : s.hires = true) :
    text_inputs (graphics_update s e) = text_inputs s := by
  unfold graphics_update
  rw [if_pos hh]
  by_cases hd : (s.dhires && s._80col) = true
  · rw [if_pos hd]
    exact dhgr_update_text_inputs s 0 e
  · rw [if_neg hd]
    exact hgr_update_text_inputs s 0 e

/-- In hi-res and double hi-res mixed mode, with the text dirty flag the renderer
tests set, `apple2e_screen_update` draws the framebuffer rows `160..191` as text (the
text rendering of text rows `20..23`) and clears that flag. -/
theorem hires_mixed_text_rows (s : apple2e_t) (ht : s.text = false) (hm : s.mixed = true)
    (hh : s.hires = true) (hd : text_clean s = false) :
    (∀ j, 160 * 280 ≤ j → j < 192 * 280 →
      (apple2e_screen_update s).fb j = text_byte s (j / 280) (j % 280)) ∧
    text_clean (apple2e_screen_update s) = true := by
  rw [screen_update_mixed s ht hm]
  have hg : text_clean (graphics_update s 159) = false :=
    ((graphics_update_props s 159).2.2 hh).2.trans hd
  refine ⟨?_, (text_update_props _ 160 191).2.1⟩
  intro j h1 h2
  rw [text_update_fb (graphics_update s 159) 160 191 hg (by decide) (by decide) j,
    if_pos (show 160 / 8 * 8 * 280 ≤ j ∧ j < (191 / 8 + 1) * 8 * 280 from ⟨by omega, by omega⟩)]
  exact text_byte_congr _ _ (graphics_update_text_inputs s 159 hh) _ _

/-! ## The artifact colour table -/

theorem lut_nibbles : ∀ i, i < 128 →
    _apple2e_artifact_color_lut i = 0x11 * (_apple2e_artifact_color_lut i &&& 0xF) ∧
    _apple2e_artifact_color_lut i >>> 4 = _apple2e_artifact_color_lut i &&& 0xF ∧
    _apple2e_artifact_color_lut i < 256 := by
  decide

/-- C31: every one of the 128 entries of `_apple2e_artifact_color_lut` has equal high
and low nibbles (entry `= 0x11 * colour` with `colour < 16`); consequently, for every
index `i < 128` and every count `k`, `_apple2e_rotl4b(LUT[i], k)`, as used by the
colour line kernel, equals the 4-bit left rotation by `k mod 4` of the entry's 4-bit
colour, i.e. `_apple2e_rotl4(LUT[i] & 0xF, k)`. -/
theorem C31_lut_entries (i k : Nat) (hi : i < 128) :
    (∃ colour, colour < 16 ∧ _apple2e_artifact_color_lut i = 0x11 * colour) ∧
    _apple2e_artifact_color_lut i >>> 4 = _apple2e_artifact_color_lut i &&& 0xF ∧
    _apple2e_rotl4b (_apple2e_artifact_color_lut i) k =
      spec_rotl4 (_apple2e_artifact_color_lut i &&& 0xF) (k % 4) ∧
    _apple2e_rotl4b (_apple2e_artifact_color_lut i) k =
      _apple2e_rotl4 (_apple2e_artifact_color_lut i &&& 0xF) k := by
  obtain ⟨e1, e2, -⟩ := lut_nibbles i hi
  have hlt := (lut_table i hi).2
  refine ⟨⟨_, hlt, e1⟩, e2, lut_rotl4b i k hi, ?_⟩
  rw [lut_rotl4b i k hi, rotl4_eq_spec _ k hlt]

/-- Witness of C31: entry 14 is `0xDD`, colour `0xD = 1101b`; rotated left by
`5 mod 4 = 1` it is `1011b = 0xB`. -/
theorem C31_lut_entries_witness :
    _apple2e_artifact_color_lut 14 = 0xDD ∧
    _apple2e_rotl4b (_apple2e_artifact_color_lut 14) 5 = 0xB ∧
    _apple2e_rotl4 (_apple2e_artifact_color_lut 14 &&& 0xF) 5 = 0xB :=
  ⟨by decide,
    ((C31_lut_entries 14 5 (by decide)).2.2.1).trans (by decide),
    ((C31_lut_entries 14 5 (by decide)).2.2.2).symm.trans
      (((C31_lut_entries 14 5 (by decide)).2.2.1).trans (by decide))⟩

/-! ## The renderer stays inside its arrays -/

theorem mem_accesses_for (f : Nat → List access) (n : Nat) (a : access) :
    a ∈ accesses_for f n ↔ ∃ k, k < n ∧ a ∈ f k := by
  induction n with
  | zero =>
    constructor
    · intro h; cases h
    · rintro ⟨k, hk, -⟩; omega
  | succ n ih =>
    show a ∈ accesses_for f n ++ f n ↔ _
    rw [List.mem_append, ih]
    constructor
    · rintro (⟨k, hk, h⟩ | h)
      · exact ⟨k, by omega, h⟩
      · exact ⟨n, by omega, h⟩
    · rintro ⟨k, hk, h⟩
      by_cases c : k < n
      · exact Or.inl ⟨k, c, h⟩
      · have e : k = n := by omega
        rw [e] at h
        exact Or.inr h

theorem all_nil : all_in_bounds [] := fun _ h => by cases h

theorem all_cons (x : access) (l : List access) (hx : x.in_bounds) (hl : all_in_bounds l) :
    all_in_bounds (x :: l) := by
  intro a ha
  rcases List.mem_cons.mp ha with h | h
  · rw [h]; exact hx
  · exact hl a h

theorem all_append (l1 l2 : List access) (h1 : all_in_bounds l1) (h2 : all_in_bounds l2) :
    all_in_bounds (l1 ++ l2) := by
  intro a ha
  rcases List.mem_append.mp ha with h | h
  · exact h1 a h
  · exact h2 a h

theorem all_for (f : Nat → List access) (n : Nat) (h : ∀ k, k < n → all_in_bounds (f k)) :
    all_in_bounds (accesses_for f n) := by
  intro a ha
  obtain ⟨k, hk, hm⟩ := (mem_accesses_for f n a).mp ha
  exact h k hk a hm

theorem fb_size : APPLE2E_FRAMEBUFFER_SIZE = 53760 := rfl

theorem fb_write_ok (i : Nat) (h : i < 53760) : (access.fb_write i).in_bounds := h

theorem fb_read_ok (i : Nat) (h : i < 53760) : (access.fb_read i).in_bounds := h

theorem ram_read_ok (i : Nat) (h : i < 0x10000) : (access.ram_read i).in_bounds := h

theorem aux_ram_read_ok (i : Nat) (h : i < 0x10000) : (access.aux_ram_read i).in_bounds := h

theorem character_rom_read_ok (i : Nat) (h : i < 0x1000) :
    (access.character_rom_read i).in_bounds := h

theorem lut_read_ok (i : Nat) (h : i < 128) : (access.lut_read i).in_bounds := h

theorem words_write_ok (i : Nat) (h : i < 40) : (access.words_write i).in_bounds := h

theorem words_read_ok (i : Nat) (h : i < 40) : (access.words_read i).in_bounds := h

/-- The monochrome kernel on a row below 192 stays inside the framebuffer and inside
`words`. -/
theorem render_line_monochrome_ok (row : Nat) (hr : row < 192) :
    all_in_bounds (_apple2e_render_line_monochrome_accesses (_apple2e_get_fb_addr row) 0 40) := by
  rw [get_fb_addr_eq row (by omega)]
  unfold _apple2e_render_line_monochrome_accesses
  apply all_cons _ _ (words_read_ok 0 (by decide))
  apply all_for
  intro i hi
  apply all_append
  · by_cases c : 0 + i + 1 < 40
    · rw [if_pos c]
      exact all_cons _ _ (words_read_ok _ c) all_nil
    · rw [if_neg c]
      exact all_nil
  · apply all_for
    intro b hb
    exact all_cons _ _ (fb_write_ok _ (by omega)) all_nil

/-- The colour kernel on a row below 192 stays inside the framebuffer, the colour table
and `words`. -/
theorem render_line_color_ok (fb : Nat → Nat) (words : Nat → Nat) (is_80col : Bool) (row : Nat)
    (hr : row < 192) :
    all_in_bounds
      (_apple2e_render_line_color_accesses fb (_apple2e_get_fb_addr row) words 0 40 is_80col) := by
  rw [get_fb_addr_eq row (by omega)]
  unfold _apple2e_render_line_color_accesses
  apply all_cons _ _ (words_read_ok 0 (by decide))
  apply all_for
  intro i hi
  unfold render_color_col_accesses
  simp only []
  apply all_append
  · by_cases c : 0 + i + 1 < 40
    · rw [if_pos c]
      exact all_cons _ _ (words_read_ok _ c) all_nil
    · rw [if_neg c]
      exact all_nil
  · apply all_for
    intro b hb
    unfold render_color_pair_accesses
    exact all_cons _ _ (lut_read_ok _ (and_7f_lt _))
      (all_cons _ _ (lut_read_ok _ (and_7f_lt _))
        (all_cons _ _ (fb_write_ok _ (by omega)) all_nil))

theorem get_text_character_index_lt (s : apple2e_t) (code row : Nat) (hc : code < 256) :
    get_text_character_index s code (row &&& 7) < 0x1000 := by
  have h1 : code &&& 0x3F ≤ 0x3F := Nat.and_le_right
  have h2 : (code ||| 0x80) % 256 < 256 := Nat.mod_lt _ (by decide)
  have h3 : row &&& 7 ≤ 7 := Nat.and_le_right
  unfold get_text_character_index
  split_ifs <;> omega

/-- The character-ROM read of `_apple2e_get_text_character` is the one at
`get_text_character_index`. -/
theorem get_text_character_reads (s : apple2e_t) (code row : Nat) :
    ∃ mask, _apple2e_get_text_character s code row =
      (s.character_rom (get_text_character_index s code row) &&& 0x7F) ^^^ mask := by
  unfold _apple2e_get_text_character get_text_character_index
  simp only []
  split_ifs <;> exact ⟨_, rfl⟩

theorem text_row_address_lt (s : apple2e_t) (r : Nat) (hr : r < 192) :
    text_row_address (text_start_address s) r + 40 ≤ 0x10000 := by
  obtain ⟨-, e2, -⟩ := row_offset_table r hr
  have hb := text_start_address_le s
  rw [text_row_address_eq s r hr]
  omega

theorem hires_row_address_lt (s : apple2e_t) (r : Nat) (hr : r < 192) :
    hires_row_address (hires_start_address s) r + 40 ≤ 0x10000 := by
  obtain ⟨-, e2, e3⟩ := row_offset_table r hr
  have hb := hires_start_address_le s
  rw [hires_row_address_eq s r hr]
  omega

theorem text_word_ok (s : apple2e_t) (hb : ram_bytes s) (address row col : Nat)
    (ha : address + 40 ≤ 0x10000) (hc : col < 40) :
    all_in_bounds (text_word_accesses s address row col) := by
  unfold text_word_accesses
  have c1 := get_text_character_index_lt s _ row (hb (address + col)).1
  have c2 := get_text_character_index_lt s _ row (hb (address + col)).2
  split_ifs
  · exact all_cons _ _ (aux_ram_read_ok _ (by omega))
      (all_cons _ _ (character_rom_read_ok _ c2)
        (all_cons _ _ (ram_read_ok _ (by omega))
          (all_cons _ _ (character_rom_read_ok _ c1)
            (all_cons _ _ (words_write_ok _ hc) all_nil))))
  · exact all_cons _ _ (ram_read_ok _ (by omega))
      (all_cons _ _ (character_rom_read_ok _ c1)
        (all_cons _ _ (words_write_ok _ hc) all_nil))

theorem text_row_ok (s : apple2e_t) (hb : ram_bytes s) (start_row i : Nat)
    (h : start_row + i < 192) :
    all_in_bounds (text_row_accesses s (text_start_address s) start_row i) := by
  unfold text_row_accesses
  simp only []
  apply all_append
  · apply all_for
    intro col hc
    exact text_word_ok s hb _ _ col (text_row_address_lt s _ h) hc
  · exact render_line_monochrome_ok _ h

/-- The text renderer over rows up to `end_row < 192` stays inside its arrays. -/
theorem text_update_ok (s : apple2e_t) (hb : ram_bytes s) (b e : Nat) (he : e < 192) :
    all_in_bounds (_apple2e_text_update_accesses s b e) := by
  unfold _apple2e_text_update_accesses
  by_cases c : text_clean s = true
  · rw [if_pos c]
    exact all_nil
  · rw [if_neg c]
    simp only []
    apply all_for
    intro i hi
    have e1 : (((e / 8) + 1) * 8) % 0x10000 = (e / 8 + 1) * 8 := Nat.mod_eq_of_lt (by omega)
    rw [e1] at hi
    exact text_row_ok s hb _ i (by omega)

theorem lores_put_ok (p : Nat) (h : p < 53760) : all_in_bounds (lores_put_accesses p) :=
  all_cons _ _ (fb_write_ok p h) (all_cons _ _ (fb_read_ok p h)
    (all_cons _ _ (fb_write_ok p h) all_nil))

theorem lores_col_ok (_double : Bool) (address col : Nat) (st : Nat × (Nat → Nat))
    (ha : address + col < 0x10000) (hp : st.1 + 7 ≤ 53760) :
    all_in_bounds (lores_col_accesses _double address col st) := by
  unfold lores_col_accesses
  cases _double
  · rw [if_neg (by decide)]
    apply all_cons _ _ (ram_read_ok _ ha)
    apply all_for
    intro b hb
    exact lores_put_ok _ (by omega)
  · rw [if_pos rfl]
    apply all_cons _ _ (aux_ram_read_ok _ ha)
    apply all_append
    · apply all_for
      intro b hb
      exact lores_put_ok _ (by omega)
    · apply all_cons _ _ (fb_write_ok _ (by omega))
      apply all_cons _ _ (ram_read_ok _ ha)
      apply all_cons _ _ (fb_read_ok _ (by omega))
      apply all_cons _ _ (fb_write_ok _ (by omega))
      apply all_for
      intro b hb
      exact lores_put_ok _ (by omega)

/-- The cursor of the lo-res column loop stands `7 * col` bytes into the row. -/
theorem lores_cursor (s : apple2e_t) (_double : Bool) (address row col p : Nat)
    (fb : Nat → Nat) :
    (loop (lores_col s _double address row) col (p, fb)).1 = p + col * 7 := by
  rw [loop_cursor 7 (fun col k => lores_byte s _double address row col k)
    (lores_col s _double address row)
    (fun col p a => lores_col_eq s _double address row col p a)]

theorem memcpy_ok (dst src n : Nat) (hd : dst + n ≤ 53760) (hs : src + n ≤ 53760) :
    all_in_bounds (memcpy_accesses dst src n) := by
  unfold memcpy_accesses
  apply all_for
  intro t ht
  exact all_cons _ _ (fb_read_ok _ (by omega)) (all_cons _ _ (fb_write_ok _ (by omega)) all_nil)

theorem lores_row_ok (s : apple2e_t) (_double : Bool) (start_row i : Nat) (fb : Nat → Nat)
    (h : start_row + 4 * i + 3 < 192) :
    all_in_bounds (lores_row_accesses s _double (text_start_address s) start_row i fb) := by
  unfold lores_row_accesses
  simp only []
  apply all_append
  · apply all_for
    intro col hc
    have ha := text_row_address_lt s (start_row + 4 * i) (by omega)
    apply lores_col_ok
    · omega
    · rw [lores_cursor, get_fb_addr_eq _ (by omega)]
      omega
  · apply all_for
    intro k hk
    rw [get_fb_addr_eq _ (by omega), get_fb_addr_eq _ (by omega)]
    exact memcpy_ok _ _ _ (by omega) (by omega)

/-- The lo-res renderer over rows up to `end_row < 192` stays inside its arrays. -/
theorem lores_update_ok (s : apple2e_t) (b e : Nat) (he : e < 192) :
    all_in_bounds (_apple2e_lores_update_accesses s b e) := by
  unfold _apple2e_lores_update_accesses
  by_cases c : text_clean s = true
  · rw [if_pos c]
    exact all_nil
  · rw [if_neg c]
    simp only []
    apply all_for
    intro i hi
    have e1 : (((e / 8) + 1) * 8) % 0x10000 = (e / 8 + 1) * 8 := Nat.mod_eq_of_lt (by omega)
    rw [e1] at hi
    exact lores_row_ok s _ _ i _ (by omega)

theorem hgr_row_ok (s : apple2e_t) (begin_row i : Nat) (fb : Nat → Nat)
    (h : begin_row + i < 192) :
    all_in_bounds (hgr_row_accesses s (hires_start_address s) begin_row i fb) := by
  unfold hgr_row_accesses
  simp only []
  have ha := hires_row_address_lt s (begin_row + i) h
  apply all_append
  · apply all_for
    intro col hc
    exact all_cons _ _ (ram_read_ok _ (by omega))
      (all_cons _ _ (ram_read_ok _ (by omega)) (all_cons _ _ (words_write_ok _ hc) all_nil))
  · exact render_line_color_ok _ _ _ _ h

theorem dhgr_row_ok (s : apple2e_t) (begin_row i : Nat) (fb : Nat → Nat)
    (h : begin_row + i < 192) :
    all_in_bounds (dhgr_row_accesses s (hires_start_address s) begin_row i fb) := by
  unfold dhgr_row_accesses
  simp only []
  have ha := hires_row_address_lt s (begin_row + i) h
  apply all_append
  · apply all_for
    intro col hc
    exact all_cons _ _ (aux_ram_read_ok _ (by omega))
      (all_cons _ _ (ram_read_ok _ (by omega)) (all_cons _ _ (words_write_ok _ hc) all_nil))
  · exact render_line_color_ok _ _ _ _ h

/-- The hi-res renderer over rows up to `end_row < 192` stays inside its arrays. -/
theorem hgr_update_ok (s : apple2e_t) (b e : Nat) (he : e < 192) :
    all_in_bounds (_apple2e_hgr_update_accesses s b e) := by
  unfold _apple2e_hgr_update_accesses
  by_cases c : hires_clean s = true
  · rw [if_pos c]
    exact all_nil
  · rw [if_neg c]
    simp only []
    apply all_for
    intro i hi
    exact hgr_row_ok s b i _ (by omega)

/-- The double hi-res renderer over rows up to `end_row < 192` stays inside its
arrays. -/
theorem dhgr_update_ok (s : apple2e_t) (b e : Nat) (he : e < 192) :
    all_in_bounds (_apple2e_dhgr_update_accesses s b e) := by
  unfold _apple2e_dhgr_update_accesses
  by_cases c : hires_clean s = true
  · rw [if_pos c]
    exact all_nil
  · rw [if_neg c]
    simp only []
    apply all_for
    intro i hi
    exact dhgr_row_ok s b i _ (by omega)

theorem lores_update_text_inputs (s : apple2e_t) (b e : Nat) :
    text_inputs (_apple2e_lores_update s b e) = text_inputs s := by
  unfold _apple2e_lores_update
  by_cases c : text_clean s = true
  · rw [if_pos c]
  · rw [if_neg c]
    cases hp : s.page2 <;> simp [text_inputs, hp]

theorem ram_bytes_of_text_inputs (a b : apple2e_t) (h : text_inputs a = text_inputs b)
    (hb : ram_bytes b) : ram_bytes a := by
  simp only [text_inputs, Prod.mk.injEq] at h
  obtain ⟨h1, h2, -⟩ := h
  intro i
  rw [h1, h2]
  exact hb i

/-- Every array access of `apple2e_screen_update` is inside its array, for every
state whose RAM planes hold bytes. -/
theorem screen_update_accesses_ok (s : apple2e_t) (hb : ram_bytes s) :
    all_in_bounds (apple2e_screen_update_accesses s) := by
  unfold apple2e_screen_update_accesses
  by_cases ht : s.text = true
  · simp only [ht, Bool.not_true, Bool.false_eq_true, if_false]
    rw [if_pos (by decide)]
    exact all_append _ _ all_nil (text_update_ok s hb 0 191 (by decide))
  · have ht' : s.text = false := by simpa using ht
    by_cases hm : s.mixed = true
    · by_cases hh : s.hires = true
      · by_cases hd : (s.dhires && s._80col) = true
        · simp only [ht', hm, hh, hd, Bool.not_false, if_true]
          rw [if_pos (by decide)]
          exact all_append _ _ (dhgr_update_ok s 0 _ (by decide))
            (text_update_ok _
              (ram_bytes_of_text_inputs _ _ (dhgr_update_text_inputs s 0 _) hb) _ 191 (by decide))
        · have hd' : (s.dhires && s._80col) = false := Bool.eq_false_iff.mpr hd
          simp only [ht', hm, hh, hd', Bool.not_false, if_true, Bool.false_eq_true, if_false]
          rw [if_pos (by decide)]
          exact all_append _ _ (hgr_update_ok s 0 _ (by decide))
            (text_update_ok _
              (ram_bytes_of_text_inputs _ _ (hgr_update_text_inputs s 0 _) hb) _ 191 (by decide))
      · have hh' : s.hires = false := by simpa using hh
        simp only [ht', hm, hh', Bool.not_false, if_true, Bool.false_eq_true, if_false]
        rw [if_pos (by decide)]
        exact all_append _ _ (lores_update_ok s 0 _ (by decide))
          (text_update_ok _
            (ram_bytes_of_text_inputs _ _ (lores_update_text_inputs s 0 _) hb) _ 191 (by decide))
    · have hm' : s.mixed = false := by simpa using hm
      by_cases hh : s.hires = true
      · by_cases hd : (s.dhires && s._80col) = true
        · simp only [ht', hm', hh, hd, Bool.not_false, if_true, Bool.false_eq_true, if_false]
          rw [if_neg (by decide)]
          exact all_append _ _ (dhgr_update_ok s 0 _ (by decide)) all_nil
        · have hd' : (s.dhires && s._80col) = false := Bool.eq_false_iff.mpr hd
          simp only [ht', hm', hh, hd', Bool.not_false, if_true, Bool.false_eq_true, if_false]
          rw [if_neg (by decide)]
          exact all_append _ _ (hgr_update_ok s 0 _ (by decide)) all_nil
      · have hh' : s.hires = false := by simpa using hh
        simp only [ht', hm', hh', Bool.not_false, if_true, Bool.false_eq_true, if_false]
        rw [if_neg (by decide)]
        exact all_append _ _ (lores_update_ok s 0 _ (by decide)) all_nil

/-! ## The hi-res renderers -/

theorem dhgr_words_eq (s : apple2e_t) (address c : Nat) (hc : c < 40) :
    dhgr_words s address c =
      ((s.aux_ram (address + c) &&& 0x7F) ||| ((s.ram (address + c) &&& 0x7F) <<< 7))
        &&& 0x3FFF := by
  unfold dhgr_words
  rw [words_loop_eq (fun col =>
    ((s.aux_ram (address + col) &&& 0x7F) ||| ((s.ram (address + col) &&& 0x7F) <<< 7))
      &&& 0x3FFF)]
  exact if_pos hc

theorem dhgr_words_lt (s : apple2e_t) (address c : Nat) (hc : c < 40) :
    dhgr_words s address c < 2 ^ 14 := by
  rw [dhgr_words_eq s address c hc]
  exact Nat.lt_of_le_of_lt Nat.and_le_right (by decide)

/-- One pass of the row loop of the hi-res renderer: the 280 bytes of the row. -/
theorem hgr_row_eq (s : apple2e_t) (i : Nat) (hi : i < 192) (fb : Nat → Nat) :
    hgr_row s (hires_start_address s) 0 i fb =
      fun j => if 0 + i * 280 ≤ j ∧ j < 0 + i * 280 + 280
        then hgr_byte s i (j - (0 + i * 280)) else fb j := by
  unfold hgr_row
  simp only [Nat.zero_add]
  rw [get_fb_addr_eq i (by omega)]
  funext j
  rw [render_line_color_eq fb _ _ false (fun c hc => hgr_words_lt _ c hc) j]
  rfl

/-- One pass of the row loop of the double hi-res renderer: the 280 bytes of the
row. -/
theorem dhgr_row_eq (s : apple2e_t) (i : Nat) (hi : i < 192) (fb : Nat → Nat) :
    dhgr_row s (hires_start_address s) 0 i fb =
      fun j => if 0 + i * 280 ≤ j ∧ j < 0 + i * 280 + 280
        then dhgr_byte s i (j - (0 + i * 280)) else fb j := by
  unfold dhgr_row
  simp only [Nat.zero_add]
  rw [get_fb_addr_eq i (by omega)]
  funext j
  show _apple2e_render_line_color fb (i * 280)
    (dhgr_words s (hires_row_address (hires_start_address s) i)) 0 40 true j = _
  rw [render_line_color_eq fb _ _ true (fun c hc => dhgr_words_lt s _ c hc) j]
  rfl

theorem hgr_update_fb_loop (s : apple2e_t) (b e : Nat) (hd : hires_clean s = false) :
    (_apple2e_hgr_update s b e).fb =
      loop (hgr_row s (hires_start_address s) b) (e + 1 - b) s.fb := by
  unfold _apple2e_hgr_update
  rw [if_neg (by rw [hd]; decide)]
  simp only []
  split <;> rfl

theorem dhgr_update_fb_loop (s : apple2e_t) (b e : Nat) (hd : hires_clean s = false) :
    (_apple2e_dhgr_update s b e).fb =
      loop (dhgr_row s (hires_start_address s) b) (e + 1 - b) s.fb := by
  unfold _apple2e_dhgr_update
  rw [if_neg (by rw [hd]; decide)]
  simp only []
  split <;> rfl

/-- The framebuffer after the hi-res renderer has run over rows `0..e`. -/
theorem hgr_update_fb (s : apple2e_t) (e : Nat) (hd : hires_clean s = false) (he : e < 192)
    (j : Nat) :
    (_apple2e_hgr_update s 0 e).fb j =
      if j < (e + 1) * 280 then hgr_byte s (j / 280) (j % 280) else s.fb j := by
  rw [hgr_update_fb_loop s 0 e hd,
    loop_fill_lt 280 0 (fun k x => hgr_byte s k x) (hgr_row s (hires_start_address s) 0)
      (e + 1 - 0) (fun k hk a => by rw [hgr_row_eq s k (by omega) a])]
  simp only [Nat.sub_zero]
  by_cases c : j < (e + 1) * 280
  · rw [if_pos (show 0 ≤ j ∧ j < 0 + (e + 1) * 280 from ⟨by omega, by omega⟩), if_pos c]
  · rw [if_neg (show ¬ (0 ≤ j ∧ j < 0 + (e + 1) * 280) from by omega), if_neg c]

/-- The framebuffer after the double hi-res renderer has run over rows `0..e`. -/
theorem dhgr_update_fb (s : apple2e_t) (e : Nat) (hd : hires_clean s = false) (he : e < 192)
    (j : Nat) :
    (_apple2e_dhgr_update s 0 e).fb j =
      if j < (e + 1) * 280 then dhgr_byte s (j / 280) (j % 280) else s.fb j := by
  rw [dhgr_update_fb_loop s 0 e hd,
    loop_fill_lt 280 0 (fun k x => dhgr_byte s k x) (dhgr_row s (hires_start_address s) 0)
      (e + 1 - 0) (fun k hk a => by rw [dhgr_row_eq s k (by omega) a])]
  simp only [Nat.sub_zero]
  by_cases c : j < (e + 1) * 280
  · rw [if_pos (show 0 ≤ j ∧ j < 0 + (e + 1) * 280 from ⟨by omega, by omega⟩), if_pos c]
  · rw [if_neg (show ¬ (0 ≤ j ∧ j < 0 + (e + 1) * 280) from by omega), if_neg c]

/-! ## The renderer does not depend on what lies beyond the arrays -/

theorem get_text_character_agree (s t : apple2e_t) (ha : t.altcharset = s.altcharset)
    (hf : t.flash = s.flash)
    (hc : ∀ i, i < 0x1000 → t.character_rom i = s.character_rom i) (code row : Nat)
    (hcode : code < 256) :
    _apple2e_get_text_character t code (row &&& 7) =
      _apple2e_get_text_character s code (row &&& 7) := by
  have h1 : code &&& 0x3F ≤ 0x3F := Nat.and_le_right
  have h2 : (code ||| 0x80) % 256 < 256 := Nat.mod_lt _ (by decide)
  have h3 : row &&& 7 ≤ 7 := Nat.and_le_right
  unfold _apple2e_get_text_character
  simp only []
  rw [ha, hf]
  split_ifs <;> dsimp only <;> rw [hc _ (by omega)]

theorem text_word_agree (s t : apple2e_t) (h80 : t._80col = s._80col)
    (ha : t.altcharset = s.altcharset) (hf : t.flash = s.flash)
    (hr : ∀ i, i < 0x10000 → t.ram i = s.ram i ∧ t.aux_ram i = s.aux_ram i)
    (hc : ∀ i, i < 0x1000 → t.character_rom i = s.character_rom i) (hb : ram_bytes s)
    (address row col : Nat) (hi : address + col < 0x10000) :
    text_word t address row col = text_word s address row col := by
  unfold text_word
  rw [h80, (hr _ hi).1, (hr _ hi).2,
    get_text_character_agree s t ha hf hc _ row (hb (address + col)).1,
    get_text_character_agree s t ha hf hc _ row (hb (address + col)).2]

theorem dirty_flags_fields (a b : apple2e_t) (h : dirty_flags a = dirty_flags b) :
    a.text_page1_dirty = b.text_page1_dirty ∧ a.text_page2_dirty = b.text_page2_dirty ∧
    a.hires_page1_dirty = b.hires_page1_dirty ∧ a.hires_page2_dirty = b.hires_page2_dirty := by
  simpa [dirty_flags] using h

theorem text_inputs_fields (a b : apple2e_t) (h : text_inputs a = text_inputs b) :
    a.ram = b.ram ∧ a.aux_ram = b.aux_ram ∧ a.character_rom = b.character_rom ∧
    a.altcharset = b.altcharset ∧ a.flash = b.flash := by
  simp only [text_inputs, Prod.mk.injEq, List.cons.injEq, and_true] at h
  exact ⟨h.1, h.2.1, h.2.2.1, h.2.2.2.2.1, h.2.2.2.2.2.1⟩

theorem text_update_text_inputs (s : apple2e_t) (b e : Nat) :
    text_inputs (_apple2e_text_update s b e) = text_inputs s := by
  unfold _apple2e_text_update
  by_cases c : text_clean s = true
  · rw [if_pos c]
  · rw [if_neg c]
    cases hp : s.page2 <;> simp [text_inputs, hp]

theorem agree_clean (s t : apple2e_t) (h : render_inputs_agree s t) :
    text_clean t = text_clean s ∧ hires_clean t = hires_clean s ∧
    text_start_address t = text_start_address s ∧
    hires_start_address t = hires_start_address s := by
  obtain ⟨-, hm, hd, -⟩ := h
  obtain ⟨-, -, -, -, -, m6, m7⟩ := render_mode_fields _ _ hm
  obtain ⟨d1, d2, d3, d4⟩ := dirty_flags_fields _ _ hd
  unfold text_clean hires_clean text_start_address hires_start_address
  rw [m6, m7, d1, d2, d3, d4]
  exact ⟨rfl, rfl, rfl, rfl⟩

/-- Two renderer results agree when their framebuffers and dirty flags agree and each
has kept the mode flags and the inputs of the text renderer of its start state. -/
theorem agree_of_parts (s t s2 t2 : apple2e_t) (h : render_inputs_agree s t)
    (hfb : t2.fb = s2.fb) (hd : dirty_flags t2 = dirty_flags s2)
    (hms : render_mode s2 = render_mode s) (hmt : render_mode t2 = render_mode t)
    (his : text_inputs s2 = text_inputs s) (hit : text_inputs t2 = text_inputs t) :
    render_inputs_agree s2 t2 := by
  obtain ⟨-, hm, -, ha, hf, hr, hc⟩ := h
  obtain ⟨s1, s2', s3, s4, s5⟩ := text_inputs_fields _ _ his
  obtain ⟨t1, t2', t3, t4, t5⟩ := text_inputs_fields _ _ hit
  refine ⟨hfb, hmt.trans (hm.trans hms.symm), hd, ?_, ?_, ?_, ?_⟩
  · rw [t4, s4]; exact ha
  · rw [t5, s5]; exact hf
  · intro i hi
    rw [t1, t2', s1, s2']
    exact hr i hi
  · intro i hi
    rw [t3, s3]
    exact hc i hi

theorem text_update_dirty_agree (s t : apple2e_t) (b e : Nat)
    (hd : dirty_flags t = dirty_flags s) (hp : t.page2 = s.page2) :
    dirty_flags (_apple2e_text_update t b e) = dirty_flags (_apple2e_text_update s b e) := by
  obtain ⟨d1, d2, d3, d4⟩ := dirty_flags_fields _ _ hd
  have hc : text_clean t = text_clean s := by unfold text_clean; rw [hp, d1, d2]
  unfold _apple2e_text_update
  rw [hc]
  by_cases c : text_clean s = true
  · rw [if_pos c, if_pos c]; exact hd
  · rw [if_neg c, if_neg c]
    cases hs : s.page2 <;> simp [dirty_flags, hs, hp, d3, d4, d1, d2]

theorem lores_update_dirty_agree (s t : apple2e_t) (b e : Nat)
    (hd : dirty_flags t = dirty_flags s) (hp : t.page2 = s.page2) :
    dirty_flags (_apple2e_lores_update t b e) = dirty_flags (_apple2e_lores_update s b e) := by
  obtain ⟨d1, d2, d3, d4⟩ := dirty_flags_fields _ _ hd
  have hc : text_clean t = text_clean s := by unfold text_clean; rw [hp, d1, d2]
  unfold _apple2e_lores_update
  rw [hc]
  by_cases c : text_clean s = true
  · rw [if_pos c, if_pos c]; exact hd
  · rw [if_neg c, if_neg c]
    cases hs : s.page2 <;> simp [dirty_flags, hs, hp, d3, d4, d1, d2]

theorem hgr_update_dirty_agree (s t : apple2e_t) (b e : Nat)
    (hd : dirty_flags t = dirty_flags s) (hp : t.page2 = s.page2) :
    dirty_flags (_apple2e_hgr_update t b e) = dirty_flags (_apple2e_hgr_update s b e) := by
  obtain ⟨d1, d2, d3, d4⟩ := dirty_flags_fields _ _ hd
  have hc : hires_clean t = hires_clean s := by unfold hires_clean; rw [hp, d3, d4]
  unfold _apple2e_hgr_update
  rw [hc]
  by_cases c : hires_clean s = true
  · rw [if_pos c, if_pos c]; exact hd
  · rw [if_neg c, if_neg c]
    cases hs : s.page2 <;> simp [dirty_flags, hs, hp, d3, d4, d1, d2]

theorem dhgr_update_dirty_agree (s t : apple2e_t) (b e : Nat)
    (hd : dirty_flags t = dirty_flags s) (hp : t.page2 = s.page2) :
    dirty_flags (_apple2e_dhgr_update t b e) = dirty_flags (_apple2e_dhgr_update s b e) := by
  obtain ⟨d1, d2, d3, d4⟩ := dirty_flags_fields _ _ hd
  have hc : hires_clean t = hires_clean s := by unfold hires_clean; rw [hp, d3, d4]
  unfold _apple2e_dhgr_update
  rw [hc]
  by_cases c : hires_clean s = true
  · rw [if_pos c, if_pos c]; exact hd
  · rw [if_neg c, if_neg c]
    cases hs : s.page2 <;> simp [dirty_flags, hs, hp, d3, d4, d1, d2]

theorem text_byte_agree (s t : apple2e_t) (h : render_inputs_agree s t) (hb : ram_bytes s)
    (r x : Nat) (hr : r < 192) (hx : x < 280) : text_byte t r x = text_byte s r x := by
  obtain ⟨-, -, hsa, -⟩ := agree_clean s t h
  obtain ⟨-, hm, -, ha, hf, hram, hc⟩ := h
  obtain ⟨-, -, -, -, m5, -, -⟩ := render_mode_fields _ _ hm
  have hA := text_row_address_lt s r hr
  unfold text_byte
  rw [hsa]
  by_cases c1 : x / 7 + 1 < 40
  · rw [if_pos c1, if_pos c1,
      text_word_agree s t m5 ha hf hram hc hb _ r (x / 7) (by omega),
      text_word_agree s t m5 ha hf hram hc hb _ r (x / 7 + 1) (by omega)]
  · rw [if_neg c1, if_neg c1,
      text_word_agree s t m5 ha hf hram hc hb _ r (x / 7) (by omega)]

theorem lores_byte_agree (s t : apple2e_t)
    (hram : ∀ i, i < 0x10000 → t.ram i = s.ram i ∧ t.aux_ram i = s.aux_ram i)
    (d : Bool) (address row col k : Nat) (hi : address + col < 0x10000) :
    lores_byte t d address row col k = lores_byte s d address row col k := by
  unfold lores_byte
  rw [(hram _ hi).1, (hram _ hi).2]

theorem hgr_words_agree (v w : Nat → Nat) (h : ∀ c, c < 40 → w c = v c) (c : Nat)
    (hc : c < 40) : hgr_words w c = hgr_words v c := by
  induction c with
  | zero =>
    rw [hgr_words_eq w 0 hc, hgr_words_eq v 0 hc, h 0 hc, if_pos rfl, if_pos rfl]
  | succ c ih =>
    rw [hgr_words_eq w (c + 1) hc, hgr_words_eq v (c + 1) hc, h (c + 1) hc,
      if_neg (Nat.succ_ne_zero c), if_neg (Nat.succ_ne_zero c), Nat.add_sub_cancel,
      ih (by omega)]

theorem color_window_agree (v w : Nat → Nat) (h : ∀ c, c < 40 → w c = v c) (c : Nat)
    (hc : c < 40) : color_window w c = color_window v c := by
  unfold color_window
  rw [h c hc]
  by_cases c0 : c = 0
  · rw [if_pos c0, if_pos c0]
    by_cases c1 : c + 1 < 40
    · rw [if_pos c1, if_pos c1, h _ c1]
    · rw [if_neg c1, if_neg c1]
  · rw [if_neg c0, if_neg c0, h (c - 1) (by omega)]
    by_cases c1 : c + 1 < 40
    · rw [if_pos c1, if_pos c1, h _ c1]
    · rw [if_neg c1, if_neg c1]

theorem hgr_byte_agree (s t : apple2e_t) (h : render_inputs_agree s t) (r x : Nat)
    (hr : r < 192) (hx : x < 280) : hgr_byte t r x = hgr_byte s r x := by
  obtain ⟨-, -, -, hsa⟩ := agree_clean s t h
  obtain ⟨-, -, -, -, -, hram, -⟩ := h
  have hA := hires_row_address_lt s r hr
  unfold hgr_byte
  rw [hsa, color_window_agree
    (hgr_words (fun col => s.ram (hires_row_address (hires_start_address s) r + col)))
    (hgr_words (fun col => t.ram (hires_row_address (hires_start_address s) r + col)))
    (fun c hc => hgr_words_agree _ _ (fun c' hc' => (hram _ (by omega)).1) c hc) (x / 7)
    (by omega)]

theorem dhgr_byte_agree (s t : apple2e_t) (h : render_inputs_agree s t) (r x : Nat)
    (hr : r < 192) (hx : x < 280) : dhgr_byte t r x = dhgr_byte s r x := by
  obtain ⟨-, -, -, hsa⟩ := agree_clean s t h
  obtain ⟨-, -, -, -, -, hram, -⟩ := h
  have hA := hires_row_address_lt s r hr
  unfold dhgr_byte
  rw [hsa, color_window_agree (dhgr_words s (hires_row_address (hires_start_address s) r))
    (dhgr_words t (hires_row_address (hires_start_address s) r))
    (fun c hc => by
      rw [dhgr_words_eq t _ c hc, dhgr_words_eq s _ c hc, (hram _ (by omega)).1,
        (hram _ (by omega)).2]) (x / 7) (by omega)]

/-- The text renderer over rows `b..e` gives agreeing results on agreeing inputs. -/
theorem text_update_agree (s t : apple2e_t) (h : render_inputs_agree s t) (hb : ram_bytes s)
    (b e : Nat) (hbe : b ≤ e) (he : e < 192) :
    render_inputs_agree (_apple2e_text_update s b e) (_apple2e_text_update t b e) := by
  obtain ⟨hc, -, -, -⟩ := agree_clean s t h
  have hp := (render_mode_fields _ _ h.2.1).2.2.2.2.2.1
  refine agree_of_parts s t _ _ h ?_ (text_update_dirty_agree s t b e h.2.2.1 hp)
    (text_update_props s b e).1 (text_update_props t b e).1
    (text_update_text_inputs s b e) (text_update_text_inputs t b e)
  by_cases c : text_clean s = true
  · rw [text_update_clean s b e c, text_update_clean t b e (hc.trans c)]
    exact h.1
  · have c' : text_clean s = false := by simpa using c
    funext j
    rw [text_update_fb s b e c' hbe he j, text_update_fb t b e (hc.trans c') hbe he j, h.1]
    by_cases cj : b / 8 * 8 * 280 ≤ j ∧ j < (e / 8 + 1) * 8 * 280
    · rw [if_pos cj, if_pos cj]
      exact text_byte_agree s t h hb _ _ (by omega) (Nat.mod_lt _ (by decide))
    · rw [if_neg cj, if_neg cj]

/-- The lo-res renderer over rows `0..e` gives agreeing results on agreeing inputs. -/
theorem lores_update_agree (s t : apple2e_t) (h : render_inputs_agree s t) (e : Nat)
    (he : e < 192) :
    render_inputs_agree (_apple2e_lores_update s 0 e) (_apple2e_lores_update t 0 e) := by
  obtain ⟨hc, -, hsa, -⟩ := agree_clean s t h
  obtain ⟨-, -, -, m4, m5, hp, -⟩ := render_mode_fields _ _ h.2.1
  refine agree_of_parts s t _ _ h ?_ (lores_update_dirty_agree s t 0 e h.2.2.1 hp)
    (lores_update_props s 0 e).1 (lores_update_props t 0 e).1
    (lores_update_text_inputs s 0 e) (lores_update_text_inputs t 0 e)
  by_cases c : text_clean s = true
  · rw [lores_update_clean s 0 e c, lores_update_clean t 0 e (hc.trans c)]
    exact h.1
  · have c' : text_clean s = false := by simpa using c
    funext j
    rw [lores_update_fb s e c' he j, lores_update_fb t e (hc.trans c') he j, h.1, hsa, m4, m5]
    by_cases cj : j < (e / 8 + 1) * 2240
    · have hA := text_row_address_lt s (4 * (j / 1120)) (by omega)
      rw [if_pos cj, if_pos cj]
      exact lores_byte_agree s t h.2.2.2.2.2.1 _ _ _ _ _ (by omega)
    · rw [if_neg cj, if_neg cj]

/-- The hi-res renderer over rows `0..e` gives agreeing results on agreeing inputs. -/
theorem hgr_update_agree (s t : apple2e_t) (h : render_inputs_agree s t) (e : Nat)
    (he : e < 192) :
    render_inputs_agree (_apple2e_hgr_update s 0 e) (_apple2e_hgr_update t 0 e) := by
  obtain ⟨-, hc, -, -⟩ := agree_clean s t h
  have hp := (render_mode_fields _ _ h.2.1).2.2.2.2.2.1
  refine agree_of_parts s t _ _ h ?_ (hgr_update_dirty_agree s t 0 e h.2.2.1 hp)
    (hgr_update_props s 0 e).1 (hgr_update_props t 0 e).1
    (hgr_update_text_inputs s 0 e) (hgr_update_text_inputs t 0 e)
  by_cases c : hires_clean s = true
  · rw [hgr_update_clean s 0 e c, hgr_update_clean t 0 e (hc.trans c)]
    exact h.1
  · have c' : hires_clean s = false := by simpa using c
    funext j
    rw [hgr_update_fb s e c' he j, hgr_update_fb t e (hc.trans c') he j, h.1]
    by_cases cj : j < (e + 1) * 280
    · rw [if_pos cj, if_pos cj]
      exact hgr_byte_agree s t h _ _ (by omega) (Nat.mod_lt _ (by decide))
    · rw [if_neg cj, if_neg cj]

/-- The double hi-res renderer over rows `0..e` gives agreeing results on agreeing
inputs. -/
theorem dhgr_update_agree (s t : apple2e_t) (h : render_inputs_agree s t) (e : Nat)
    (he : e < 192) :
    render_inputs_agree (_apple2e_dhgr_update s 0 e) (_apple2e_dhgr_update t 0 e) := by
  obtain ⟨-, hc, -, -⟩ := agree_clean s t h
  have hp := (render_mode_fields _ _ h.2.1).2.2.2.2.2.1
  refine agree_of_parts s t _ _ h ?_ (dhgr_update_dirty_agree s t 0 e h.2.2.1 hp)
    (dhgr_update_props s 0 e).1 (dhgr_update_props t 0 e).1
    (dhgr_update_text_inputs s 0 e) (dhgr_update_text_inputs t 0 e)
  by_cases c : hires_clean s = true
  · rw [dhgr_update_clean s 0 e c, dhgr_update_clean t 0 e (hc.trans c)]
    exact h.1
  · have c' : hires_clean s = false := by simpa using c
    funext j
    rw [dhgr_update_fb s e c' he j, dhgr_update_fb t e (hc.trans c') he j, h.1]
    by_cases cj : j < (e + 1) * 280
    · rw [if_pos cj, if_pos cj]
      exact dhgr_byte_agree s t h _ _ (by omega) (Nat.mod_lt _ (by decide))
    · rw [if_neg cj, if_neg cj]

theorem text_update_frame (s : apple2e_t) (b e : Nat) (hbe : b ≤ e) (he : e < 192) (j : Nat)
    (hj : 53760 ≤ j) : (_apple2e_text_update s b e).fb j = s.fb j := by
  by_cases c : text_clean s = true
  · rw [text_update_clean s b e c]
  · rw [text_update_fb s b e (by simpa using c) hbe he j,
      if_neg (show ¬ (b / 8 * 8 * 280 ≤ j ∧ j < (e / 8 + 1) * 8 * 280) from by omega)]

theorem lores_update_frame (s : apple2e_t) (e : Nat) (he : e < 192) (j : Nat)
    (hj : 53760 ≤ j) : (_apple2e_lores_update s 0 e).fb j = s.fb j := by
  by_cases c : text_clean s = true
  · rw [lores_update_clean s 0 e c]
  · rw [lores_update_fb s e (by simpa using c) he j,
      if_neg (show ¬ j < (e / 8 + 1) * 2240 from by omega)]

theorem hgr_update_frame (s : apple2e_t) (e : Nat) (he : e < 192) (j : Nat)
    (hj : 53760 ≤ j) : (_apple2e_hgr_update s 0 e).fb j = s.fb j := by
  by_cases c : hires_clean s = true
  · rw [hgr_update_clean s 0 e c]
  · rw [hgr_update_fb s e (by simpa using c) he j,
      if_neg (show ¬ j < (e + 1) * 280 from by omega)]

theorem dhgr_update_frame (s : apple2e_t) (e : Nat) (he : e < 192) (j : Nat)
    (hj : 53760 ≤ j) : (_apple2e_dhgr_update s 0 e).fb j = s.fb j := by
  by_cases c : hires_clean s = true
  · rw [dhgr_update_clean s 0 e c]
  · rw [dhgr_update_fb s e (by simpa using c) he j,
      if_neg (show ¬ j < (e + 1) * 280 from by omega)]

theorem graphics_update_frame (s : apple2e_t) (e : Nat) (he : e < 192) (j : Nat)
    (hj : 53760 ≤ j) : (graphics_update s e).fb j = s.fb j := by
  unfold graphics_update
  by_cases hh : s.hires = true
  · rw [if_pos hh]
    by_cases hd : (s.dhires && s._80col) = true
    · rw [if_pos hd]
      exact dhgr_update_frame s e he j hj
    · rw [if_neg hd]
      exact hgr_update_frame s e he j hj
  · rw [if_neg hh]
    exact lores_update_frame s e he j hj

/-- The renderer leaves every byte beyond the end of the framebuffer as it was. -/
theorem screen_update_frame (s : apple2e_t) (j : Nat) (hj : 53760 ≤ j) :
    (apple2e_screen_update s).fb j = s.fb j := by
  by_cases ht : s.text = true
  · rw [screen_update_text s ht]
    exact text_update_frame s 0 191 (by decide) (by decide) j hj
  · have ht' : s.text = false := by simpa using ht
    by_cases hm : s.mixed = true
    · rw [screen_update_mixed s ht' hm,
        text_update_frame _ 160 191 (by decide) (by decide) j hj]
      exact graphics_update_frame s 159 (by decide) j hj
    · have hm' : s.mixed = false := by simpa using hm
      rw [screen_update_full s ht' hm']
      exact graphics_update_frame s 191 (by decide) j hj

theorem graphics_update_inputs (s : apple2e_t) (e : Nat) :
    text_inputs (graphics_update s e) = text_inputs s := by
  unfold graphics_update
  by_cases hh : s.hires = true
  · rw [if_pos hh]
    by_cases hd : (s.dhires && s._80col) = true
    · rw [if_pos hd]
      exact dhgr_update_text_inputs s 0 e
    · rw [if_neg hd]
      exact hgr_update_text_inputs s 0 e
  · rw [if_neg hh]
    exact lores_update_text_inputs s 0 e

theorem graphics_update_agree (s t : apple2e_t) (h : render_inputs_agree s t) (e : Nat)
    (he : e < 192) :
    render_inputs_agree (graphics_update s e) (graphics_update t e) := by
  obtain ⟨-, -, m3, m4, m5, -, -⟩ := render_mode_fields _ _ h.2.1
  unfold graphics_update
  rw [m3, m4, m5]
  by_cases hh : s.hires = true
  · rw [if_pos hh, if_pos hh]
    by_cases hd : (s.dhires && s._80col) = true
    · rw [if_pos hd, if_pos hd]
      exact dhgr_update_agree s t h e he
    · rw [if_neg hd, if_neg hd]
      exact hgr_update_agree s t h e he
  · rw [if_neg hh, if_neg hh]
    exact lores_update_agree s t h e he

/-- The result of `apple2e_screen_update` does not depend on what the RAM planes would
hold at indices from `0x10000` on, nor on what the character ROM would hold from
`0x1000` on. -/
theorem screen_update_agree (s t : apple2e_t) (hb : ram_bytes s)
    (h : render_inputs_agree s t) :
    render_inputs_agree (apple2e_screen_update s) (apple2e_screen_update t) := by
  obtain ⟨m1, m2, -⟩ := render_mode_fields _ _ h.2.1
  by_cases ht : s.text = true
  · rw [screen_update_text s ht, screen_update_text t (m1.trans ht)]
    exact text_update_agree s t h hb 0 191 (by decide) (by decide)
  · have ht' : s.text = false := by simpa using ht
    by_cases hm : s.mixed = true
    · rw [screen_update_mixed s ht' hm, screen_update_mixed t (m1.trans ht') (m2.trans hm)]
      exact text_update_agree _ _ (graphics_update_agree s t h 159 (by decide))
        (ram_bytes_of_text_inputs _ _ (graphics_update_inputs s 159) hb) 160 191
        (by decide) (by decide)
    · have hm' : s.mixed = false := by simpa using hm
      rw [screen_update_full s ht' hm', screen_update_full t (m1.trans ht') (m2.trans hm')]
      exact graphics_update_agree s t h 191 (by decide)

/-- C32: for every machine state (every combination of `text`, `mixed`, `hires`,
`dhires`, `_80col`, `page2`, `_80store` and dirty flags) whose RAM planes hold bytes,
every framebuffer index written by `apple2e_screen_update` is below
`APPLE2E_FRAMEBUFFER_SIZE = 280 * 192 = 53760`, every RAM index it reads is below
`0x10000`, and every character-ROM index it reads is below `0x1000`, so no renderer
access is out of bounds (the reads of the colour table and of the local `words` array
included). In terms of the results: no byte beyond the end of the framebuffer is
changed, and two states that agree inside the arrays give agreeing results, whatever
would lie beyond the ends of RAM and character ROM. -/
theorem C32_renderer_in_bounds (s : apple2e_t) (hb : ram_bytes s) :
    all_in_bounds (apple2e_screen_update_accesses s) ∧
    APPLE2E_FRAMEBUFFER_SIZE = 280 * 192 ∧
    (∀ j, APPLE2E_FRAMEBUFFER_SIZE ≤ j → (apple2e_screen_update s).fb j = s.fb j) ∧
    (∀ t, render_inputs_agree s t →
      render_inputs_agree (apple2e_screen_update s) (apple2e_screen_update t)) :=
  ⟨screen_update_accesses_ok s hb, rfl, fun j hj => screen_update_frame s j hj,
    fun t h => screen_update_agree s t hb h⟩

theorem ex_lores_ram_bytes : ram_bytes ex_lores := by
  intro i
  have e1 : ex_lores.ram i = if i = 0x400 then 0x5A else ram_reset_pattern i := rfl
  have e2 : ex_lores.aux_ram i = ram_reset_pattern i := rfl
  rw [e1, e2]
  unfold ram_reset_pattern
  split_ifs <;> omega

/-- In full-screen lo-res mode with the text dirty flag set, the last byte of the
framebuffer is among the writes of `apple2e_screen_update`: the copy of row 188 to
row 191 ends at index `53759`. -/
theorem lores_writes_last_byte (s : apple2e_t) (ht : s.text = false) (hm : s.mixed = false)
    (hh : s.hires = false) (hd : text_clean s = false) :
    access.fb_write 53759 ∈ apple2e_screen_update_accesses s := by
  unfold apple2e_screen_update_accesses
  simp only [ht, hm, hh, Bool.not_false, if_true, Bool.false_eq_true, if_false]
  apply List.mem_append_left
  unfold _apple2e_lores_update_accesses
  rw [if_neg (by rw [hd]; decide)]
  simp only []
  refine (mem_accesses_for _ _ _).mpr ⟨47, by decide, ?_⟩
  unfold lores_row_accesses
  simp only []
  apply List.mem_append_right
  refine (mem_accesses_for _ _ _).mpr ⟨2, by decide, ?_⟩
  unfold memcpy_accesses
  refine (mem_accesses_for _ _ _).mpr ⟨279, by decide, ?_⟩
  have e : _apple2e_get_fb_addr (0 / 8 * 8 % 65536 + 4 * 47 + (2 + 1)) + 279 = 53759 := by decide
  rw [e]
  exact List.mem_cons_of_mem _ (List.mem_cons_self _ _)

/-- Witness of C32 on the power-on machine with `0x5A` written to `$0400` (lo-res,
text page 1 dirty): its RAM planes hold bytes, all accesses of the update are in
bounds, and the write of the last framebuffer byte `53759` is among them. -/
theorem C32_renderer_in_bounds_witness :
    ram_bytes ex_lores ∧ all_in_bounds (apple2e_screen_update_accesses ex_lores) ∧
    access.fb_write 53759 ∈ apple2e_screen_update_accesses ex_lores ∧
    (∀ j, APPLE2E_FRAMEBUFFER_SIZE ≤ j →
      (apple2e_screen_update ex_lores).fb j = ex_lores.fb j) :=
  ⟨ex_lores_ram_bytes, (C32_renderer_in_bounds ex_lores ex_lores_ram_bytes).1,
    lores_writes_last_byte ex_lores rfl rfl rfl rfl,
    (C32_renderer_in_bounds ex_lores ex_lores_ram_bytes).2.2.1⟩

/-- The text renderer hands the array `text_words` of the row to the monochrome
kernel. -/
theorem text_row_words (s : apple2e_t) (start_address start_row i : Nat) (fb : Nat → Nat) :
    text_row s start_address start_row i fb =
      _apple2e_render_line_monochrome fb (_apple2e_get_fb_addr (start_row + i))
        (text_words s (text_row_address start_address (start_row + i)) (start_row + i)) 0 40 :=
  rfl

/-- The double hi-res renderer hands the array `dhgr_words` of the row to the colour
kernel. -/
theorem dhgr_row_words (s : apple2e_t) (start_address begin_row i : Nat) (fb : Nat → Nat) :
    dhgr_row s start_address begin_row i fb =
      _apple2e_render_line_color fb (_apple2e_get_fb_addr (begin_row + i))
        (dhgr_words s (hires_row_address start_address (begin_row + i))) 0 40 true :=
  rfl

end Apple2e
